import Mathlib

/-!
Mantis scraper and enrichment pipeline (server/index.js)

A shallow embedding of the priority enricher (`fetchPriority`), the CSV exporter
(`performMantisExport`) and the bulk refresh job (`POST /api/mantis/refresh`) of
`server/index.js`, followed by theorems about them.

JavaScript strings are modelled as lists of characters.  The regular expressions used by
the code only mention Basic Latin characters, so matching on code points and matching on
UTF-16 code units agree.
-/

namespace Mantis

/-- A JavaScript string value. -/
abbrev JSString := List Char

/-! ## String primitives of the JavaScript runtime -/

/-- Characters removed by `String.prototype.trim`: the ECMAScript WhiteSpace and
LineTerminator code points. -/
def isJsWhitespace (c : Char) : Bool :=
  let n := c.toNat
  n == 0x09 || n == 0x0A || n == 0x0B || n == 0x0C || n == 0x0D || n == 0x20 ||
  n == 0xA0 || n == 0x1680 || (0x2000 ≤ n && n ≤ 0x200A) || n == 0x2028 || n == 0x2029 ||
  n == 0x202F || n == 0x205F || n == 0x3000 || n == 0xFEFF

/-- Removal of leading white space. -/
def trimStart (s : JSString) : JSString := s.dropWhile isJsWhitespace

/-- Removal of trailing white space. -/
def trimEnd (s : JSString) : JSString := (s.reverse.dropWhile isJsWhitespace).reverse

/-- The method `String.prototype.trim`. -/
def trim (s : JSString) : JSString := trimEnd (trimStart s)

/-- Lower-casing of one character, for Basic Latin and the Latin-1 Supplement (the
capitals `A`-`Z`, `À`-`Ö` and `Ø`-`Þ` move 32 code points up).  Other characters are left
as they are; none of them lower-cases to a letter of the strings the code compares
with. -/
def toLowerChar (c : Char) : Char :=
  let n := c.toNat
  if (0x41 ≤ n && n ≤ 0x5A) || (0xC0 ≤ n && n ≤ 0xD6) || (0xD8 ≤ n && n ≤ 0xDE) then
    Char.ofNat (n + 32)
  else c

/-- The method `String.prototype.toLowerCase`. -/
def toLowerCase (s : JSString) : JSString := s.map toLowerChar

/-- The method `String.prototype.startsWith`. -/
def startsWith (s p : JSString) : Bool := p.isPrefixOf s

/-- The method `String.prototype.includes`: `p` occurs somewhere in `s`. -/
def includes : JSString → JSString → Bool
  | [], p => p.isEmpty
  | c :: s, p => p.isPrefixOf (c :: s) || includes s p

/-- The character class `[1-9]`. -/
def isDigit19 (c : Char) : Bool := '1' ≤ c && c ≤ '9'

/-- The character class `\w` of a regular expression without the unicode flag. -/
def isWordChar (c : Char) : Bool := c.isAlphanum || c == '_'

/-- Result of `s.match(/^(P[1-9])/)`: the captured group, when the pattern matches. -/
def matchPrefixToken : JSString → Option JSString
  | 'P' :: d :: _ => if isDigit19 d then some ['P', d] else none
  | _ => none

/-- Result of `s.match(/^(P[1-9])$/)`: the captured group, when the pattern matches. -/
def matchExactToken : JSString → Option JSString
  | ['P', d] => if isDigit19 d then some ['P', d] else none
  | _ => none

/-- Whether a word boundary `\b` holds after a word character, in front of `rest`. -/
def boundaryAfterWord : JSString → Bool
  | [] => true
  | c :: _ => !isWordChar c

/-- Scan used by `s.match(/\b(P[1-9])\b/)`; `prevWord` tells whether the character in
front of the current position is a word character. -/
def scanGlobalToken : Bool → JSString → Option JSString
  | _, [] => none
  | prevWord, c :: rest =>
    if !prevWord && c == 'P' &&
        (match rest with
          | d :: rest2 => isDigit19 d && boundaryAfterWord rest2
          | [] => false) then
      some (c :: rest.take 1)
    else scanGlobalToken (isWordChar c) rest

/-- Result of `s.match(/\b(P[1-9])\b/)`: the captured group of the leftmost match. -/
def matchGlobalToken (s : JSString) : Option JSString := scanGlobalToken false s

/-! ## The parsed detail page -/

/-- A node of the document that cheerio builds from the page: a text node, or an element
with its tag name, the names of its `class` attribute, its other attributes (name and
value) and its child nodes. -/
inductive Node where
  | text (data : JSString)
  | element (name : JSString) (classes : List JSString) (attrs : List (JSString × JSString))
      (children : List Node)

/-- A parsed page: the child nodes of the document root. -/
abbrev Document := List Node

mutual
/-- The text of a node as cheerio's `.text()` gives it: the data of its text nodes in
document order. -/
def Node.textContent : Node → JSString
  | .text d => d
  | .element _ _ _ cs => textOfNodes cs
/-- Concatenated text of a list of nodes. -/
def textOfNodes : List Node → JSString
  | [] => []
  | n :: ns => n.textContent ++ textOfNodes ns
end

/-- Tag name of a node (empty for a text node). -/
def Node.tag : Node → JSString
  | .text _ => []
  | .element n _ _ _ => n

/-- Class names of a node. -/
def Node.classList : Node → List JSString
  | .text _ => []
  | .element _ cls _ _ => cls

/-- Child nodes of a node. -/
def Node.childNodes : Node → List Node
  | .text _ => []
  | .element _ _ _ cs => cs

/-- Whether a node is an element. -/
def Node.isElement : Node → Bool
  | .text _ => false
  | .element _ _ _ _ => true

/-- The call `$(el).attr(key)`: the value of an attribute other than `class`, if the
element has it. -/
def Node.attr : Node → JSString → Option JSString
  | .text _, _ => none
  | .element _ _ as _, key => (as.find? (fun kv => kv.1 == key)).map (fun kv => kv.2)

mutual
/-- The element `n` (whose following siblings are `sibs`) and the elements below it, in
document order, each paired with its own following siblings. -/
def Node.walk : Node → List Node → List (Node × List Node)
  | .text _, _ => []
  | .element nm cls as cs, sibs => (.element nm cls as cs, sibs) :: walkNodes cs
/-- All elements at or below the given sibling nodes, in document order. -/
def walkNodes : List Node → List (Node × List Node)
  | [] => []
  | n :: ns => n.walk ns ++ walkNodes ns
end

/-- Elements at or below `nodes` that satisfy `p`, in document order: the selection
`$(selector)` on the document, and `.find(selector)` on the children of an element. -/
def select (p : Node → Bool) (nodes : List Node) : List Node :=
  ((walkNodes nodes).filter (fun e => p e.1)).map (fun e => e.1)

/-- Like `select`, keeping with every element its following siblings. -/
def selectWithSiblings (p : Node → Bool) (nodes : List Node) : List (Node × List Node) :=
  (walkNodes nodes).filter (fun e => p e.1)

/-- Text of `$(el).next()`: the text of the next sibling that is an element, or the empty
string when there is none. -/
def nextText (sibs : List Node) : JSString :=
  match sibs.find? Node.isElement with
  | some n => n.textContent
  | none => []

/-- Selector `tr`. -/
def isTr (n : Node) : Bool := n.tag == "tr".toList

/-- Selector `th, td`. -/
def isThOrTd (n : Node) : Bool := n.tag == "th".toList || n.tag == "td".toList

/-- Selector `td.category, th`. -/
def isCategoryTdOrTh (n : Node) : Bool :=
  (n.tag == "td".toList && n.classList.contains "category".toList) || n.tag == "th".toList

/-- Selector `.bug-custom-field, td`. -/
def isCustomFieldOrTd (n : Node) : Bool :=
  (n.isElement && n.classList.contains "bug-custom-field".toList) || n.tag == "td".toList

/-- Selector `body`. -/
def isBody (n : Node) : Bool := n.tag == "body".toList

/-- The test `text === 'priorité' || text === 'priorite'`. -/
def isPriorityLabel (s : JSString) : Bool :=
  s == "priorité".toList || s == "priorite".toList

/-! ## The four extraction strategies of `fetchPriority` -/

/-- The tag recorded with a cache entry, telling which strategy produced the value. -/
inductive Reason where
  | not_found
  | match_custom_field_exact_label
  | match_flexible_label
  | match_direct_cell_pattern
  | fallback_global_pattern
  deriving DecidableEq, Repr

/-- The cells of a row, as the code takes them: `$(row).find('th, td')`. -/
def rowCells (row : Node) : List Node := select isThOrTd row.childNodes

/-- Body of the callback of `$('tr').each`: the token found in a row, if the row has at
least two cells, a first cell carrying the label and a second cell starting with a
token. -/
def rowToken (row : Node) : Option JSString :=
  match rowCells row with
  | c0 :: c1 :: _ =>
    if isPriorityLabel (toLowerCase (trim c0.textContent)) then
      matchPrefixToken (trim c1.textContent)
    else none
  | _ => none

/-- Strategy 1: the loop `$('tr').each(...)`, left at the first row that gives a token. -/
def strategy1 (doc : Document) : Option JSString :=
  (select isTr doc).findSome? rowToken

/-- Body of the callback of `$('td.category, th').each`. -/
def labelToken (e : Node × List Node) : Option JSString :=
  if isPriorityLabel (toLowerCase (trim e.1.textContent)) then
    matchPrefixToken (trim (nextText e.2))
  else none

/-- Strategy 2: the loop `$('td.category, th').each(...)`. -/
def strategy2 (doc : Document) : Option JSString :=
  (selectWithSiblings isCategoryTdOrTh doc).findSome? labelToken

/-- Body of the callback of `$('.bug-custom-field, td').each`. -/
def directToken (el : Node) : Option JSString := matchExactToken (trim el.textContent)

/-- Strategy 3: the loop `$('.bug-custom-field, td').each(...)`. -/
def strategy3 (doc : Document) : Option JSString :=
  (select isCustomFieldOrTd doc).findSome? directToken

/-- The text `$('body').text()`. -/
def bodyText (doc : Document) : JSString :=
  ((select isBody doc).map Node.textContent).flatten

/-- Strategy 4: the global pattern on the text of the body. -/
def strategy4 (doc : Document) : Option JSString := matchGlobalToken (bodyText doc)

/-- The cascade of the four strategies: the values of `priority` and `reason` when the
page has been examined.  A strategy runs only while `priority` is still empty; every token
a strategy yields is non-empty, so this is the first strategy that yields one. -/
def extractPriority (doc : Document) : JSString × Reason :=
  match strategy1 doc with
  | some p => (p, .match_custom_field_exact_label)
  | none =>
    match strategy2 doc with
    | some p => (p, .match_flexible_label)
    | none =>
      match strategy3 doc with
      | some p => (p, .match_direct_cell_pattern)
      | none =>
        match strategy4 doc with
        | some p => (p, .fallback_global_pattern)
        | none => ([], .not_found)

/-! ## The priority cache and `fetchPriority` -/

/-- An entry of `priorityCache`. -/
structure CacheEntry where
  value : JSString
  timestamp : Int
  reason : Reason
  deriving DecidableEq, Repr

/-- The map `priorityCache`, keyed by ticket id, in insertion order. -/
abbrev PriorityCache := List (JSString × CacheEntry)

/-- The call `priorityCache.get(id)`. -/
def PriorityCache.get (c : PriorityCache) (id : JSString) : Option CacheEntry :=
  (c.find? (fun kv => kv.1 == id)).map (fun kv => kv.2)

/-- The call `priorityCache.set(id, e)`: an existing key keeps its place and takes the new
entry, a new key is added at the end. -/
def PriorityCache.set : PriorityCache → JSString → CacheEntry → PriorityCache
  | [], id, e => [(id, e)]
  | kv :: rest, id, e =>
    if kv.1 == id then (id, e) :: rest else kv :: PriorityCache.set rest id e

/-- The call `priorityCache.delete(id)`. -/
def PriorityCache.delete (c : PriorityCache) (id : JSString) : PriorityCache :=
  c.filter (fun kv => !(kv.1 == id))

/-- The constant `CACHE_TTL`: 30 minutes, in milliseconds. -/
def CACHE_TTL : Int := 30 * 60 * 1000

/-- The constant `FAIL_CACHE_TTL`: 5 minutes, in milliseconds. -/
def FAIL_CACHE_TTL : Int := 5 * 60 * 1000

/-- The time to live chosen for a looked-up entry:
`(cached && cached.value) ? CACHE_TTL : FAIL_CACHE_TTL`. -/
def ttlOf (cached : Option CacheEntry) : Int :=
  match cached with
  | some e => if e.value.isEmpty then FAIL_CACHE_TTL else CACHE_TTL
  | none => FAIL_CACHE_TTL

/-- The test `cached && (Date.now() - cached.timestamp < ttl)`. -/
def isFresh (cached : Option CacheEntry) (now : Int) : Bool :=
  match cached with
  | some e => decide (now - e.timestamp < ttlOf cached)
  | none => false

/-- What one call of `fetchPriority` does: the value it returns, the cache it leaves and
whether it called `mantis.request`. -/
structure FetchOutcome where
  value : JSString
  cache : PriorityCache
  requested : Bool
  deriving DecidableEq, Repr

/-- The function `fetchPriority(mantis, issueId)`.  `now` is the clock read by the cache
test.  `response` is what the `try` block gets from `mantis.request` and `cheerio.load`:
the parsed page, or the message of the error thrown; `stamp` is the clock read when the
entry is stored.  Both are used only when the cache does not answer. -/
def fetchPriority (cache : PriorityCache) (issueId : JSString) (now : Int)
    (response : Except JSString Document) (stamp : Int) : FetchOutcome :=
  match cache.get issueId with
  | some e =>
    if isFresh (some e) now then
      { value := e.value, cache := cache, requested := false }
    else
      match response with
      | .ok doc =>
        let r := extractPriority doc
        { value := r.1,
          cache := cache.set issueId { value := r.1, timestamp := stamp, reason := r.2 },
          requested := true }
      | .error _ => { value := "ERR".toList, cache := cache, requested := true }
  | none =>
    match response with
    | .ok doc =>
      let r := extractPriority doc
      { value := r.1,
        cache := cache.set issueId { value := r.1, timestamp := stamp, reason := r.2 },
        requested := true }
    | .error _ => { value := "ERR".toList, cache := cache, requested := true }

/-! ## The CSV exporter `performMantisExport` -/

/-- The field `data` of a response: a string, or a value of another type. -/
inductive ResponseData where
  | text (s : JSString)
  | other
  deriving DecidableEq, Repr

/-- The property `length` of a string: its number of UTF-16 code units. -/
def utf16Length (s : JSString) : Nat :=
  (s.map (fun c => if c.toNat < 0x10000 then 1 else 2)).sum

/-- What `performMantisExport` returns: `res.data`, or `{ length: res.data.length }` in
debug mode (the length is undefined when the data is not a string). -/
inductive ExportValue where
  | data (d : ResponseData)
  | debug (length : Option Nat)
  deriving DecidableEq, Repr

/-- The test `typeof res.data === 'string' && res.data.includes('<html')`. -/
def containsHtmlMarker : ResponseData → Bool
  | .text s => includes s "<html".toList
  | .other => false

/-- The function `performMantisExport(mantis, isDebug)`.  `login` is the outcome of
`mantis.login()`, `loadFilter` the outcome of the request to `/view_all_set.php` and
`csvExport` the outcome of the request to `/csv_export.php`: each either succeeds or
throws an error with the given message.  A later step runs only when the steps before it
succeeded. -/
def performMantisExport (login loadFilter : Except JSString Unit)
    (csvExport : Except JSString ResponseData) (isDebug : Bool) :
    Except JSString ExportValue :=
  match login with
  | .error m => .error m
  | .ok _ =>
    match loadFilter with
    | .error m => .error m
    | .ok _ =>
      match csvExport with
      | .error m => .error m
      | .ok d =>
        if containsHtmlMarker d then .error "Export returned HTML".toList
        else if isDebug then
          .ok (.debug (match d with
            | .text s => some (utf16Length s)
            | .other => none))
        else .ok (.data d)

/-- The helper `logger.isHtml`:
`typeof data === 'string' && data.trim().toLowerCase().startsWith('<!doctype html')`. -/
def isHtml : ExportValue → Bool
  | .data (.text s) => startsWith (toLowerCase (trim s)) "<!doctype html".toList
  | _ => false

/-! ## The bulk refresh job -/

/-- The singleton `refreshJob`. -/
structure RefreshJob where
  isRunning : Bool
  current : Nat
  total : Nat
  startTime : Option JSString
  success : Nat
  failed : Nat
  lastUpdate : Option JSString
  error : Option JSString
  deriving DecidableEq, Repr

/-- The initial value of `refreshJob`. -/
def idleJob : RefreshJob :=
  { isRunning := false, current := 0, total := 0, startTime := none, success := 0,
    failed := 0, lastUpdate := none, error := none }

/-- The value assigned to `refreshJob` when a job starts; `startIso` is
`new Date().toISOString()`. -/
def startJob (startIso : JSString) : RefreshJob :=
  { isRunning := true, current := 0, total := 0, startTime := some startIso, success := 0,
    failed := 0, lastUpdate := none, error := none }

/-- The entries of `process.env` that the refresh reads. -/
structure Env where
  MANTIS_BASE_URL : Option JSString
  MANTIS_USERNAME : Option JSString
  MANTIS_PASSWORD : Option JSString
  MANTIS_ENRICH_CONCURRENCY : Option JSString
  MANTIS_SOURCE_QUERY_ID : Option JSString
  deriving DecidableEq, Repr

/-- Whether a value read from `process.env` or from a row is truthy: defined and
non-empty. -/
def truthy : Option JSString → Bool
  | some s => !s.isEmpty
  | none => false

/-- The reply of the route `POST /api/mantis/refresh`: the status code and the fields of
the JSON body. -/
structure HttpReply where
  status : Nat
  error : Option JSString
  message : Option JSString
  jobId : Option JSString
  deriving DecidableEq, Repr

/-- The handler of `POST /api/mantis/refresh` up to the point where it gives control
back: the reply, the value of `refreshJob` at that point and whether a background job has
been started.  `rid` is the value of the template string for the job id and `startIso` the
date read when the job starts. -/
def postRefresh (job : RefreshJob) (env : Env) (rid startIso : JSString) :
    HttpReply × RefreshJob × Bool :=
  if job.isRunning then
    ({ status := 409, error := some "Refresh already in progress".toList, message := none,
       jobId := none }, job, false)
  else if !truthy env.MANTIS_BASE_URL || !truthy env.MANTIS_USERNAME ||
      !truthy env.MANTIS_PASSWORD then
    ({ status := 500, error := some "Missing configuration".toList, message := none,
       jobId := none }, job, false)
  else
    ({ status := 200, error := none, message := some "Refresh started".toList,
       jobId := some rid }, startJob startIso, true)

/-- A row parsed from the CSV export: column names with their values, in order. -/
abbrev Row := List (JSString × JSString)

/-- Reading `row[key]`. -/
def Row.get (r : Row) (key : JSString) : Option JSString :=
  (r.find? (fun kv => kv.1 == key)).map (fun kv => kv.2)

/-- The assignment `row[key] = v`: an existing column takes the value, a new column is
added at the end. -/
def Row.set : Row → JSString → JSString → Row
  | [], key, v => [(key, v)]
  | kv :: rest, key, v =>
    if kv.1 == key then (key, v) :: rest else kv :: Row.set rest key v

/-- The value `row['Identifiant'] || row['id']` when it is truthy. -/
def rowIdentifier (row : Row) : Option JSString :=
  if truthy (row.get "Identifiant".toList) then row.get "Identifiant".toList
  else if truthy (row.get "id".toList) then row.get "id".toList
  else none

/-- The call `idAttr.replace(/^0+/, '')`. -/
def stripLeadingZeros (s : JSString) : JSString := s.dropWhile (fun c => c == '0')

/-- The callback run for one row of a chunk.  `fetch idx id` is what the call
`fetchPriority(mantis, id)` made for the row at index `idx` gives: the value returned, or
the message of an error thrown; `clock idx` is the date read when this row completes. -/
def processRow (fetch : Nat → JSString → Except JSString JSString) (clock : Nat → JSString)
    (idx : Nat) (row : Row) (job : RefreshJob) : Row × RefreshJob :=
  let step : Row × RefreshJob :=
    match rowIdentifier row with
    | some idAttr =>
      match fetch idx (stripLeadingZeros idAttr) with
      | .ok val =>
        (row.set "priorite_p".toList val,
          if !val.isEmpty && val != "ERR".toList then { job with success := job.success + 1 }
          else { job with failed := job.failed + 1 })
      | .error _ =>
        (row.set "priorite_p".toList "ERR".toList, { job with failed := job.failed + 1 })
    | none => (row, { job with success := job.success + 1 })
  (step.1, { step.2 with current := step.2.current + 1, lastUpdate := some (clock idx) })

/-- The rows of one chunk, run to completion (`await Promise.all(chunk.map(...))`); `idx`
is the index of the first row of the chunk.  The updates of one row are made in one go, and
the counters do not depend on the order in which the rows of a chunk complete; the rows are
taken in the order of the chunk. -/
def processChunk (fetch : Nat → JSString → Except JSString JSString)
    (clock : Nat → JSString) : Nat → List Row → RefreshJob → List Row × RefreshJob
  | _, [], job => ([], job)
  | idx, row :: rest, job =>
    let r := processRow fetch clock idx row job
    let rs := processChunk fetch clock (idx + 1) rest r.2
    (r.1 :: rs.1, rs.2)

/-- An argument of `Array.prototype.slice` turned into a position between 0 and `len`: a
negative value counts from the end. -/
def relativeIndex (len : Nat) (k : Int) : Nat :=
  if k < 0 then (len + k).toNat else min k.toNat len

/-- The loop `for (let i = 0; i < rows.length; i += concurrency)` from the value `i` on.
`concurrency` is the result of `parseInt`: an integer, or `none` for `NaN`.  `fuel` bounds
the number of iterations; the result is `none` when the loop has not ended within them.
The chunk is `rows.slice(i, i + concurrency)`; the rows of the chunk are updated in
place. -/
def enrichLoop (fetch : Nat → JSString → Except JSString JSString) (clock : Nat → JSString)
    (concurrency : Option Int) : Nat → Int → List Row → RefreshJob →
    Option (List Row × RefreshJob)
  | fuel, i, rows, job =>
    if i < rows.length then
      match fuel with
      | 0 => none
      | fuel + 1 =>
        let lo := relativeIndex rows.length i
        let hi := relativeIndex rows.length
          (match concurrency with
            | some c => i + c
            | none => 0)
        let chunk := (rows.drop lo).take (hi - lo)
        let done := processChunk fetch clock lo chunk job
        let rows2 := rows.take lo ++ done.1 ++ rows.drop (lo + chunk.length)
        match concurrency with
        | some c => enrichLoop fetch clock concurrency fuel (i + c) rows2 done.2
        | none => some (rows2, done.2)
    else some (rows, job)

/-- The `summary` written with the rows. -/
structure Summary where
  totalRows : Nat
  enrichedTotal : Nat
  enrichedSuccess : Nat
  enrichedFailed : Nat
  deriving DecidableEq, Repr

/-- The document serialized by `writeCacheAtomic`: `{ data, lastUpdated, summary }`. -/
structure CacheDocument where
  data : List Row
  lastUpdated : JSString
  summary : Summary
  deriving DecidableEq, Repr

/-- The content of a file: a complete document, or the truncated serialization of one. -/
inductive FileContent where
  | complete (doc : CacheDocument)
  | truncated (doc : CacheDocument)
  deriving DecidableEq, Repr

/-- The two paths `writeCacheAtomic` works on: `CACHE_FILE` and `CACHE_FILE + '.tmp'`. -/
structure FileSystem where
  cacheFile : Option FileContent
  tempFile : Option FileContent
  deriving DecidableEq, Repr

/-- Where a run of `writeCacheAtomic` fails, if it does: `fs.writeFileSync` throws, leaving
a truncated temporary file, or `fs.renameSync` throws. -/
inductive WriteFault where
  | none
  | duringTempWrite (msg : JSString)
  | atRename (msg : JSString)
  deriving DecidableEq, Repr

/-- The function `writeCacheAtomic(data, summary)`: the file system it leaves, and the
message of the error thrown if it fails.  `stamp` is the date read for `lastUpdated`. -/
def writeCacheAtomic (fs : FileSystem) (data : List Row) (summary : Summary)
    (stamp : JSString) (fault : WriteFault) : FileSystem × Except JSString Unit :=
  let doc : CacheDocument := { data := data, lastUpdated := stamp, summary := summary }
  match fault with
  | .duringTempWrite msg => ({ fs with tempFile := some (.truncated doc) }, .error msg)
  | .atRename msg => ({ fs with tempFile := some (.complete doc) }, .error msg)
  | .none => ({ cacheFile := some (.complete doc), tempFile := none }, .ok ())

/-- Lines 739-745 of the job: export, test for an HTML page, parsing.  `parse` stands for
`Papa.parse(csv, { header: true, skipEmptyLines: true }).data`, which either gives rows or
throws. -/
def prepareRows (login loadFilter : Except JSString Unit)
    (csvExport : Except JSString ResponseData)
    (parse : ExportValue → Except JSString (List Row)) : Except JSString (List Row) :=
  match performMantisExport login loadFilter csvExport false with
  | .error m => .error m
  | .ok csv =>
    if isHtml csv then
      .error "Mantis session expired or login required (HTML detected)".toList
    else parse csv

/-- The inputs of one background job that come from outside: the outcomes of the login and
of the two export requests, the parser, the parsed concurrency, the outcomes of the
priority look-ups, the dates read and the fault of the final write. -/
structure JobInputs where
  startIso : JSString
  login : Except JSString Unit
  loadFilter : Except JSString Unit
  csvExport : Except JSString ResponseData
  parse : ExportValue → Except JSString (List Row)
  concurrency : Option Int
  fetch : Nat → JSString → Except JSString JSString
  clock : Nat → JSString
  writeStamp : JSString
  writeFault : WriteFault

/-- The `try` block of the background job, from the job state set at the start of the job;
`none` when the enrichment loop does not end within `fuel` iterations.  Gives the job
state and the file system reached, and the message of the error thrown, if any. -/
def refreshTry (fuel : Nat) (inp : JobInputs) (fs : FileSystem) (job : RefreshJob) :
    Option (RefreshJob × FileSystem × Except JSString Unit) :=
  match prepareRows inp.login inp.loadFilter inp.csvExport inp.parse with
  | .error m => some (job, fs, .error m)
  | .ok rows =>
    let job1 := { job with total := rows.length }
    match enrichLoop inp.fetch inp.clock inp.concurrency fuel 0 rows job1 with
    | none => none
    | some (rows2, job2) =>
      let w := writeCacheAtomic fs rows2
        { totalRows := job2.total, enrichedTotal := job2.current,
          enrichedSuccess := job2.success, enrichedFailed := job2.failed }
        inp.writeStamp inp.writeFault
      some (job2, w.1, w.2)

/-- The background job started by `POST /api/mantis/refresh`: the job state is reset, the
`try` block runs, `catch` records the message of an error and `finally` clears
`isRunning`.  Gives the final job state and file system, or `none` when the enrichment
loop of the job is still running after `fuel` iterations. -/
def runRefreshJob (fuel : Nat) (inp : JobInputs) (fs : FileSystem) :
    Option (RefreshJob × FileSystem) :=
  match refreshTry fuel inp fs (startJob inp.startIso) with
  | none => none
  | some (job, fs2, .ok _) => some ({ job with isRunning := false }, fs2)
  | some (job, fs2, .error m) => some ({ job with error := some m, isRunning := false }, fs2)

/-! ## Descriptions of what the strategies look for -/

/-- A row with at least two cells whose first cell's text, trimmed and lower-cased, is
`priorité` or `priorite`, and whose second cell's trimmed text starts with `P` followed by
the digit `d`, one of 1-9. -/
def LabelRow (row : Node) (d : Char) : Prop :=
  ∃ c0 c1 rest tail, rowCells row = c0 :: c1 :: rest ∧
    (toLowerCase (trim c0.textContent) = "priorité".toList ∨
      toLowerCase (trim c0.textContent) = "priorite".toList) ∧
    trim c1.textContent = 'P' :: d :: tail ∧ '1' ≤ d ∧ d ≤ '9'

/-- A cell selected by strategy 2 (with its following siblings) whose text, trimmed and
lower-cased, is the label and whose next sibling element's trimmed text starts with `P`
followed by the digit `d`, one of 1-9. -/
def LabelCell (e : Node × List Node) (d : Char) : Prop :=
  (toLowerCase (trim e.1.textContent) = "priorité".toList ∨
    toLowerCase (trim e.1.textContent) = "priorite".toList) ∧
  ∃ tail, trim (nextText e.2) = 'P' :: d :: tail ∧ '1' ≤ d ∧ d ≤ '9'

/-- The string `s` is exactly `P` followed by the digit `d`, one of 1-9. -/
def TokenText (s : JSString) (d : Char) : Prop := s = ['P', d] ∧ '1' ≤ d ∧ d ≤ '9'

/-- Whether the last character of `pre` is a word character; `prevWord` answers for an
empty `pre`. -/
def wordBefore (prevWord : Bool) : JSString → Bool
  | [] => prevWord
  | c :: rest => wordBefore (isWordChar c) rest

/-- The string `s` holds `P` followed by the digit `d` (1-9) as a standalone token: no word
character stands right before it (`prevWord` answers at the start of `s`) or right after
it. -/
def StandaloneAt (prevWord : Bool) (s : JSString) (d : Char) : Prop :=
  ∃ pre post, s = pre ++ 'P' :: d :: post ∧ '1' ≤ d ∧ d ≤ '9' ∧
    wordBefore prevWord pre = false ∧ boundaryAfterWord post = true

/-- A standalone token `P` + `d` occurs in the string `s`. -/
def StandaloneToken (s : JSString) (d : Char) : Prop := StandaloneAt false s d

/-- The job state `after` comes from `before` by the completion of `n` rows: `current`
has grown by `n`, `success` and `failed` together by `n`, the other fields but
`lastUpdate` are the same. -/
def Advanced (before after : RefreshJob) (n : Nat) : Prop :=
  after.current = before.current + n ∧
  after.success + after.failed = before.success + before.failed + n ∧
  after.total = before.total ∧ after.isRunning = before.isRunning ∧
  after.error = before.error ∧ after.startTime = before.startTime

/-! ## Fixture pages -/

/-- An element without class names. -/
def plainElement (name : String) (children : List Node) : Node :=
  .element name.toList [] [] children

/-- A page as cheerio parses it, wrapping `content` in `html`, `head` and `body`. -/
def pageOf (content : List Node) : Document :=
  [plainElement "html" [plainElement "head" [], plainElement "body" content]]

/-- The row `<tr><td>Priorité</td><td>P2 - Majeure</td></tr>`. -/
def fixtureRow : Node :=
  plainElement "tr" [plainElement "td" [.text "Priorité".toList],
    plainElement "td" [.text "P2 - Majeure".toList]]

/-- A detail page holding a table with the row `fixtureRow`. -/
def fixturePage : Document :=
  pageOf [plainElement "table" [plainElement "tbody" [fixtureRow]]]

/-- The header cell `<th>P3</th>`. -/
def headerCell : Node := plainElement "th" [.text "P3".toList]

/-- A page whose only cell is the header cell `<th>P3</th>`. -/
def headerCellPage : Document :=
  pageOf [plainElement "table" [plainElement "tbody" [plainElement "tr" [headerCell]]]]

/-- The element `<div class="bug-custom-field">P1</div>`. -/
def customFieldDiv : Node :=
  .element "div".toList ["bug-custom-field".toList] [] [.text "P1".toList]

/-- The cell `<td>P2</td>`. -/
def plainCell : Node := plainElement "td" [.text "P2".toList]

/-- A page with `<div class="bug-custom-field">P1</div>` in front of a table whose only
cell is `<td>P2</td>`. -/
def customFieldPage : Document :=
  pageOf [customFieldDiv,
    plainElement "table" [plainElement "tbody" [plainElement "tr" [plainCell]]]]

/-- A page with the row `<tr><td>Priorité</td><td>Haute</td></tr>` and nothing that looks
like a `P` + digit token. -/
def notFoundPage : Document :=
  pageOf [plainElement "table" [plainElement "tbody" [plainElement "tr"
    [plainElement "td" [.text "Priorité".toList], plainElement "td" [.text "Haute".toList]]]]]

/-! ## Fixtures for the refresh job -/

/-- A job state in the middle of a run. -/
def runningJob : RefreshJob :=
  { isRunning := true, current := 7, total := 12, startTime := some "2024-05-01T08:00:00.000Z".toList,
    success := 5, failed := 2, lastUpdate := some "2024-05-01T08:00:09.000Z".toList,
    error := none }

/-- A complete configuration. -/
def sampleEnv : Env :=
  { MANTIS_BASE_URL := some "https://mantis.example".toList,
    MANTIS_USERNAME := some "user".toList, MANTIS_PASSWORD := some "secret".toList,
    MANTIS_ENRICH_CONCURRENCY := none, MANTIS_SOURCE_QUERY_ID := none }

/-- Twelve exported rows: eight with an identifier, four without. -/
def twelveRows : List Row :=
  List.replicate 8 [("Identifiant".toList, "0004217".toList), ("Résumé".toList, "x".toList)] ++
  List.replicate 4 [("Résumé".toList, "y".toList)]

/-- Inputs of a job whose export parses to `twelveRows`, with concurrency 5; the priority
look-ups give in turn a priority, nothing, and an error. -/
def twelveRowInputs : JobInputs :=
  { startIso := "2024-05-01T08:00:00.000Z".toList,
    login := .ok (), loadFilter := .ok (),
    csvExport := .ok (.text "Identifiant,Résumé".toList),
    parse := fun _ => .ok twelveRows,
    concurrency := some 5,
    fetch := fun idx _ =>
      if idx % 3 = 0 then .ok "P1".toList
      else if idx % 3 = 1 then .ok []
      else .error "boom".toList,
    clock := fun _ => "2024-05-01T08:00:01.000Z".toList,
    writeStamp := "2024-05-01T08:00:02.000Z".toList,
    writeFault := .none }

/-- Inputs of a job whose login fails. -/
def failedLoginInputs : JobInputs :=
  { twelveRowInputs with login := .error "Auth failed - redirected back to login".toList }

/-- A file system holding an earlier cache document. -/
def earlierFiles : FileSystem :=
  { cacheFile := some (.complete
      { data := [], lastUpdated := "2024-04-30T08:00:00.000Z".toList,
        summary := { totalRows := 0, enrichedTotal := 0, enrichedSuccess := 0,
                     enrichedFailed := 0 } }),
    tempFile := none }

/-! ## The session client `MantisClient.request` -/

/-- The table `[500, 1500, 3000]` of delays, in milliseconds. -/
def retryDelays : List Nat := [500, 1500, 3000]

/-- What one call of `MantisClient.request` does: its result (the response, or the error
thrown, `none` standing for a `lastError` left undefined), the number of attempts made and
the delays waited, in order. -/
structure RequestRun (ε ρ : Type) where
  result : Except (Option ε) ρ
  attempts : Nat
  delays : List Nat

/-- The loop `for (let attempt = 1; attempt <= 3; attempt++)` of `MantisClient.request`
from the value `attempt` on, with `remaining = 4 - attempt` iterations left.  `send k` is
the outcome of `this.client(config)` at attempt `k`: a response, or an error thrown (of any
kind).  `waited` holds the delays waited so far.  A delay the table lacks is `undefined`,
which `setTimeout` takes as 0.  The calls of `this.log` are left out. -/
def requestLoop {ε ρ : Type} (send : Nat → Except ε ρ) :
    Nat → Nat → Option ε → List Nat → RequestRun ε ρ
  | 0, attempt, lastError, waited =>
    { result := .error lastError, attempts := attempt - 1, delays := waited }
  | remaining + 1, attempt, _, waited =>
    match send attempt with
    | .ok res => { result := .ok res, attempts := attempt, delays := waited }
    | .error e =>
      requestLoop send remaining (attempt + 1) (some e)
        (if attempt < 3 then waited ++ [retryDelays.getD (attempt - 1) 0] else waited)

/-- The method `MantisClient.request(method, url, data, options)`. -/
def request {ε ρ : Type} (send : Nat → Except ε ρ) : RequestRun ε ρ :=
  requestLoop send 3 1 none []

/-! ## The authenticator `MantisClient.login` -/

mutual
/-- The elements at or below the node `n` (whose following siblings are `sibs`) that have
an ancestor satisfying `ctx`, in document order, each paired with its following siblings;
`inside` tells whether an element above `n` satisfies `ctx`. -/
def Node.walkInside (ctx : Node → Bool) : Bool → Node → List Node → List (Node × List Node)
  | _, .text _, _ => []
  | inside, .element nm cls as cs, sibs =>
    (if inside then [(Node.element nm cls as cs, sibs)] else []) ++
      walkNodesInside ctx (inside || ctx (.element nm cls as cs)) cs
/-- The elements at or below the given sibling nodes that have an ancestor satisfying
`ctx`. -/
def walkNodesInside (ctx : Node → Bool) : Bool → List Node → List (Node × List Node)
  | _, [] => []
  | inside, n :: ns => n.walkInside ctx inside ns ++ walkNodesInside ctx inside ns
end

/-- The selection `$('ctx p')` with a descendant combinator: the elements satisfying `p`
below an element satisfying `ctx`, in document order, with their following siblings. -/
def selectInside (ctx p : Node → Bool) (nodes : List Node) : List (Node × List Node) :=
  (walkNodesInside ctx false nodes).filter (fun e => p e.1)

/-- Selector `form`. -/
def isForm (n : Node) : Bool := n.tag == "form".toList

/-- Selector `input`. -/
def isInput (n : Node) : Bool := n.tag == "input".toList

/-- The fields of a form to post; a value may be undefined. -/
abbrev FormFields := List (JSString × Option JSString)

/-- The assignment `fields[key] = v`. -/
def FormFields.set : FormFields → JSString → Option JSString → FormFields
  | [], key, v => [(key, v)]
  | kv :: rest, key, v =>
    if kv.1 == key then (key, v) :: rest else kv :: FormFields.set rest key v

/-- The expression `v || d` for a string `v` that may be undefined. -/
def orDefault (v : Option JSString) (d : JSString) : JSString :=
  match v with
  | some s => if s.isEmpty then d else s
  | none => d

/-- The value `$('form').attr('action') || fallback`: the attribute of the first form. -/
def formAction (doc : Document) (fallback : JSString) : JSString :=
  orDefault ((select isForm doc).head?.bind (fun f => f.attr "action".toList)) fallback

/-- The object filled by `$('form input').each(...)`: for every input of a form, the field
named by its attribute `name` (the key `undefined` without one) gets its attribute `value`,
or the empty string. -/
def formInputs (doc : Document) : FormFields :=
  (selectInside isForm isInput doc).foldl
    (fun fields e =>
      fields.set (match e.1.attr "name".toList with
          | some n => n
          | none => "undefined".toList)
        (some (orDefault (e.1.attr "value".toList) [])))
    []

/-- A call of `MantisClient.request`: method, url and posted fields. -/
structure HttpRequest where
  method : JSString
  url : JSString
  data : Option FormFields
  deriving DecidableEq, Repr

/-- What `login` reads of a response: the parsed page `res.data` and `res.request.path`. -/
structure PageResponse where
  data : Document
  requestPath : JSString

/-- The first request of `login`. -/
def loginRequest1 : HttpRequest :=
  { method := "GET".toList, url := "/login_page.php".toList, data := none }

/-- The second request of `login`, built from the login page. -/
def loginRequest2 (username : Option JSString) (page : PageResponse) : HttpRequest :=
  { method := "POST".toList,
    url := '/' :: formAction page.data "login_password_page.php".toList,
    data := some ((formInputs page.data).set "username".toList username) }

/-- The third request of `login`, built from the password page. -/
def loginRequest3 (password : Option JSString) (page : PageResponse) : HttpRequest :=
  { method := "POST".toList,
    url := '/' :: formAction page.data "login.php".toList,
    data := some ((formInputs page.data).set "password".toList password) }

/-- What one call of `login` does: its result (`true`, or the message of the error thrown)
and the requests it has made, in order. -/
structure LoginRun where
  result : Except JSString Bool
  requests : List HttpRequest

/-- The method `MantisClient.login()`.  `send k req` is the outcome of the `k`-th call of
`this.request`: a response, or the message of the error thrown once its attempts are
used up. -/
def login (username password : Option JSString)
    (send : Nat → HttpRequest → Except JSString PageResponse) : LoginRun :=
  match send 1 loginRequest1 with
  | .error m => { result := .error m, requests := [loginRequest1] }
  | .ok res1 =>
    match send 2 (loginRequest2 username res1) with
    | .error m =>
      { result := .error m, requests := [loginRequest1, loginRequest2 username res1] }
    | .ok res2 =>
      match send 3 (loginRequest3 password res2) with
      | .error m =>
        { result := .error m,
          requests := [loginRequest1, loginRequest2 username res1,
            loginRequest3 password res2] }
      | .ok res3 =>
        { result :=
            if includes res3.requestPath "login_page.php".toList then
              .error "Auth failed - redirected back to login".toList
            else .ok true,
          requests := [loginRequest1, loginRequest2 username res1,
            loginRequest3 password res2] }

/-- A login page with a form posting to `login_password_page.php`, with a hidden token. -/
def loginPage : Document :=
  pageOf [.element "form".toList [] [("action".toList, "login_password_page.php".toList)]
    [.element "input".toList []
        [("name".toList, "return".toList), ("value".toList, "index.php".toList)] [],
      .element "input".toList [] [("name".toList, "username".toList)] []]]

/-- A network on which every request of the login succeeds and the last response comes
from the path `finalPath`. -/
def loginNetwork (finalPath : JSString) (k : Nat) (_ : HttpRequest) :
    Except JSString PageResponse :=
  .ok { data := loginPage,
        requestPath := if k = 3 then finalPath else "/login_page.php".toList }

/-! ## Intermediate points of `writeCacheAtomic` and the status endpoints -/

/-- The file systems a reader can meet in the course of a run of `writeCacheAtomic`, in
order: before the temporary file is written, while it is being written, once it is written
and once it has been renamed; the run stops where the fault tells. -/
def writeCacheAtomicStates (fs : FileSystem) (data : List Row) (summary : Summary)
    (stamp : JSString) (fault : WriteFault) : List FileSystem :=
  let doc : CacheDocument := { data := data, lastUpdated := stamp, summary := summary }
  match fault with
  | .duringTempWrite _ => [fs, { fs with tempFile := some (.truncated doc) }]
  | .atRename _ =>
    [fs, { fs with tempFile := some (.truncated doc) },
      { fs with tempFile := some (.complete doc) }]
  | .none =>
    [fs, { fs with tempFile := some (.truncated doc) },
      { fs with tempFile := some (.complete doc) },
      { cacheFile := some (.complete doc), tempFile := none }]

/-- The values of the field `status` in the replies of the status endpoints. -/
inductive JobStatus where
  | idle
  | running
  | completed
  | failed
  deriving DecidableEq, Repr

/-- The field `status` of `GET /api/mantis/refresh-status`:
`isRunning ? 'running' : error ? 'failed' : 'completed'`. -/
def refreshStatus (job : RefreshJob) : JobStatus :=
  if job.isRunning then .running
  else if truthy job.error then .failed
  else .completed

/-- The field `status` of `GET /api/mantis/status/:id`:
`isRunning ? 'running' : error ? 'failed' : (total > 0 ? 'completed' : 'idle')`. -/
def ticketStatus (job : RefreshJob) : JobStatus :=
  if job.isRunning then .running
  else if truthy job.error then .failed
  else if 0 < job.total then .completed
  else .idle

/-- Inputs of a job whose export parses to no row at all. -/
def zeroRowInputs : JobInputs :=
  { twelveRowInputs with parse := fun _ => .ok [] }

/-- The cell `<td>Priorité</td>`, without class. -/
def plainLabelCell : Node := plainElement "td" [.text "Priorité".toList]

/-- The cell `<td>P2 - Majeure</td>`. -/
def valueCell : Node := plainElement "td" [.text "P2 - Majeure".toList]

/-- A page with the row `<tr><td>P5</td><td>Priorité</td><td>P2 - Majeure</td></tr>`: the
label stands in the second cell, which has no class. -/
def plainLabelPage : Document :=
  pageOf [plainElement "table" [plainElement "tbody" [plainElement "tr"
    [plainElement "td" [.text "P5".toList], plainLabelCell, valueCell]]]]

/-- The cell `<td class="category">Priorité</td>`. -/
def categoryLabelCell : Node :=
  .element "td".toList ["category".toList] [] [.text "Priorité".toList]

/-- A page with the row
`<tr><td>P5</td><td class="category">Priorité</td><td>P2 - Majeure</td></tr>`. -/
def categoryLabelPage : Document :=
  pageOf [plainElement "table" [plainElement "tbody" [plainElement "tr"
    [plainElement "td" [.text "P5".toList], categoryLabelCell, valueCell]]]]

/-! ## The full detail extractor `fetchFullIssueDetails` -/

/-- A note of a ticket; the notes found by the fallback strategy have no date. -/
structure Note where
  author : JSString
  date : Option JSString
  text : JSString
  deriving DecidableEq, Repr

/-- An attachment of a ticket. -/
structure Attachment where
  name : JSString
  url : JSString
  deriving DecidableEq, Repr

/-- The object `details` built by `fetchFullIssueDetails`. -/
structure IssueDetails where
  id : JSString
  description : JSString
  steps_to_reproduce : JSString
  additional_info : JSString
  notes : List Note
  attachments : List Attachment
  deriving DecidableEq, Repr

/-- Replacement of the runs of white space from a position on; `inRun` tells whether the
character in front belongs to a run already replaced. -/
def collapseFrom : Bool → JSString → JSString
  | _, [] => []
  | inRun, c :: rest =>
    if isJsWhitespace c then
      if inRun then collapseFrom true rest else ' ' :: collapseFrom true rest
    else c :: collapseFrom false rest

/-- The call `s.replace(/\s+/g, ' ')`: every run of white space becomes one space. -/
def collapseWhitespace (s : JSString) : JSString := collapseFrom false s

/-- The text of a selection, `$(...).text()`: the texts of its elements, one after the
other. -/
def textOfSelection (els : List Node) : JSString := (els.map Node.textContent).flatten

/-- Whether an element has the class `c`. -/
def Node.hasClass (n : Node) (c : String) : Bool := n.classList.contains c.toList

/-- Selector `td.category`. -/
def isCategoryTd (n : Node) : Bool := n.tag == "td".toList && n.hasClass "category"

/-- Selector `td`. -/
def isTd (n : Node) : Bool := n.tag == "td".toList

/-- Selector `a`. -/
def isAnchor (n : Node) : Bool := n.tag == "a".toList

/-- Selector `#attachments, table:contains("Fichiers attachés"),
table:contains("Attached Files")`. -/
def isAttachmentContainer (n : Node) : Bool :=
  n.attr "id".toList == some "attachments".toList ||
  (n.tag == "table".toList && includes n.textContent "Fichiers attachés".toList) ||
  (n.tag == "table".toList && includes n.textContent "Attached Files".toList)

/-- Selector `.bugnote`. -/
def isBugnote (n : Node) : Bool := n.isElement && n.hasClass "bugnote"

/-- Selector `.bugnote-note-public, .bugnote-note-private, .bugnote-author`. -/
def isBugnoteAuthor (n : Node) : Bool :=
  n.isElement && (n.hasClass "bugnote-note-public" || n.hasClass "bugnote-note-private" ||
    n.hasClass "bugnote-author")

/-- Selector `.bugnote-date`. -/
def isBugnoteDate (n : Node) : Bool := n.isElement && n.hasClass "bugnote-date"

/-- Selector `.bugnote-text`. -/
def isBugnoteText (n : Node) : Bool := n.isElement && n.hasClass "bugnote-text"

/-- Selector `table.width100`. -/
def isWidth100Table (n : Node) : Bool := n.tag == "table".toList && n.hasClass "width100"

/-- Body of the callback of `$('td.category').each`: the three text fields after one
labelled cell. -/
def detailFieldStep (d : IssueDetails) (e : Node × List Node) : IssueDetails :=
  let label := toLowerCase (trim e.1.textContent)
  let value := trim (nextText e.2)
  if includes label "description".toList then { d with description := value }
  else if includes label "reproduire".toList || includes label "steps to reproduce".toList then
    { d with steps_to_reproduce := value }
  else if includes label "informations supplémentaires".toList ||
      includes label "additional information".toList then
    { d with additional_info := value }
  else d

/-- The captions `['[Détacher]', '[Supprimer]', 'Détacher', 'Supprimer']` of action
links. -/
def actionCaptions : List JSString :=
  ["[Détacher]".toList, "[Supprimer]".toList, "Détacher".toList, "Supprimer".toList]

/-- Body of the callback of `links.each`: the attachment kept for a link, if any. -/
def linkAttachment (link : Node) : Option Attachment :=
  let text := trim link.textContent
  match link.attr "href".toList with
  | some href =>
    if !href.isEmpty &&
        (includes href "file_download.php".toList || includes href "download".toList ||
          includes href "plugin.php".toList) &&
        !text.isEmpty && !actionCaptions.contains text then
      some { name := text, url := href }
    else none
  | none => none

/-- The attachments pushed for the rows found in the attachment containers: for every row
in document order, every link inside it in document order. -/
def extractAttachments (doc : Document) : List Attachment :=
  ((selectInside isAttachmentContainer isTr doc).map
    (fun row => (select isAnchor row.1.childNodes).filterMap linkAttachment)).flatten

/-- Body of the callback of `$('.bugnote').each`: the note pushed for a `bugnote` element,
if its text is not empty. -/
def bugnoteNote (el : Node) : Option Note :=
  let author := collapseWhitespace (trim
    (textOfSelection ((select isBugnoteAuthor el.childNodes).take 1)))
  let date := trim (textOfSelection (select isBugnoteDate el.childNodes))
  let text := trim (textOfSelection (select isBugnoteText el.childNodes))
  if text.isEmpty then none else some { author := author, date := some date, text := text }

/-- Body of the callback of `$('table.width100 tr').each`: the note pushed for a row with
exactly two `td` cells, the first of class `bugnote-public` or `bugnote-private`, if the
cells of the next row have a text. -/
def fallbackNote (row : Node × List Node) : Option Note :=
  match select isTd row.1.childNodes with
  | [c0, _] =>
    if c0.hasClass "bugnote-public" || c0.hasClass "bugnote-private" then
      let author := collapseWhitespace (trim c0.textContent)
      let text := trim (textOfSelection
        (match row.2.find? Node.isElement with
          | some next => select isTd next.childNodes
          | none => []))
      if text.isEmpty then none else some { author := author, date := none, text := text }
    else none
  | _ => none

/-- The notes of a page: those of the `bugnote` elements, or, when there is none, those of
the fallback strategy. -/
def extractNotes (doc : Document) : List Note :=
  let primary := (select isBugnote doc).filterMap bugnoteNote
  if primary.length = 0 then (selectInside isWidth100Table isTr doc).filterMap fallbackNote
  else primary

/-- The object `details` filled from a parsed page. -/
def extractDetails (doc : Document) (issueId : JSString) : IssueDetails :=
  let start : IssueDetails :=
    { id := issueId, description := [], steps_to_reproduce := [], additional_info := [],
      notes := [], attachments := [] }
  let fields := (selectWithSiblings isCategoryTd doc).foldl detailFieldStep start
  { fields with attachments := extractAttachments doc, notes := extractNotes doc }

/-- The function `fetchFullIssueDetails(mantis, issueId)`: `response` is what the `try`
block gets from `mantis.request` and `cheerio.load`, the parsed page or the message of the
error thrown; the result `none` stands for `null`. -/
def fetchFullIssueDetails (response : Except JSString Document) (issueId : JSString) :
    Option IssueDetails :=
  match response with
  | .ok doc => some (extractDetails doc issueId)
  | .error _ => none

/-- A detail page with a description, a note and an attachment. -/
def detailPage : Document :=
  pageOf [
    plainElement "table" [plainElement "tbody" [plainElement "tr"
      [.element "td".toList ["category".toList] [] [.text "Description".toList],
        plainElement "td" [.text " Le bouton ne répond pas. ".toList]]]],
    .element "table".toList [] [("id".toList, "attachments".toList)]
      [plainElement "tbody" [plainElement "tr" [plainElement "td"
        [.element "a".toList [] [("href".toList, "file_download.php?file_id=7".toList)]
            [.text "capture.png".toList],
          .element "a".toList [] [("href".toList, "bug_file_delete.php?file_id=7".toList)]
            [.text "[Supprimer]".toList]]]]],
    .element "div".toList ["bugnote".toList] []
      [.element "span".toList ["bugnote-author".toList] [] [.text "  alice \n dupont ".toList],
        .element "span".toList ["bugnote-date".toList] [] [.text "2024-05-01 10:00".toList],
        .element "div".toList ["bugnote-text".toList] [] [.text "Reproduit.".toList]]]

/-! ## The domain extraction job -/

/-- Simple upper-case mappings of the Unicode Character Database, version 14.0, for the
code points from U+0061 to U+01F3: an entry `(lo, hi, step, up)` maps the code points
`lo, lo + step, ..., hi` to `up, up + step, ...`. -/
def upperRanges1 : List (Nat × Nat × Nat × Nat) :=
  [(0x61, 0x7A, 1, 0x41), (0xB5, 0xB5, 1, 0x39C), (0xE0, 0xF6, 1, 0xC0),
    (0xF8, 0xFE, 1, 0xD8), (0xFF, 0xFF, 1, 0x178), (0x101, 0x12F, 2, 0x100),
    (0x131, 0x131, 1, 0x49), (0x133, 0x137, 2, 0x132), (0x13A, 0x148, 2, 0x139),
    (0x14B, 0x177, 2, 0x14A), (0x17A, 0x17E, 2, 0x179), (0x17F, 0x17F, 1, 0x53),
    (0x180, 0x180, 1, 0x243), (0x183, 0x185, 2, 0x182), (0x188, 0x188, 1, 0x187),
    (0x18C, 0x18C, 1, 0x18B), (0x192, 0x192, 1, 0x191), (0x195, 0x195, 1, 0x1F6),
    (0x199, 0x199, 1, 0x198), (0x19A, 0x19A, 1, 0x23D), (0x19E, 0x19E, 1, 0x220),
    (0x1A1, 0x1A5, 2, 0x1A0), (0x1A8, 0x1A8, 1, 0x1A7), (0x1AD, 0x1AD, 1, 0x1AC),
    (0x1B0, 0x1B0, 1, 0x1AF), (0x1B4, 0x1B6, 2, 0x1B3), (0x1B9, 0x1B9, 1, 0x1B8),
    (0x1BD, 0x1BD, 1, 0x1BC), (0x1BF, 0x1BF, 1, 0x1F7), (0x1C5, 0x1C5, 1, 0x1C4),
    (0x1C6, 0x1C6, 1, 0x1C4), (0x1C8, 0x1C8, 1, 0x1C7), (0x1C9, 0x1C9, 1, 0x1C7),
    (0x1CB, 0x1CB, 1, 0x1CA), (0x1CC, 0x1CC, 1, 0x1CA), (0x1CE, 0x1DC, 2, 0x1CD),
    (0x1DD, 0x1DD, 1, 0x18E), (0x1DF, 0x1EF, 2, 0x1DE), (0x1F2, 0x1F2, 1, 0x1F1),
    (0x1F3, 0x1F3, 1, 0x1F1)]

/-- Simple upper-case mappings of the Unicode Character Database, version 14.0, for the
code points from U+01F5 to U+0292: an entry `(lo, hi, step, up)` maps the code points
`lo, lo + step, ..., hi` to `up, up + step, ...`. -/
def upperRanges2 : List (Nat × Nat × Nat × Nat) :=
  [(0x1F5, 0x1F5, 1, 0x1F4), (0x1F9, 0x21F, 2, 0x1F8), (0x223, 0x233, 2, 0x222),
    (0x23C, 0x23C, 1, 0x23B), (0x23F, 0x240, 1, 0x2C7E), (0x242, 0x242, 1, 0x241),
    (0x247, 0x24F, 2, 0x246), (0x250, 0x250, 1, 0x2C6F), (0x251, 0x251, 1, 0x2C6D),
    (0x252, 0x252, 1, 0x2C70), (0x253, 0x253, 1, 0x181), (0x254, 0x254, 1, 0x186),
    (0x256, 0x257, 1, 0x189), (0x259, 0x259, 1, 0x18F), (0x25B, 0x25B, 1, 0x190),
    (0x25C, 0x25C, 1, 0xA7AB), (0x260, 0x260, 1, 0x193), (0x261, 0x261, 1, 0xA7AC),
    (0x263, 0x263, 1, 0x194), (0x265, 0x265, 1, 0xA78D), (0x266, 0x266, 1, 0xA7AA),
    (0x268, 0x268, 1, 0x197), (0x269, 0x269, 1, 0x196), (0x26A, 0x26A, 1, 0xA7AE),
    (0x26B, 0x26B, 1, 0x2C62), (0x26C, 0x26C, 1, 0xA7AD), (0x26F, 0x26F, 1, 0x19C),
    (0x271, 0x271, 1, 0x2C6E), (0x272, 0x272, 1, 0x19D), (0x275, 0x275, 1, 0x19F),
    (0x27D, 0x27D, 1, 0x2C64), (0x280, 0x280, 1, 0x1A6), (0x282, 0x282, 1, 0xA7C5),
    (0x283, 0x283, 1, 0x1A9), (0x287, 0x287, 1, 0xA7B1), (0x288, 0x288, 1, 0x1AE),
    (0x289, 0x289, 1, 0x244), (0x28A, 0x28B, 1, 0x1B1), (0x28C, 0x28C, 1, 0x245),
    (0x292, 0x292, 1, 0x1B7)]

/-- Simple upper-case mappings of the Unicode Character Database, version 14.0, for the
code points from U+029D to U+1C82: an entry `(lo, hi, step, up)` maps the code points
`lo, lo + step, ..., hi` to `up, up + step, ...`. -/
def upperRanges3 : List (Nat × Nat × Nat × Nat) :=
  [(0x29D, 0x29D, 1, 0xA7B2), (0x29E, 0x29E, 1, 0xA7B0), (0x345, 0x345, 1, 0x399),
    (0x371, 0x373, 2, 0x370), (0x377, 0x377, 1, 0x376), (0x37B, 0x37D, 1, 0x3FD),
    (0x3AC, 0x3AC, 1, 0x386), (0x3AD, 0x3AF, 1, 0x388), (0x3B1, 0x3C1, 1, 0x391),
    (0x3C2, 0x3C2, 1, 0x3A3), (0x3C3, 0x3CB, 1, 0x3A3), (0x3CC, 0x3CC, 1, 0x38C),
    (0x3CD, 0x3CE, 1, 0x38E), (0x3D0, 0x3D0, 1, 0x392), (0x3D1, 0x3D1, 1, 0x398),
    (0x3D5, 0x3D5, 1, 0x3A6), (0x3D6, 0x3D6, 1, 0x3A0), (0x3D7, 0x3D7, 1, 0x3CF),
    (0x3D9, 0x3EF, 2, 0x3D8), (0x3F0, 0x3F0, 1, 0x39A), (0x3F1, 0x3F1, 1, 0x3A1),
    (0x3F2, 0x3F2, 1, 0x3F9), (0x3F3, 0x3F3, 1, 0x37F), (0x3F5, 0x3F5, 1, 0x395),
    (0x3F8, 0x3F8, 1, 0x3F7), (0x3FB, 0x3FB, 1, 0x3FA), (0x430, 0x44F, 1, 0x410),
    (0x450, 0x45F, 1, 0x400), (0x461, 0x481, 2, 0x460), (0x48B, 0x4BF, 2, 0x48A),
    (0x4C2, 0x4CE, 2, 0x4C1), (0x4CF, 0x4CF, 1, 0x4C0), (0x4D1, 0x52F, 2, 0x4D0),
    (0x561, 0x586, 1, 0x531), (0x10D0, 0x10FA, 1, 0x1C90), (0x10FD, 0x10FF, 1, 0x1CBD),
    (0x13F8, 0x13FD, 1, 0x13F0), (0x1C80, 0x1C80, 1, 0x412), (0x1C81, 0x1C81, 1, 0x414),
    (0x1C82, 0x1C82, 1, 0x41E)]

/-- Simple upper-case mappings of the Unicode Character Database, version 14.0, for the
code points from U+1C83 to U+2C76: an entry `(lo, hi, step, up)` maps the code points
`lo, lo + step, ..., hi` to `up, up + step, ...`. -/
def upperRanges4 : List (Nat × Nat × Nat × Nat) :=
  [(0x1C83, 0x1C84, 1, 0x421), (0x1C85, 0x1C85, 1, 0x422), (0x1C86, 0x1C86, 1, 0x42A),
    (0x1C87, 0x1C87, 1, 0x462), (0x1C88, 0x1C88, 1, 0xA64A), (0x1D79, 0x1D79, 1, 0xA77D),
    (0x1D7D, 0x1D7D, 1, 0x2C63), (0x1D8E, 0x1D8E, 1, 0xA7C6), (0x1E01, 0x1E95, 2, 0x1E00),
    (0x1E9B, 0x1E9B, 1, 0x1E60), (0x1EA1, 0x1EFF, 2, 0x1EA0), (0x1F00, 0x1F07, 1, 0x1F08),
    (0x1F10, 0x1F15, 1, 0x1F18), (0x1F20, 0x1F27, 1, 0x1F28), (0x1F30, 0x1F37, 1, 0x1F38),
    (0x1F40, 0x1F45, 1, 0x1F48), (0x1F51, 0x1F57, 2, 0x1F59), (0x1F60, 0x1F67, 1, 0x1F68),
    (0x1F70, 0x1F71, 1, 0x1FBA), (0x1F72, 0x1F75, 1, 0x1FC8), (0x1F76, 0x1F77, 1, 0x1FDA),
    (0x1F78, 0x1F79, 1, 0x1FF8), (0x1F7A, 0x1F7B, 1, 0x1FEA), (0x1F7C, 0x1F7D, 1, 0x1FFA),
    (0x1FB0, 0x1FB1, 1, 0x1FB8), (0x1FBE, 0x1FBE, 1, 0x399), (0x1FD0, 0x1FD1, 1, 0x1FD8),
    (0x1FE0, 0x1FE1, 1, 0x1FE8), (0x1FE5, 0x1FE5, 1, 0x1FEC), (0x214E, 0x214E, 1, 0x2132),
    (0x2170, 0x217F, 1, 0x2160), (0x2184, 0x2184, 1, 0x2183), (0x24D0, 0x24E9, 1, 0x24B6),
    (0x2C30, 0x2C5F, 1, 0x2C00), (0x2C61, 0x2C61, 1, 0x2C60), (0x2C65, 0x2C65, 1, 0x23A),
    (0x2C66, 0x2C66, 1, 0x23E), (0x2C68, 0x2C6C, 2, 0x2C67), (0x2C73, 0x2C73, 1, 0x2C72),
    (0x2C76, 0x2C76, 1, 0x2C75)]

/-- Simple upper-case mappings of the Unicode Character Database, version 14.0, for the
code points from U+2C81 to U+1E943: an entry `(lo, hi, step, up)` maps the code points
`lo, lo + step, ..., hi` to `up, up + step, ...`. -/
def upperRanges5 : List (Nat × Nat × Nat × Nat) :=
  [(0x2C81, 0x2CE3, 2, 0x2C80), (0x2CEC, 0x2CEE, 2, 0x2CEB), (0x2CF3, 0x2CF3, 1, 0x2CF2),
    (0x2D00, 0x2D25, 1, 0x10A0), (0x2D27, 0x2D27, 1, 0x10C7), (0x2D2D, 0x2D2D, 1, 0x10CD),
    (0xA641, 0xA66D, 2, 0xA640), (0xA681, 0xA69B, 2, 0xA680), (0xA723, 0xA72F, 2, 0xA722),
    (0xA733, 0xA76F, 2, 0xA732), (0xA77A, 0xA77C, 2, 0xA779), (0xA77F, 0xA787, 2, 0xA77E),
    (0xA78C, 0xA78C, 1, 0xA78B), (0xA791, 0xA793, 2, 0xA790), (0xA794, 0xA794, 1, 0xA7C4),
    (0xA797, 0xA7A9, 2, 0xA796), (0xA7B5, 0xA7C3, 2, 0xA7B4), (0xA7C8, 0xA7CA, 2, 0xA7C7),
    (0xA7D1, 0xA7D1, 1, 0xA7D0), (0xA7D7, 0xA7D9, 2, 0xA7D6), (0xA7F6, 0xA7F6, 1, 0xA7F5),
    (0xAB53, 0xAB53, 1, 0xA7B3), (0xAB70, 0xABBF, 1, 0x13A0), (0xFF41, 0xFF5A, 1, 0xFF21),
    (0x10428, 0x1044F, 1, 0x10400), (0x104D8, 0x104FB, 1, 0x104B0),
    (0x10597, 0x105BB, 2, 0x10570), (0x10598, 0x105A0, 2, 0x10571),
    (0x105A4, 0x105B0, 2, 0x1057D), (0x105B4, 0x105B8, 2, 0x1058D),
    (0x105BC, 0x105BC, 1, 0x10595), (0x10CC0, 0x10CF2, 1, 0x10C80),
    (0x118C0, 0x118DF, 1, 0x118A0), (0x16E60, 0x16E7F, 1, 0x16E40),
    (0x1E922, 0x1E943, 1, 0x1E900)]

/-- Unconditional special upper-case mappings of the Unicode Character Database, version
14.0 (file SpecialCasing), from U+00DF to U+1F98: the code point and the code points of
its upper case. -/
def upperSpecial1 : List (Nat × List Nat) :=
  [(0xDF, [0x53, 0x53]), (0x149, [0x2BC, 0x4E]), (0x1F0, [0x4A, 0x30C]),
    (0x390, [0x399, 0x308, 0x301]), (0x3B0, [0x3A5, 0x308, 0x301]),
    (0x587, [0x535, 0x552]), (0x1E96, [0x48, 0x331]), (0x1E97, [0x54, 0x308]),
    (0x1E98, [0x57, 0x30A]), (0x1E99, [0x59, 0x30A]), (0x1E9A, [0x41, 0x2BE]),
    (0x1F50, [0x3A5, 0x313]), (0x1F52, [0x3A5, 0x313, 0x300]),
    (0x1F54, [0x3A5, 0x313, 0x301]), (0x1F56, [0x3A5, 0x313, 0x342]),
    (0x1F80, [0x1F08, 0x399]), (0x1F81, [0x1F09, 0x399]), (0x1F82, [0x1F0A, 0x399]),
    (0x1F83, [0x1F0B, 0x399]), (0x1F84, [0x1F0C, 0x399]), (0x1F85, [0x1F0D, 0x399]),
    (0x1F86, [0x1F0E, 0x399]), (0x1F87, [0x1F0F, 0x399]), (0x1F88, [0x1F08, 0x399]),
    (0x1F89, [0x1F09, 0x399]), (0x1F8A, [0x1F0A, 0x399]), (0x1F8B, [0x1F0B, 0x399]),
    (0x1F8C, [0x1F0C, 0x399]), (0x1F8D, [0x1F0D, 0x399]), (0x1F8E, [0x1F0E, 0x399]),
    (0x1F8F, [0x1F0F, 0x399]), (0x1F90, [0x1F28, 0x399]), (0x1F91, [0x1F29, 0x399]),
    (0x1F92, [0x1F2A, 0x399]), (0x1F93, [0x1F2B, 0x399]), (0x1F94, [0x1F2C, 0x399]),
    (0x1F95, [0x1F2D, 0x399]), (0x1F96, [0x1F2E, 0x399]), (0x1F97, [0x1F2F, 0x399]),
    (0x1F98, [0x1F28, 0x399])]

/-- Unconditional special upper-case mappings of the Unicode Character Database, version
14.0 (file SpecialCasing), from U+1F99 to U+1FE2: the code point and the code points of
its upper case. -/
def upperSpecial2 : List (Nat × List Nat) :=
  [(0x1F99, [0x1F29, 0x399]), (0x1F9A, [0x1F2A, 0x399]), (0x1F9B, [0x1F2B, 0x399]),
    (0x1F9C, [0x1F2C, 0x399]), (0x1F9D, [0x1F2D, 0x399]), (0x1F9E, [0x1F2E, 0x399]),
    (0x1F9F, [0x1F2F, 0x399]), (0x1FA0, [0x1F68, 0x399]), (0x1FA1, [0x1F69, 0x399]),
    (0x1FA2, [0x1F6A, 0x399]), (0x1FA3, [0x1F6B, 0x399]), (0x1FA4, [0x1F6C, 0x399]),
    (0x1FA5, [0x1F6D, 0x399]), (0x1FA6, [0x1F6E, 0x399]), (0x1FA7, [0x1F6F, 0x399]),
    (0x1FA8, [0x1F68, 0x399]), (0x1FA9, [0x1F69, 0x399]), (0x1FAA, [0x1F6A, 0x399]),
    (0x1FAB, [0x1F6B, 0x399]), (0x1FAC, [0x1F6C, 0x399]), (0x1FAD, [0x1F6D, 0x399]),
    (0x1FAE, [0x1F6E, 0x399]), (0x1FAF, [0x1F6F, 0x399]), (0x1FB2, [0x1FBA, 0x399]),
    (0x1FB3, [0x391, 0x399]), (0x1FB4, [0x386, 0x399]), (0x1FB6, [0x391, 0x342]),
    (0x1FB7, [0x391, 0x342, 0x399]), (0x1FBC, [0x391, 0x399]), (0x1FC2, [0x1FCA, 0x399]),
    (0x1FC3, [0x397, 0x399]), (0x1FC4, [0x389, 0x399]), (0x1FC6, [0x397, 0x342]),
    (0x1FC7, [0x397, 0x342, 0x399]), (0x1FCC, [0x397, 0x399]),
    (0x1FD2, [0x399, 0x308, 0x300]), (0x1FD3, [0x399, 0x308, 0x301]),
    (0x1FD6, [0x399, 0x342]), (0x1FD7, [0x399, 0x308, 0x342]),
    (0x1FE2, [0x3A5, 0x308, 0x300])]

/-- Unconditional special upper-case mappings of the Unicode Character Database, version
14.0 (file SpecialCasing), from U+1FE3 to U+FB17: the code point and the code points of
its upper case. -/
def upperSpecial3 : List (Nat × List Nat) :=
  [(0x1FE3, [0x3A5, 0x308, 0x301]), (0x1FE4, [0x3A1, 0x313]), (0x1FE6, [0x3A5, 0x342]),
    (0x1FE7, [0x3A5, 0x308, 0x342]), (0x1FF2, [0x1FFA, 0x399]), (0x1FF3, [0x3A9, 0x399]),
    (0x1FF4, [0x38F, 0x399]), (0x1FF6, [0x3A9, 0x342]), (0x1FF7, [0x3A9, 0x342, 0x399]),
    (0x1FFC, [0x3A9, 0x399]), (0xFB00, [0x46, 0x46]), (0xFB01, [0x46, 0x49]),
    (0xFB02, [0x46, 0x4C]), (0xFB03, [0x46, 0x46, 0x49]), (0xFB04, [0x46, 0x46, 0x4C]),
    (0xFB05, [0x53, 0x54]), (0xFB06, [0x53, 0x54]), (0xFB13, [0x544, 0x546]),
    (0xFB14, [0x544, 0x535]), (0xFB15, [0x544, 0x53B]), (0xFB16, [0x54E, 0x546]),
    (0xFB17, [0x544, 0x53D])]

/-- The simple upper-case mappings, all blocks. -/
def upperRanges : List (Nat × Nat × Nat × Nat) :=
  upperRanges1 ++ upperRanges2 ++ upperRanges3 ++ upperRanges4 ++ upperRanges5

/-- The special upper-case mappings, all blocks. -/
def upperSpecial : List (Nat × List Nat) :=
  upperSpecial1 ++ upperSpecial2 ++ upperSpecial3

/-- Upper-casing of one character, as `String.prototype.toUpperCase` does it (the Unicode
default case conversion, without locale or context): the special mapping of the character
when it has one (`ß` becomes `SS`), else its simple mapping (`œ` becomes `Œ`, the long s
becomes `S`), else the character itself. -/
def toUpperChars (c : Char) : List Char :=
  let n := c.toNat
  match upperSpecial.find? (fun e => e.1 == n) with
  | some e => e.2.map Char.ofNat
  | none =>
    match upperRanges.find? (fun r => r.1 ≤ n && n ≤ r.2.1 && (n - r.1) % r.2.2.1 == 0) with
    | some r => [Char.ofNat (r.2.2.2 + (n - r.1))]
    | none => [c]

/-- The method `String.prototype.toUpperCase`. -/
def toUpperCase (s : JSString) : JSString := (s.map toUpperChars).flatten

/-- The value `row['Domaine (Toray)'] || row['domaine'] || ''`. -/
def domainField (row : Row) : JSString :=
  if truthy (row.get "Domaine (Toray)".toList) then (row.get "Domaine (Toray)".toList).getD []
  else if truthy (row.get "domaine".toList) then (row.get "domaine".toList).getD []
  else []

/-- The callback of `cache.data.filter`: the trimmed, upper-cased domain of the row equals
the upper-cased requested domain. -/
def matchesDomain (domain : JSString) (row : Row) : Bool :=
  toUpperCase (trim (domainField row)) == toUpperCase domain

/-- The list `issues`: the cached rows kept by the filter. -/
def selectIssues (rows : List Row) (domain : JSString) : List Row :=
  rows.filter (matchesDomain domain)

/-- The function `readCache()`: the document of the cache file, or `null` when the file is
missing or cannot be parsed. -/
def readCache (fs : FileSystem) : Option CacheDocument :=
  match fs.cacheFile with
  | some (.complete doc) => some doc
  | _ => none

/-- A row pushed to `job.data`: `{ ...issue, full_details: details }`. -/
structure ExtractedRow where
  issue : Row
  full_details : IssueDetails
  deriving DecidableEq, Repr

/-- An entry of `extractJobs`; `progress` is the exact value of
`(job.current / job.total) * 100`. -/
structure ExtractJob where
  status : JobStatus
  progress : ℚ
  step : JSString
  domain : JSString
  startTime : JSString
  data : List ExtractedRow
  current : Nat
  total : Nat
  error : Option JSString
  endTime : Option JSString

/-- The entry set by the handler when the job is created. -/
def newExtractJob (domain startIso : JSString) : ExtractJob :=
  { status := .running, progress := 0, step := "Initialisation...".toList, domain := domain,
    startTime := startIso, data := [], current := 0, total := 0, error := none,
    endTime := none }

/-- The value `issue['Identifiant'] || issue['id']`: `none` when it is undefined. -/
def extractIdAttr (issue : Row) : Option JSString :=
  if truthy (issue.get "Identifiant".toList) then issue.get "Identifiant".toList
  else issue.get "id".toList

/-- A number in a template string. -/
def natText (n : Nat) : JSString := (toString n).toList

/-- The updates made for one row once its details have come back: the row is pushed with
its details if there are any, then `current`, `progress` and `step` are set. -/
def completeIssue (issue : Row) (idAttr : JSString) (details : Option IssueDetails)
    (job : ExtractJob) : ExtractJob :=
  let data :=
    match details with
    | some d => job.data ++ [{ issue := issue, full_details := d }]
    | none => job.data
  { job with
    data := data,
    current := job.current + 1,
    progress := ((job.current + 1 : Nat) : ℚ) / (job.total : ℚ) * 100,
    step := "Extraction #".toList ++ idAttr ++ " (".toList ++ natText (job.current + 1) ++
      "/".toList ++ natText job.total ++ ")".toList }

/-- The rows of a chunk that have an identifier, run to completion in the order of the
chunk; `idx` is the index in `issues` of the first row of the chunk and `respond k id` the
outcome of fetching and parsing the detail page for the row of index `k`. -/
def completeChunk (respond : Nat → JSString → Except JSString Document) :
    Nat → List Row → ExtractJob → ExtractJob
  | _, [], job => job
  | idx, issue :: rest, job =>
    match extractIdAttr issue with
    | some idAttr =>
      completeChunk respond (idx + 1) rest
        (completeIssue issue idAttr
          (fetchFullIssueDetails (respond idx (stripLeadingZeros idAttr))
            (stripLeadingZeros idAttr)) job)
    | none => completeChunk respond (idx + 1) rest job

/-- The `catch` block of the job: the status, the message and the step of a failure. -/
def failExtractJob (msg : JSString) (job : ExtractJob) : ExtractJob :=
  { job with status := .failed, error := some msg, step := "Erreur: ".toList ++ msg }

/-- The loop `for (let i = 0; i < issues.length; i += 3)` over the rows left, `idx` being
the index of the first of them; `fuel` bounds the number of chunks (the number of rows
left is always enough).  A row without identifier makes its callback throw a `TypeError`
at `idAttr.replace`, with the message `typeError`: `Promise.all` rejects, the `catch`
block runs, and the rows of the same chunk that have an identifier, already started, still
complete afterwards; no further chunk starts.  The result tells whether the loop ended
without error. -/
def extractLoop (respond : Nat → JSString → Except JSString Document) (typeError : JSString) :
    Nat → Nat → List Row → ExtractJob → ExtractJob × Bool
  | _, _, [], job => (job, true)
  | 0, _, _ :: _, job => (job, true)
  | fuel + 1, idx, issue :: rest, job =>
    let chunk := (issue :: rest).take 3
    if chunk.any (fun r => (extractIdAttr r).isNone) then
      (completeChunk respond idx chunk (failExtractJob typeError job), false)
    else
      extractLoop respond typeError fuel (idx + 3) ((issue :: rest).drop 3)
        (completeChunk respond idx chunk job)

/-- The inputs of one extraction job that come from outside. -/
structure ExtractInputs where
  domain : JSString
  startIso : JSString
  endIso : JSString
  login : Except JSString Unit
  respond : Nat → JSString → Except JSString Document
  typeError : JSString

/-- The entry of the job once the matching rows are known: `job.total = issues.length`. -/
def startedExtractJob (inp : ExtractInputs) (issues : List Row) : ExtractJob :=
  { newExtractJob inp.domain inp.startIso with total := issues.length }

/-- The end of the `try` block after the loop: when the loop has ended without error the
job is marked `completed`; otherwise the `catch` block has already run. -/
def finishExtractJob (inp : ExtractInputs) : ExtractJob × Bool → ExtractJob
  | (job2, true) =>
    { job2 with status := .completed, step := "Extraction terminée".toList,
                endTime := some inp.endIso }
  | (job2, false) => job2

/-- The background process of `POST /api/mantis/extract-full`, from the entry created by
the handler: the final entry of the job. -/
def runExtractJob (inp : ExtractInputs) (fs : FileSystem) : ExtractJob :=
  match readCache fs with
  | none =>
    failExtractJob ("Cache Mantis non disponible. Veuillez synchroniser Mantis d\x27abord " ++
      "via l\x27onglet Mantis.").toList (newExtractJob inp.domain inp.startIso)
  | some cache =>
    if (selectIssues cache.data inp.domain).length = 0 then
      failExtractJob ("Aucun ticket trouvé pour le domaine ".toList ++ inp.domain)
        (newExtractJob inp.domain inp.startIso)
    else
      match inp.login with
      | .error m =>
        failExtractJob m (startedExtractJob inp (selectIssues cache.data inp.domain))
      | .ok _ =>
        finishExtractJob inp
          (extractLoop inp.respond inp.typeError
            (selectIssues cache.data inp.domain).length 0
            (selectIssues cache.data inp.domain)
            (startedExtractJob inp (selectIssues cache.data inp.domain)))

/-- A cache file holding the given rows. -/
def cacheFileOf (rows : List Row) : FileSystem :=
  { cacheFile := some (.complete
      { data := rows, lastUpdated := "2024-05-01T08:00:02.000Z".toList,
        summary := { totalRows := rows.length, enrichedTotal := rows.length,
                     enrichedSuccess := rows.length, enrichedFailed := 0 } }),
    tempFile := none }

/-- A cached row of the domain `SD` with an identifier; spaces stand around the domain. -/
def sdRow : Row :=
  [("Identifiant".toList, "0004217".toList), ("Domaine (Toray)".toList, " sd ".toList)]

/-- A cached row of the domain `SD` that has neither `Identifiant` nor `id`. -/
def sdRowWithoutId : Row :=
  [("Domaine (Toray)".toList, "SD".toList), ("Résumé".toList, "x".toList)]

/-- A cached row of another domain. -/
def financeRow : Row :=
  [("Identifiant".toList, "0004300".toList), ("Domaine (Toray)".toList, "Finance".toList)]

/-- Inputs of an extraction for the domain `SD` on a network where every detail page is
fetched and parsed. -/
def sdExtractInputs : ExtractInputs :=
  { domain := "SD".toList, startIso := "2024-05-01T09:00:00.000Z".toList,
    endIso := "2024-05-01T09:00:05.000Z".toList, login := .ok (),
    respond := fun _ _ => .ok detailPage,
    typeError := "Cannot read properties of undefined (reading \x27replace\x27)".toList }

/-- The row pushed to `job.data` for the row `issue` of index `k`, if its extraction
produces details. -/
def extractedAt (respond : Nat → JSString → Except JSString Document) (e : Nat × Row) :
    Option ExtractedRow :=
  match extractIdAttr e.2 with
  | some idAttr =>
    (fetchFullIssueDetails (respond e.1 (stripLeadingZeros idAttr))
      (stripLeadingZeros idAttr)).map (fun d => { issue := e.2, full_details := d })
  | none => none

/-- Once a row has completed, `progress` is `current / total * 100`. -/
def ProgressInSync (job : ExtractJob) : Prop :=
  0 < job.current → job.progress = (job.current : ℚ) / (job.total : ℚ) * 100

/-! ## The CoPro summary `computeCoproSummary` (src/utils/mantisUtils.js) -/

/-- The object made by `defaultStats()`. -/
structure CoproCount where
  total : Nat
  p1 : Nat
  p3 : Nat
  deriving DecidableEq, Repr

/-- The two columns of a block of the summary. -/
structure CoproColumns where
  projet : CoproCount
  evolution : CoproCount
  deriving DecidableEq, Repr

/-- The object `stats`. -/
structure CoproStats where
  encours : CoproColumns
  resolues : CoproColumns
  deriving DecidableEq, Repr

/-- The value of `catType` when it is not `null`. -/
inductive CatType where
  | projet
  | evolution
  deriving DecidableEq, Repr

/-- The initial value of `stats`: all counters at zero. -/
def zeroStats : CoproStats :=
  { encours := { projet := ⟨0, 0, 0⟩, evolution := ⟨0, 0, 0⟩ },
    resolues := { projet := ⟨0, 0, 0⟩, evolution := ⟨0, 0, 0⟩ } }

/-- The value `row[k1] || row[k2] || ... || ''`: the first truthy value among the columns
`keys`, or the empty string. -/
def firstTruthy (row : Row) : List String → JSString
  | [] => []
  | k :: ks => if truthy (row.get k.toList) then (row.get k.toList).getD [] else firstTruthy row ks

/-- The helper `normalize` applied to `row[k1] || row[k2] || ...`:
`(str || '').toString().trim().toLowerCase()`. -/
def normalizedField (row : Row) (keys : List String) : JSString :=
  toLowerCase (trim (firstTruthy row keys))

/-- The constant `domaine` of the callback. -/
def coproDomaine (row : Row) : JSString := normalizedField row ["Domaine (Toray)", "domaine"]

/-- The constant `category` of the callback. -/
def coproCategory (row : Row) : JSString := normalizedField row ["Catégorie", "category"]

/-- The constant `etat` of the callback. -/
def coproEtat (row : Row) : JSString := normalizedField row ["État", "Etat", "status"]

/-- The constant `affecte` of the callback. -/
def coproAffecte (row : Row) : JSString := normalizedField row ["Affecté à", "handler"]

/-- The constant `priority` of the callback:
`(row['priorite_p'] || '').toString().trim().toUpperCase()`. -/
def coproPriority (row : Row) : JSString := toUpperCase (trim (firstTruthy row ["priorite_p"]))

/-- The set `encoursStatesSet`. -/
def encoursStates : List JSString :=
  ["nouveau".toList, "accepté".toList, "chiffrage".toList, "validation chiffrage".toList,
    "réalisation".toList]

/-- The variable `catType` of the callback. -/
def coproCatType (row : Row) : Option CatType :=
  if coproCategory row == "projet".toList then some .projet
  else if includes (coproCategory row) "toray".toList &&
      includes (coproCategory row) "ecart".toList then some .evolution
  else none

/-- The three increments of one block: `total++`, and `p1++` or `p3++` by the priority. -/
def bumpCount (c : CoproCount) (priority : JSString) : CoproCount :=
  { total := c.total + 1,
    p1 := if priority == "P1".toList then c.p1 + 1 else c.p1,
    p3 := if priority == "P3".toList then c.p3 + 1 else c.p3 }

/-- The increments applied to the column `catType` of a block. -/
def bumpColumn (cols : CoproColumns) (catType : CatType) (priority : JSString) :
    CoproColumns :=
  match catType with
  | .projet => { cols with projet := bumpCount cols.projet priority }
  | .evolution => { cols with evolution := bumpCount cols.evolution priority }

/-- The callback of `rows.forEach`. -/
def coproStep (stats : CoproStats) (row : Row) : CoproStats :=
  if coproDomaine row != "sd".toList then stats
  else
    match coproCatType row with
    | none => stats
    | some catType =>
      let isEncours := encoursStates.contains (coproEtat row) ||
        (coproEtat row == "résolu".toList && coproAffecte row != "yann.deschamps".toList)
      let isResolue :=
        coproEtat row == "résolu".toList && coproAffecte row == "yann.deschamps".toList
      if isEncours then
        { stats with encours := bumpColumn stats.encours catType (coproPriority row) }
      else if isResolue then
        { stats with resolues := bumpColumn stats.resolues catType (coproPriority row) }
      else stats

/-- The function `computeCoproSummary(rows)`; `none` stands for a missing row list. -/
def computeCoproSummary : Option (List Row) → CoproStats
  | none => zeroStats
  | some rows => if rows.length = 0 then zeroStats else rows.foldl coproStep zeroStats

/-! ### The reference given by `COPRO_RULES`, word for word -/

/-- Rule Domaine: the column `Domaine (Toray)` is `SD`. -/
def ruleDomaine (row : Row) : Bool := row.get "Domaine (Toray)".toList == some "SD".toList

/-- Rules Projet and Evolution: `Catégorie = 'Projet'`, or `Catégorie` contains `Toray` and
`Ecart`. -/
def ruleColumn (row : Row) : Option CatType :=
  if row.get "Catégorie".toList == some "Projet".toList then some .projet
  else if includes ((row.get "Catégorie".toList).getD []) "Toray".toList &&
      includes ((row.get "Catégorie".toList).getD []) "Ecart".toList then some .evolution
  else none

/-- Rule Encours: `État` is one of Nouveau, Accepté, Chiffrage, Validation chiffrage,
Réalisation, or `État = Résolu` and `Affecté à` differs from `yann.deschamps`. -/
def ruleEncours (row : Row) : Bool :=
  [some "Nouveau".toList, some "Accepté".toList, some "Chiffrage".toList,
    some "Validation chiffrage".toList, some "Réalisation".toList].contains
      (row.get "État".toList) ||
  (row.get "État".toList == some "Résolu".toList &&
    row.get "Affecté à".toList != some "yann.deschamps".toList)

/-- Rule Résolues: `État = Résolu` and `Affecté à = 'yann.deschamps'`. -/
def ruleResolues (row : Row) : Bool :=
  row.get "État".toList == some "Résolu".toList &&
    row.get "Affecté à".toList == some "yann.deschamps".toList

/-- Rule Priorités: the enriched priority of the row is `p`. -/
def rulePriority (p : String) (row : Row) : Bool := row.get "priorite_p".toList == some p.toList

/-- The counters of one column of one block: the number of rows that satisfy `inBlock`
among those `counted` in the column `col`, and the sub-counts for the priorities. -/
def countBlock (counted : Row → Bool) (column : Row → Option CatType)
    (isP1 isP3 : Row → Bool) (inBlock : Row → Bool) (col : CatType) (rows : List Row) :
    CoproCount :=
  { total := rows.countP (fun r => counted r && column r == some col && inBlock r),
    p1 := rows.countP (fun r => counted r && column r == some col && inBlock r && isP1 r),
    p3 := rows.countP (fun r => counted r && column r == some col && inBlock r && isP3 r) }

/-- The summary made of such counters. -/
def countSummary (counted : Row → Bool) (column : Row → Option CatType)
    (isP1 isP3 : Row → Bool) (encours resolues : Row → Bool) (rows : List Row) : CoproStats :=
  { encours :=
      { projet := countBlock counted column isP1 isP3 encours .projet rows,
        evolution := countBlock counted column isP1 isP3 encours .evolution rows },
    resolues :=
      { projet := countBlock counted column isP1 isP3 resolues .projet rows,
        evolution := countBlock counted column isP1 isP3 resolues .evolution rows } }

/-- The reference definition read off `COPRO_RULES` as written: the columns named by the
rules, compared with the values the rules give. -/
def coproReference (rows : List Row) : CoproStats :=
  countSummary ruleDomaine ruleColumn (rulePriority "P1") (rulePriority "P3")
    ruleEncours ruleResolues rows

/-- The reference definition with the comparisons the code makes: every column is read
from its French header or, when that is empty or missing, from its other names, and the
values are compared after trimming and lower-casing (upper-casing for the priority). -/
def coproReferenceNormalized (rows : List Row) : CoproStats :=
  countSummary (fun r => coproDomaine r == "sd".toList) coproCatType
    (fun r => coproPriority r == "P1".toList) (fun r => coproPriority r == "P3".toList)
    (fun r => encoursStates.contains (coproEtat r) ||
      (coproEtat r == "résolu".toList && coproAffecte r != "yann.deschamps".toList))
    (fun r => coproEtat r == "résolu".toList && coproAffecte r == "yann.deschamps".toList)
    rows

/-- A row in the export format: project of the domain SD, resolved and assigned to
`Yann.Deschamps`, with priority P1. -/
def resolvedRow : Row :=
  [("Domaine (Toray)".toList, "SD".toList), ("Catégorie".toList, "Projet".toList),
    ("État".toList, "Résolu".toList), ("Affecté à".toList, "Yann.Deschamps".toList),
    ("priorite_p".toList, "P1".toList)]

/-- A row with the other column names: `domaine`, `category`, `status`. -/
def aliasRow : Row :=
  [("domaine".toList, "SD".toList), ("category".toList, "[Toray] Ecart".toList),
    ("status".toList, "Nouveau".toList)]

/-- A row in the export format: project of the domain SD, new, with priority P3. -/
def newProjectRow : Row :=
  [("Domaine (Toray)".toList, "SD".toList), ("Catégorie".toList, "Projet".toList),
    ("État".toList, "Nouveau".toList), ("Affecté à".toList, "marie.curie".toList),
    ("priorite_p".toList, "P3".toList)]

/-- Sum of two blocks of counters. -/
def CoproCount.add (a b : CoproCount) : CoproCount :=
  { total := a.total + b.total, p1 := a.p1 + b.p1, p3 := a.p3 + b.p3 }

/-- Sum of two summaries, counter by counter. -/
def CoproStats.add (a b : CoproStats) : CoproStats :=
  { encours :=
      { projet := a.encours.projet.add b.encours.projet,
        evolution := a.encours.evolution.add b.encours.evolution },
    resolues :=
      { projet := a.resolues.projet.add b.resolues.projet,
        evolution := a.resolues.evolution.add b.resolues.evolution } }

/-! ## Fixtures and descriptions for the rows of the bulk refresh -/

/-- An exported row whose identifier has leading zeros. -/
def paddedRow : Row :=
  [("Identifiant".toList, "0004217".toList), ("Résumé".toList, "Ecran figé".toList),
    ("Domaine (Toray)".toList, "SD".toList)]

/-- An exported row whose identifier is empty. -/
def rowWithEmptyId : Row :=
  [("Identifiant".toList, []), ("Résumé".toList, "Sans numéro".toList)]

/-! ## The iterations of the enrichment loop and the concurrency setting -/

/-- The values of `refreshJob` after each row of one chunk has completed, in the order of
`processChunk`; `idx` is the index of the first row of the chunk. -/
def processChunkStates (fetch : Nat → JSString → Except JSString JSString)
    (clock : Nat → JSString) : Nat → List Row → RefreshJob → List RefreshJob
  | _, [], _ => []
  | idx, row :: rest, job =>
    let r := processRow fetch clock idx row job
    r.2 :: processChunkStates fetch clock (idx + 1) rest r.2

/-- The last of the states `states` reached from `job`: `job` itself when there is none. -/
def lastState : RefreshJob → List RefreshJob → RefreshJob
  | job, [] => job
  | _, st :: more => lastState st more

/-- One iteration of the loop `for (let i = 0; i < rows.length; i += concurrency)`: the
value of `i`, the chunk `rows.slice(i, i + concurrency)` as it is read, the value of
`refreshJob` when the chunk is read and its values after each row of the chunk. -/
structure ChunkRun where
  start : Int
  rows : List Row
  before : RefreshJob
  states : List RefreshJob

/-- The value of `refreshJob` when `await Promise.all(...)` of the iteration returns. -/
def ChunkRun.after (run : ChunkRun) : RefreshJob := lastState run.before run.states

/-- One iteration of the loop of `enrichLoop` at the value `i`: its record, and the rows
and the job state it leaves.  The chunk is `rows.slice(i, i + concurrency)`. -/
def loopIteration (fetch : Nat → JSString → Except JSString JSString)
    (clock : Nat → JSString) (concurrency : Option Int) (i : Int) (rows : List Row)
    (job : RefreshJob) : ChunkRun × (List Row × RefreshJob) :=
  let lo := relativeIndex rows.length i
  let hi := relativeIndex rows.length
    (match concurrency with
      | some c => i + c
      | none => 0)
  let chunk := (rows.drop lo).take (hi - lo)
  let done := processChunk fetch clock lo chunk job
  let rows2 := rows.take lo ++ done.1 ++ rows.drop (lo + chunk.length)
  ({ start := i, rows := chunk, before := job,
     states := processChunkStates fetch clock lo chunk job }, (rows2, done.2))

/-- The loop of `enrichLoop` with a record of its iterations: the iterations in order, and
the rows and the job state at the end of the loop. -/
def enrichLoopTrace (fetch : Nat → JSString → Except JSString JSString)
    (clock : Nat → JSString) (concurrency : Option Int) : Nat → Int → List Row →
    RefreshJob → Option (List ChunkRun × (List Row × RefreshJob))
  | fuel, i, rows, job =>
    if i < rows.length then
      match fuel with
      | 0 => none
      | fuel + 1 =>
        let it := loopIteration fetch clock concurrency i rows job
        match concurrency with
        | some c =>
          match enrichLoopTrace fetch clock concurrency fuel (i + c) it.2.1 it.2.2 with
          | some (trace, out) => some (it.1 :: trace, out)
          | none => none
        | none => some ([it.1], it.2)
    else some ([], (rows, job))

/-- The iterations `trace` take the rows `left`, which start at index `i`, in consecutive
chunks of `c` rows from the job state `job`: each iteration reads the next `c` rows left
(fewer when fewer are left, never none), every row of its chunk completes in it, one
after the other as far as the counters go, and the next iteration starts from the state
reached when the last row of the chunk has completed. -/
def ChunkedFrom (c : Nat) : Nat → RefreshJob → List Row → List ChunkRun → Prop
  | _, _, left, [] => left = []
  | i, job, left, run :: more =>
    left ≠ [] ∧ run.start = (i : Int) ∧ run.rows = left.take c ∧ run.before = job ∧
    run.states.length = run.rows.length ∧
    (∀ j st, run.states[j]? = some st → Advanced job st (j + 1)) ∧
    ChunkedFrom c (i + c) run.after (left.drop c) more

/-- The value of the character `ch` as a digit in the radix `radix`, if it is one. -/
def digitValue (radix : Nat) (ch : Char) : Option Nat :=
  let v : Option Nat :=
    if '0' ≤ ch ∧ ch ≤ '9' then some (ch.toNat - '0'.toNat)
    else if 'a' ≤ ch ∧ ch ≤ 'z' then some (ch.toNat - 'a'.toNat + 10)
    else if 'A' ≤ ch ∧ ch ≤ 'Z' then some (ch.toNat - 'A'.toNat + 10)
    else none
  v.filter (fun d => decide (d < radix))

/-- The number written by the longest prefix of digits of the text, read after the digits
that gave `acc`; `acc` is `none` as long as no digit has been read. -/
def readDigits (radix : Nat) : List Char → Option Nat → Option Nat
  | [], acc => acc
  | ch :: rest, acc =>
    match digitValue radix ch with
    | some d => readDigits radix rest (some (acc.getD 0 * radix + d))
    | none => acc

/-- The function `parseInt(s)` of the JavaScript runtime, without radix argument: leading
white space is skipped, a sign is read, a prefix `0x` or `0X` selects the radix 16, and the
longest prefix of digits gives the value; `none` stands for `NaN`.  The value is the exact
integer (the runtime rounds integers beyond 2^53 to the nearest double). -/
def parseInt (s : JSString) : Option Int :=
  let t := trimStart s
  let signed : Bool × List Char :=
    match t with
    | '-' :: r => (true, r)
    | '+' :: r => (false, r)
    | _ => (false, t)
  let based : Nat × List Char :=
    match signed.2 with
    | '0' :: 'x' :: r => (16, r)
    | '0' :: 'X' :: r => (16, r)
    | _ => (10, signed.2)
  match readDigits based.1 based.2 none with
  | some n => some (if signed.1 then -(n : Int) else (n : Int))
  | none => none

/-- The constant `concurrency` of the refresh job:
`parseInt(process.env.MANTIS_ENRICH_CONCURRENCY || '5')`. -/
def refreshConcurrency (env : Env) : Option Int :=
  parseInt (orDefault env.MANTIS_ENRICH_CONCURRENCY "5".toList)

/-- The field `progress` of both status endpoints:
`refreshJob.total > 0 ? (refreshJob.current / refreshJob.total) * 100 : 0`. -/
def statusProgress (job : RefreshJob) : ℚ :=
  if 0 < job.total then (job.current : ℚ) / (job.total : ℚ) * 100 else 0

/-- The job state left by the `catch` and `finally` blocks of the background job, which
run without a pause in between: the message is recorded when the `try` block has thrown,
and `isRunning` is cleared. -/
def endJob (job : RefreshJob) (outcome : Except JSString Unit) : RefreshJob :=
  match outcome with
  | .ok _ => { job with isRunning := false }
  | .error m => { job with error := some m, isRunning := false }

/-- The successive values of `refreshJob` in the course of the background job of
`runRefreshJob`: the value set when the job starts, the value once `total` is set, the
value after each row completion, and the value left at the end of the job; `none` when the
loop does not end within `fuel` iterations. -/
def refreshJobStates (fuel : Nat) (inp : JobInputs) (fs : FileSystem) :
    Option (List RefreshJob) :=
  let job0 := startJob inp.startIso
  match prepareRows inp.login inp.loadFilter inp.csvExport inp.parse with
  | .error m => some [job0, endJob job0 (.error m)]
  | .ok rows =>
    let job1 := { job0 with total := rows.length }
    match enrichLoopTrace inp.fetch inp.clock inp.concurrency fuel 0 rows job1 with
    | none => none
    | some (trace, (rows2, job2)) =>
      let w := writeCacheAtomic fs rows2
        { totalRows := job2.total, enrichedTotal := job2.current,
          enrichedSuccess := job2.success, enrichedFailed := job2.failed }
        inp.writeStamp inp.writeFault
      some (job0 :: job1 :: ((trace.map ChunkRun.states).flatten ++ [endJob job2 w.2]))

/-- What the job state satisfies at every point of a refresh. -/
def JobInvariant (job : RefreshJob) : Prop :=
  job.success + job.failed = job.current ∧ job.current ≤ job.total ∧
  0 ≤ statusProgress job ∧ statusProgress job ≤ 100 ∧
  ¬ (job.isRunning = true ∧ job.error ≠ none)

/-! ## The reachable states of the priority cache -/

/-- The route `GET /api/mantis/priority-p` for a request with a non-empty `id`: after the
login the entry of the stripped id is deleted and `fetchPriority` is called for it.  Gives
the value sent back (or the message of the error reply) and the cache left. -/
def lazyPriority (cache : PriorityCache) (id : JSString) (loginResult : Except JSString Unit)
    (now : Int) (response : Except JSString Document) (stamp : Int) :
    Except JSString JSString × PriorityCache :=
  match loginResult with
  | .error m => (.error m, cache)
  | .ok _ =>
    let cache1 := cache.delete (stripLeadingZeros id)
    let r := fetchPriority cache1 (stripLeadingZeros id) now response stamp
    (.ok r.value, r.cache)

/-- The states of `priorityCache`: it is empty when the server starts, and it is changed
by the calls of `fetchPriority` and by the `delete` of the route
`GET /api/mantis/priority-p`, in any order, with any arguments and any answers of Mantis. -/
inductive CacheReachable : PriorityCache → Prop
  | start : CacheReachable []
  | fetch (c : PriorityCache) (id : JSString) (now : Int)
      (response : Except JSString Document) (stamp : Int) :
      CacheReachable c → CacheReachable (fetchPriority c id now response stamp).cache
  | delete (c : PriorityCache) (id : JSString) :
      CacheReachable c → CacheReachable (c.delete id)

/-- What holds of a cache entry: its value is empty or `P` and a digit 1-9, and its reason
is `not_found` exactly when the value is empty. -/
def ValidEntry (e : CacheEntry) : Prop :=
  (e.value = [] ∨ ∃ d, TokenText e.value d) ∧ (e.reason = .not_found ↔ e.value = [])

/-! ## Fixtures for the notes and the attachments of a detail page -/

/-- A detail page of an older layout, without any `bugnote` element:
`<table class="width100"><tbody><tr><td class="bugnote-public">alice 2020-01-02</td>
<td>(0001)</td></tr><tr><td>First note</td></tr></tbody></table>`. -/
def legacyNotesPage : Document :=
  pageOf [.element "table".toList ["width100".toList] []
    [plainElement "tbody"
      [plainElement "tr"
        [.element "td".toList ["bugnote-public".toList] [] [.text "alice 2020-01-02".toList],
          plainElement "td" [.text "(0001)".toList]],
        plainElement "tr" [plainElement "td" [.text "First note".toList]]]]]

/-- The notes found by the primary strategy: those of the `bugnote` elements. -/
def primaryNotes (doc : Document) : List Note := (select isBugnote doc).filterMap bugnoteNote

/-- The notes the fallback strategy finds when it runs. -/
def fallbackNotes (doc : Document) : List Note :=
  (selectInside isWidth100Table isTr doc).filterMap fallbackNote

/-- The link `<a href="file_download.php?file_id=7&type=bug"><img src="images/file.gif"></a>`:
a download link shown as an icon, without text. -/
def iconLink : Node :=
  .element "a".toList [] [("href".toList, "file_download.php?file_id=7&type=bug".toList)]
    [.element "img".toList [] [("src".toList, "images/file.gif".toList)] []]

/-- A detail page whose attachment table holds the icon link only:
`<table id="attachments"><tbody><tr><td>` the link `</td></tr></tbody></table>`. -/
def iconLinkPage : Document :=
  pageOf [.element "table".toList [] [("id".toList, "attachments".toList)]
    [plainElement "tbody" [plainElement "tr" [plainElement "td" [iconLink]]]]]

/-- The rows examined for attachments: `$('#attachments, table:contains("Fichiers
attachés"), table:contains("Attached Files")').find('tr')`. -/
def attachmentRows (doc : Document) : List Node :=
  (selectInside isAttachmentContainer isTr doc).map (fun row => row.1)

/-- The links of a row: `$(row).find('a')`. -/
def rowLinks (row : Node) : List Node := select isAnchor row.childNodes

/-- A link that is kept as an attachment: its `href` holds one of the three download
patterns, and its trimmed text is neither empty nor one of the four action captions. -/
def KeptLink (link : Node) : Prop :=
  ∃ href, link.attr "href".toList = some href ∧ href ≠ [] ∧
    (includes href "file_download.php".toList = true ∨
      includes href "download".toList = true ∨ includes href "plugin.php".toList = true) ∧
    trim link.textContent ≠ [] ∧ trim link.textContent ∉ actionCaptions

/-! ## The tab filters of the front end (src/config/mantisTabs.config.js) and the KPI
predicates of the server -/

/-- The function `filterFn` of the tab `sd-en-cours`. -/
def sdEnCoursFilterFn (row : Row) : Bool :=
  let category := trim (orDefault (row.get "Catégorie".toList) [])
  let domaine := trim (orDefault (row.get "Domaine (Toray)".toList) [])
  let isSD := category == "SD".toList || domaine == "SD".toList
  let status := toLowerCase (trim
    (orDefault (row.get "État".toList) (orDefault (row.get "Etat".toList) [])))
  let validStatuses : List JSString :=
    ["nouveau".toList, "accepté".toList, "chiffrage".toList, "validation chiffrage".toList,
      "réalisation".toList, "résolu".toList]
  let isCorrectStatus := validStatuses.contains status
  let assignee := toLowerCase (trim (orDefault (row.get "Affecté à".toList) []))
  let isNotYann := assignee != "yann.deschamps".toList
  isSD && isCorrectStatus && isNotYann

/-- The function `filterFn` of the tab `sd-testable`. -/
def sdTestableFilterFn (row : Row) : Bool :=
  let category := trim (orDefault (row.get "Catégorie".toList) [])
  let domaine := trim (orDefault (row.get "Domaine (Toray)".toList) [])
  let isSD := category == "SD".toList || domaine == "SD".toList
  let status := toLowerCase (trim
    (orDefault (row.get "État".toList) (orDefault (row.get "Etat".toList) [])))
  let isResolut := status == "résolu".toList
  let assignee := toLowerCase (trim (orDefault (row.get "Affecté à".toList) []))
  let isYann := assignee == "yann.deschamps".toList
  isSD && isResolut && isYann

/-- The rows shown in a tab, `filteredData` of `MantisPage.jsx`, for a tab whose
configuration has the function `filterFn`. -/
def filteredData (filterFn : Row → Bool) (data : List Row) : List Row :=
  if data.length = 0 then data else data.filter filterFn

/-- The helper `isKpiOpen` of the route `GET /api/mantis/kpis`. -/
def isKpiOpen (row : Row) : Bool :=
  let status := toLowerCase (trim
    (orDefault (row.get "État".toList) (orDefault (row.get "Etat".toList) [])))
  let openStatuses : List JSString :=
    ["nouveau".toList, "accepté".toList, "chiffrage".toList, "validation chiffrage".toList,
      "réalisation".toList, "résolu".toList]
  openStatuses.contains status

/-- The callback of the filter that gives `sd_en_cours_items`. -/
def isSdEnCoursItem (row : Row) : Bool :=
  let category := trim (orDefault (row.get "Catégorie".toList) [])
  let domaine := trim (orDefault (row.get "Domaine (Toray)".toList) [])
  let isSD := category == "SD".toList || domaine == "SD".toList
  let isCorrectStatus := isKpiOpen row
  let assignee := toLowerCase (trim (orDefault (row.get "Affecté à".toList) []))
  let isNotYann := assignee != "yann.deschamps".toList
  isSD && isCorrectStatus && isNotYann

/-- The callback of the filter that gives `sd_testable_items`. -/
def isSdTestableItem (row : Row) : Bool :=
  let category := trim (orDefault (row.get "Catégorie".toList) [])
  let domaine := trim (orDefault (row.get "Domaine (Toray)".toList) [])
  let isSD := category == "SD".toList || domaine == "SD".toList
  let status := toLowerCase (trim
    (orDefault (row.get "État".toList) (orDefault (row.get "Etat".toList) [])))
  let isResolu := status == "résolu".toList
  let assignee := toLowerCase (trim (orDefault (row.get "Affecté à".toList) []))
  let isYann := assignee == "yann.deschamps".toList
  isSD && isResolu && isYann

/-- The constant `sd_en_cours_items`. -/
def sd_en_cours_items (data : List Row) : List Row := data.filter isSdEnCoursItem

/-- The constant `sd_testable_items`. -/
def sd_testable_items (data : List Row) : List Row := data.filter isSdTestableItem

/-- The object returned by `computeBreakdown`. -/
structure Breakdown where
  total : Nat
  p1 : Nat
  p2 : Nat
  p3 : Nat
  non_prio : Int
  deriving DecidableEq, Repr

/-- The helper `computeBreakdown(items)` of the route `GET /api/mantis/kpis`. -/
def computeBreakdown (items : List Row) : Breakdown :=
  let getP := fun (p : JSString) =>
    (items.filter (fun r => toUpperCase (orDefault (r.get "priorite_p".toList) []) == p)).length
  let p1 := getP "P1".toList
  let p2 := getP "P2".toList
  let p3 := getP "P3".toList
  let total := items.length
  { total := total, p1 := p1, p2 := p2, p3 := p3,
    non_prio := (total : Int) - ((p1 : Int) + (p2 : Int) + (p3 : Int)) }

/-- A row of category `Projet` whose domain is `SD`, in the state `Nouveau`. -/
def domainSdRow : Row :=
  [("Identifiant".toList, "0004711".toList), ("Catégorie".toList, "Projet".toList),
    ("Domaine (Toray)".toList, "SD".toList), ("État".toList, "Nouveau".toList),
    ("Affecté à".toList, "marie.curie".toList)]

/-- A resolved row of category `SD` assigned to `yann.deschamps`. -/
def testableRow : Row :=
  [("Identifiant".toList, "0004712".toList), ("Catégorie".toList, "SD".toList),
    ("État".toList, "Résolu".toList), ("Affecté à".toList, "yann.deschamps".toList)]

/-- A cached row of the domain `Main d'œuvre`, with a letter outside Latin-1. -/
def oeuvreRow : Row :=
  [("Identifiant".toList, "0004400".toList),
    ("Domaine (Toray)".toList, "Main d\x27œuvre".toList)]

/-- A login page written with capital tag names, as the export request gets it when the
session has expired. -/
def upperHtmlPage : JSString := "<!DOCTYPE HTML><HTML><BODY>Login</BODY></HTML>".toList

/-- An HTML page with capital tag names and without document type. -/
def bareUpperHtmlPage : JSString := "<HTML><BODY>Login</BODY></HTML>".toList

/-! ## Auxiliary facts -/

theorem isPriorityLabel_iff (s : JSString) :
    isPriorityLabel s = true ↔ s = "priorité".toList ∨ s = "priorite".toList := by
  simp [isPriorityLabel]

theorem isDigit19_iff (d : Char) : isDigit19 d = true ↔ '1' ≤ d ∧ d ≤ '9' := by
  simp [isDigit19]

theorem matchPrefixToken_eq_some (s tok : JSString) :
    matchPrefixToken s = some tok ↔
      ∃ d tail, s = 'P' :: d :: tail ∧ isDigit19 d = true ∧ tok = ['P', d] := by
  constructor
  · intro h
    unfold matchPrefixToken at h
    split at h
    · rename_i d tail
      split at h
      · rename_i hd
        simp only [Option.some.injEq] at h
        exact ⟨d, tail, rfl, hd, h.symm⟩
      · exact absurd h (by simp)
    · exact absurd h (by simp)
  · rintro ⟨d, tail, rfl, hd, rfl⟩
    simp [matchPrefixToken, hd]

theorem rowToken_eq_some (row : Node) (d : Char) :
    rowToken row = some ['P', d] ↔ LabelRow row d := by
  unfold rowToken LabelRow
  constructor
  · intro h
    split at h
    · rename_i c0 c1 rest hc
      split at h
      · rename_i hl
        obtain ⟨d2, tail, h1, h2, h3⟩ := (matchPrefixToken_eq_some _ _).1 h
        simp only [List.cons.injEq, true_and, and_true] at h3
        subst h3
        exact ⟨c0, c1, rest, tail, hc, (isPriorityLabel_iff _).1 hl, h1,
          (isDigit19_iff _).1 h2⟩
      · exact absurd h (by simp)
    · exact absurd h (by simp)
  · rintro ⟨c0, c1, rest, tail, hc, hl, hv, hd⟩
    rw [hc]
    simp only [(isPriorityLabel_iff _).2 hl, if_true]
    exact (matchPrefixToken_eq_some _ _).2 ⟨d, tail, hv, (isDigit19_iff _).2 hd, rfl⟩

theorem rowToken_shape (row : Node) (tok : JSString) (h : rowToken row = some tok) :
    ∃ d, tok = ['P', d] := by
  unfold rowToken at h
  split at h
  · split at h
    · obtain ⟨d, _, _, _, h3⟩ := (matchPrefixToken_eq_some _ _).1 h
      exact ⟨d, h3⟩
    · exact absurd h (by simp)
  · exact absurd h (by simp)

/-- A loop left at the first element that gives a result: when some element gives one,
the list splits at the first such element. -/
theorem findSome?_first {α β : Type} (f : α → Option β) (l : List α)
    (h : ∃ x ∈ l, (f x).isSome = true) :
    ∃ pre x post v, l = pre ++ x :: post ∧ (∀ y ∈ pre, f y = none) ∧ f x = some v ∧
      l.findSome? f = some v := by
  induction l with
  | nil => obtain ⟨x, hx, _⟩ := h; exact absurd hx (by simp)
  | cons a l ih =>
    cases hfa : f a with
    | some v =>
      exact ⟨[], a, l, v, rfl, by simp, hfa, by simp [List.findSome?, hfa]⟩
    | none =>
      have h2 : ∃ x ∈ l, (f x).isSome = true := by
        obtain ⟨x, hx, hs⟩ := h
        rcases List.mem_cons.1 hx with rfl | hx
        · rw [hfa] at hs; exact absurd hs (by simp)
        · exact ⟨x, hx, hs⟩
      obtain ⟨pre, x, post, v, h1, h3, h4, h5⟩ := ih h2
      refine ⟨a :: pre, x, post, v, by rw [h1]; rfl, ?_, h4, by simp [List.findSome?, hfa, h5]⟩
      intro y hy
      rcases List.mem_cons.1 hy with rfl | hy
      · exact hfa
      · exact h3 y hy

theorem findSome?_eq_none_iff_forall {α β : Type} (f : α → Option β) (l : List α) :
    l.findSome? f = none ↔ ∀ x ∈ l, f x = none := by
  induction l with
  | nil => simp
  | cons a l ih =>
    cases hfa : f a with
    | some v => simp [List.findSome?, hfa]
    | none => simp [List.findSome?, hfa, ih]

theorem PriorityCache.get_set (c : PriorityCache) (id : JSString) (e : CacheEntry) :
    (PriorityCache.set c id e).get id = some e := by
  induction c with
  | nil => simp [PriorityCache.set, PriorityCache.get]
  | cons kv rest ih =>
    unfold PriorityCache.set
    by_cases h : (kv.1 == id) = true
    · simp [h, PriorityCache.get]
    · simp only [h, if_false]
      simp only [PriorityCache.get, List.find?, h] at ih ⊢
      exact ih

theorem fetchPriority_miss_ok (cache : PriorityCache) (id : JSString) (now stamp : Int)
    (doc : Document) (hmiss : isFresh (cache.get id) now = false) :
    fetchPriority cache id now (.ok doc) stamp =
      { value := (extractPriority doc).1,
        cache := cache.set id
          { value := (extractPriority doc).1, timestamp := stamp,
            reason := (extractPriority doc).2 },
        requested := true } := by
  unfold fetchPriority
  cases hget : cache.get id with
  | none => rfl
  | some e =>
    rw [hget] at hmiss
    simp [hmiss]

theorem fetchPriority_miss_error (cache : PriorityCache) (id : JSString) (now stamp : Int)
    (msg : JSString) (hmiss : isFresh (cache.get id) now = false) :
    fetchPriority cache id now (.error msg) stamp =
      { value := "ERR".toList, cache := cache, requested := true } := by
  unfold fetchPriority
  cases hget : cache.get id with
  | none => rfl
  | some e =>
    rw [hget] at hmiss
    simp [hmiss]

theorem fetchPriority_hit (cache : PriorityCache) (id : JSString) (now stamp : Int)
    (response : Except JSString Document) (e : CacheEntry)
    (hget : cache.get id = some e) (hfresh : isFresh (some e) now = true) :
    fetchPriority cache id now response stamp =
      { value := e.value, cache := cache, requested := false } := by
  unfold fetchPriority
  simp [hget, hfresh]

theorem labelToken_eq_some (e : Node × List Node) (d : Char) :
    labelToken e = some ['P', d] ↔ LabelCell e d := by
  unfold labelToken LabelCell
  constructor
  · intro h
    split at h
    · rename_i hl
      obtain ⟨d2, tail, h1, h2, h3⟩ := (matchPrefixToken_eq_some _ _).1 h
      simp only [List.cons.injEq, true_and, and_true] at h3
      subst h3
      exact ⟨(isPriorityLabel_iff _).1 hl, tail, h1, (isDigit19_iff _).1 h2⟩
    · exact absurd h (by simp)
  · rintro ⟨hl, tail, hv, hd⟩
    simp only [(isPriorityLabel_iff _).2 hl, if_true]
    exact (matchPrefixToken_eq_some _ _).2 ⟨d, tail, hv, (isDigit19_iff _).2 hd, rfl⟩

theorem labelToken_shape (e : Node × List Node) (tok : JSString)
    (h : labelToken e = some tok) : ∃ d, tok = ['P', d] := by
  unfold labelToken at h
  split at h
  · obtain ⟨d, _, _, _, h3⟩ := (matchPrefixToken_eq_some _ _).1 h
    exact ⟨d, h3⟩
  · exact absurd h (by simp)

theorem matchExactToken_eq_some (s tok : JSString) :
    matchExactToken s = some tok ↔ ∃ d, TokenText s d ∧ tok = ['P', d] := by
  constructor
  · intro h
    unfold matchExactToken at h
    split at h
    · rename_i d
      split at h
      · rename_i hd
        simp only [Option.some.injEq] at h
        exact ⟨d, ⟨rfl, (isDigit19_iff _).1 hd⟩, h.symm⟩
      · exact absurd h (by simp)
    · exact absurd h (by simp)
  · rintro ⟨d, ⟨rfl, hd⟩, rfl⟩
    simp [matchExactToken, (isDigit19_iff _).2 hd]

theorem directToken_eq_some (el : Node) (d : Char) :
    directToken el = some ['P', d] ↔ TokenText (trim el.textContent) d := by
  unfold directToken
  rw [matchExactToken_eq_some]
  constructor
  · rintro ⟨d2, ht, h⟩
    simp only [List.cons.injEq, true_and, and_true] at h
    subst h
    exact ht
  · intro ht
    exact ⟨d, ht, rfl⟩

theorem directToken_shape (el : Node) (tok : JSString) (h : directToken el = some tok) :
    ∃ d, tok = ['P', d] := by
  obtain ⟨d, _, h2⟩ := (matchExactToken_eq_some _ _).1 h
  exact ⟨d, h2⟩

theorem scanGlobalToken_eq_none (prevWord : Bool) (s : JSString) :
    scanGlobalToken prevWord s = none ↔ ∀ d, ¬ StandaloneAt prevWord s d := by
  induction s generalizing prevWord with
  | nil =>
    simp only [scanGlobalToken, true_iff]
    rintro d ⟨pre, post, h, -⟩
    exact absurd h (by simp)
  | cons c rest ih =>
    unfold scanGlobalToken
    split
    · rename_i hc
      simp only [reduceCtorEq, false_iff, not_forall, not_not]
      simp only [Bool.and_eq_true, Bool.not_eq_true', beq_iff_eq] at hc
      obtain ⟨⟨hp, hcP⟩, hrest⟩ := hc
      cases rest with
      | nil => exact absurd hrest (by simp)
      | cons d rest2 =>
        simp only [Bool.and_eq_true] at hrest
        refine ⟨d, [], rest2, by rw [hcP]; rfl, ((isDigit19_iff d).1 hrest.1).1,
          ((isDigit19_iff d).1 hrest.1).2, by simpa [wordBefore] using hp, hrest.2⟩
    · rename_i hc
      rw [ih]
      constructor
      · rintro h d ⟨pre, post, hs, hd1, hd2, hb, ha⟩
        cases pre with
        | nil =>
          simp only [List.nil_append, List.cons.injEq] at hs
          apply hc
          obtain ⟨hcP, hrest⟩ := hs
          subst hcP hrest
          simp only [wordBefore] at hb
          simp [hb, ha, (isDigit19_iff d).2 ⟨hd1, hd2⟩]
        | cons a pre2 =>
          simp only [List.cons_append, List.cons.injEq] at hs
          obtain ⟨hca, hrest⟩ := hs
          subst hca
          exact h d ⟨pre2, post, hrest, hd1, hd2, by simpa [wordBefore] using hb, ha⟩
      · rintro h d ⟨pre, post, hs, hd1, hd2, hb, ha⟩
        exact h d ⟨c :: pre, post, by rw [hs]; rfl, hd1, hd2, by simpa [wordBefore] using hb, ha⟩

theorem scanGlobalToken_shape (prevWord : Bool) (s tok : JSString)
    (h : scanGlobalToken prevWord s = some tok) : ∃ d, tok = ['P', d] ∧ StandaloneAt prevWord s d := by
  induction s generalizing prevWord with
  | nil => exact absurd h (by simp [scanGlobalToken])
  | cons c rest ih =>
    unfold scanGlobalToken at h
    split at h
    · rename_i hc
      simp only [Bool.and_eq_true, Bool.not_eq_true', beq_iff_eq] at hc
      obtain ⟨⟨hp, hcP⟩, hrest⟩ := hc
      cases rest with
      | nil => exact absurd hrest (by simp)
      | cons d rest2 =>
        simp only [Bool.and_eq_true] at hrest
        simp only [List.take_succ_cons, List.take_zero, Option.some.injEq] at h
        refine ⟨d, by rw [← h, hcP], [], rest2, by rw [hcP]; rfl,
          ((isDigit19_iff d).1 hrest.1).1, ((isDigit19_iff d).1 hrest.1).2,
          by simpa [wordBefore] using hp, hrest.2⟩
    · obtain ⟨d, h1, pre, post, hs, hd1, hd2, hb, ha⟩ := ih _ h
      exact ⟨d, h1, c :: pre, post, by rw [hs]; rfl, hd1, hd2,
        by simpa [wordBefore] using hb, ha⟩

theorem strategy1_eq_none (doc : Document) :
    strategy1 doc = none ↔ ∀ row ∈ select isTr doc, ∀ d, ¬ LabelRow row d := by
  unfold strategy1
  rw [findSome?_eq_none_iff_forall]
  constructor
  · intro h row hr d hl
    have := h row hr
    rw [(rowToken_eq_some row d).2 hl] at this
    exact absurd this (by simp)
  · intro h row hr
    cases ht : rowToken row with
    | none => rfl
    | some tok =>
      obtain ⟨d, rfl⟩ := rowToken_shape row tok ht
      exact absurd ((rowToken_eq_some row d).1 ht) (h row hr d)

theorem strategy2_eq_none (doc : Document) :
    strategy2 doc = none ↔
      ∀ e ∈ selectWithSiblings isCategoryTdOrTh doc, ∀ d, ¬ LabelCell e d := by
  unfold strategy2
  rw [findSome?_eq_none_iff_forall]
  constructor
  · intro h e he d hl
    have := h e he
    rw [(labelToken_eq_some e d).2 hl] at this
    exact absurd this (by simp)
  · intro h e he
    cases ht : labelToken e with
    | none => rfl
    | some tok =>
      obtain ⟨d, rfl⟩ := labelToken_shape e tok ht
      exact absurd ((labelToken_eq_some e d).1 ht) (h e he d)

theorem strategy3_eq_none (doc : Document) :
    strategy3 doc = none ↔
      ∀ el ∈ select isCustomFieldOrTd doc, ∀ d, ¬ TokenText (trim el.textContent) d := by
  unfold strategy3
  rw [findSome?_eq_none_iff_forall]
  constructor
  · intro h el he d hl
    have := h el he
    rw [(directToken_eq_some el d).2 hl] at this
    exact absurd this (by simp)
  · intro h el he
    cases ht : directToken el with
    | none => rfl
    | some tok =>
      obtain ⟨d, rfl⟩ := directToken_shape el tok ht
      exact absurd ((directToken_eq_some el d).1 ht) (h el he d)

theorem strategy4_eq_none (doc : Document) :
    strategy4 doc = none ↔ ∀ d, ¬ StandaloneToken (bodyText doc) d := by
  unfold strategy4 matchGlobalToken StandaloneToken
  exact scanGlobalToken_eq_none false _

theorem isFresh_mono (cached : Option CacheEntry) (now later : Int) (h : now ≤ later)
    (hstale : isFresh cached now = false) : isFresh cached later = false := by
  cases cached with
  | none => rfl
  | some e =>
    simp only [isFresh, decide_eq_false_iff_not, not_lt] at hstale ⊢
    omega

theorem isFresh_some_iff (e : CacheEntry) (now : Int) :
    isFresh (some e) now = true ↔
      now - e.timestamp < (if e.value = [] then 5 * 60 * 1000 else 30 * 60 * 1000) := by
  cases hv : e.value with
  | nil => simp [isFresh, ttlOf, hv, FAIL_CACHE_TTL]
  | cons c cs => simp [isFresh, ttlOf, hv, CACHE_TTL]

theorem fetchPriority_requested_iff (cache : PriorityCache) (id : JSString) (now stamp : Int)
    (response : Except JSString Document) :
    (fetchPriority cache id now response stamp).requested = true ↔
      isFresh (cache.get id) now = false := by
  unfold fetchPriority
  cases hget : cache.get id with
  | none => cases response <;> simp [isFresh]
  | some e =>
    by_cases hf : isFresh (some e) now = true
    · simp [hf]
    · cases response <;> simp [hf]

theorem processRow_advanced (fetch : Nat → JSString → Except JSString JSString)
    (clock : Nat → JSString) (idx : Nat) (row : Row) (job : RefreshJob) :
    Advanced job (processRow fetch clock idx row job).2 1 := by
  unfold processRow Advanced
  cases h1 : rowIdentifier row with
  | none => exact ⟨rfl, by simp only []; omega, rfl, rfl, rfl, rfl⟩
  | some idAttr =>
    cases h2 : fetch idx (stripLeadingZeros idAttr) with
    | error m =>
      simp only [h2, and_self, and_true, true_and]
      omega
    | ok val =>
      by_cases hv : (!val.isEmpty && val != "ERR".toList) = true
      · simp only [h2, hv, if_true, and_self, and_true, true_and]
        omega
      · simp only [h2, hv, Bool.false_eq_true, if_false, and_self, and_true, true_and]
        omega

theorem processChunk_advanced (fetch : Nat → JSString → Except JSString JSString)
    (clock : Nat → JSString) (idx : Nat) (chunk : List Row) (job : RefreshJob) :
    (processChunk fetch clock idx chunk job).1.length = chunk.length ∧
    Advanced job (processChunk fetch clock idx chunk job).2 chunk.length := by
  induction chunk generalizing idx job with
  | nil => simp [processChunk, Advanced]
  | cons row rest ih =>
    have h1 := processRow_advanced fetch clock idx row job
    obtain ⟨h2, h3⟩ := ih (idx + 1) (processRow fetch clock idx row job).2
    simp only [processChunk, List.length_cons]
    refine ⟨by rw [h2], ?_⟩
    unfold Advanced at h1 h3 ⊢
    refine ⟨by omega, by omega, ?_, ?_, ?_, ?_⟩
    · rw [h3.2.2.1, h1.2.2.1]
    · rw [h3.2.2.2.1, h1.2.2.2.1]
    · rw [h3.2.2.2.2.1, h1.2.2.2.2.1]
    · rw [h3.2.2.2.2.2, h1.2.2.2.2.2]

/-- With a positive concurrency the loop ends within as many iterations as rows are left,
and every row left completes once. -/
theorem enrichLoop_positive (fetch : Nat → JSString → Except JSString JSString)
    (clock : Nat → JSString) (c : Int) (hc : 0 < c) (fuel : Nat) (i : Int) (hi : 0 ≤ i)
    (rows : List Row) (job : RefreshJob) (hfuel : rows.length - i.toNat ≤ fuel) :
    ∃ rows2 job2, enrichLoop fetch clock (some c) fuel i rows job = some (rows2, job2) ∧
      rows2.length = rows.length ∧ Advanced job job2 (rows.length - i.toNat) := by
  induction fuel generalizing i rows job with
  | zero =>
    unfold enrichLoop
    have hnot : ¬ (i < (rows.length : Int)) := by omega
    rw [if_neg hnot]
    refine ⟨rows, job, rfl, rfl, ?_⟩
    have h0 : rows.length - i.toNat = 0 := by omega
    rw [h0]
    simp [Advanced]
  | succ fuel ih =>
    unfold enrichLoop
    by_cases hlt : i < (rows.length : Int)
    · rw [if_pos hlt]
      simp only []
      have hlo : relativeIndex rows.length i = i.toNat := by
        unfold relativeIndex
        rw [if_neg (by omega)]
        omega
      have hhi : relativeIndex rows.length (i + c) = min (i + c).toNat rows.length := by
        unfold relativeIndex
        rw [if_neg (by omega)]
      rw [hlo, hhi]
      have hlen : ((rows.drop i.toNat).take (min (i + c).toNat rows.length - i.toNat)).length
          = min (i + c).toNat rows.length - i.toNat := by
        rw [List.length_take, List.length_drop]
        omega
      obtain ⟨hd1, hd2⟩ := processChunk_advanced fetch clock i.toNat
        ((rows.drop i.toNat).take (min (i + c).toNat rows.length - i.toNat)) job
      rw [hlen] at hd1 hd2
      have hrows2 : (rows.take i.toNat ++
          (processChunk fetch clock i.toNat
            ((rows.drop i.toNat).take (min (i + c).toNat rows.length - i.toNat)) job).1 ++
          rows.drop (i.toNat +
            ((rows.drop i.toNat).take
              (min (i + c).toNat rows.length - i.toNat)).length)).length = rows.length := by
        rw [hlen]
        simp only [List.length_append, List.length_take, List.length_drop, hd1]
        omega
      obtain ⟨rows3, job3, h1, h2, h3⟩ := ih (i + c) (by omega) _
        (processChunk fetch clock i.toNat
          ((rows.drop i.toNat).take (min (i + c).toNat rows.length - i.toNat)) job).2
        (by rw [hrows2]; omega)
      refine ⟨rows3, job3, h1, by rw [h2, hrows2], ?_⟩
      rw [hrows2] at h3
      unfold Advanced at hd2 h3 ⊢
      refine ⟨by omega, by omega, ?_, ?_, ?_, ?_⟩
      · rw [h3.2.2.1, hd2.2.2.1]
      · rw [h3.2.2.2.1, hd2.2.2.2.1]
      · rw [h3.2.2.2.2.1, hd2.2.2.2.2.1]
      · rw [h3.2.2.2.2.2, hd2.2.2.2.2.2]
    · rw [if_neg hlt]
      refine ⟨rows, job, rfl, rfl, ?_⟩
      have h0 : rows.length - i.toNat = 0 := by omega
      rw [h0]
      simp [Advanced]

theorem runRefreshJob_not_running (fuel : Nat) (inp : JobInputs) (fs fs2 : FileSystem)
    (job : RefreshJob) (h : runRefreshJob fuel inp fs = some (job, fs2)) :
    job.isRunning = false := by
  unfold runRefreshJob at h
  split at h
  · exact absurd h (by simp)
  · simp only [Option.some.injEq, Prod.mk.injEq] at h
    rw [← h.1]
  · simp only [Option.some.injEq, Prod.mk.injEq] at h
    rw [← h.1]

theorem completeChunk_with_ids (respond : Nat → JSString → Except JSString Document)
    (chunk : List Row) (idx : Nat) (job : ExtractJob)
    (hids : ∀ r ∈ chunk, extractIdAttr r ≠ none) (hsync : ProgressInSync job) :
    (completeChunk respond idx chunk job).current = job.current + chunk.length ∧
    (completeChunk respond idx chunk job).total = job.total ∧
    (completeChunk respond idx chunk job).status = job.status ∧
    (completeChunk respond idx chunk job).error = job.error ∧
    (completeChunk respond idx chunk job).data =
      job.data ++ (chunk.enumFrom idx).filterMap (extractedAt respond) ∧
    ProgressInSync (completeChunk respond idx chunk job) := by
  induction chunk generalizing idx job with
  | nil => simp [completeChunk, hsync]
  | cons issue rest ih =>
    have hrest : ∀ r ∈ rest, extractIdAttr r ≠ none :=
      fun r hr => hids r (List.mem_cons_of_mem _ hr)
    cases hid : extractIdAttr issue with
    | none => exact absurd hid (hids issue (List.mem_cons_self _ _))
    | some idAttr =>
      have hsync2 : ProgressInSync (completeIssue issue idAttr
          (fetchFullIssueDetails (respond idx (stripLeadingZeros idAttr))
            (stripLeadingZeros idAttr)) job) := by
        intro _
        simp [completeIssue]
      obtain ⟨h1, h2, h3, h4, h5, h6⟩ := ih (idx + 1) _ hrest hsync2
      simp only [completeChunk, hid, List.enumFrom_cons, List.length_cons]
      refine ⟨?_, ?_, ?_, ?_, ?_, h6⟩
      · rw [h1]; simp only [completeIssue]; omega
      · rw [h2]; rfl
      · rw [h3]; rfl
      · rw [h4]; rfl
      · rw [h5]
        cases hd : fetchFullIssueDetails (respond idx (stripLeadingZeros idAttr))
            (stripLeadingZeros idAttr) with
        | none => simp [completeIssue, List.filterMap_cons, extractedAt, hid, hd]
        | some d => simp [completeIssue, List.filterMap_cons, extractedAt, hid, hd]

theorem extractLoop_with_ids (respond : Nat → JSString → Except JSString Document)
    (typeError : JSString) (fuel : Nat) (idx : Nat) (rows : List Row) (job : ExtractJob)
    (hfuel : rows.length ≤ fuel) (hids : ∀ r ∈ rows, extractIdAttr r ≠ none)
    (hsync : ProgressInSync job) :
    (extractLoop respond typeError fuel idx rows job).2 = true ∧
    (extractLoop respond typeError fuel idx rows job).1.current = job.current + rows.length ∧
    (extractLoop respond typeError fuel idx rows job).1.total = job.total ∧
    (extractLoop respond typeError fuel idx rows job).1.status = job.status ∧
    (extractLoop respond typeError fuel idx rows job).1.error = job.error ∧
    (extractLoop respond typeError fuel idx rows job).1.data =
      job.data ++ (rows.enumFrom idx).filterMap (extractedAt respond) ∧
    ProgressInSync (extractLoop respond typeError fuel idx rows job).1 := by
  induction fuel generalizing idx rows job with
  | zero =>
    cases rows with
    | nil => simp [extractLoop, hsync]
    | cons r rest => simp at hfuel
  | succ fuel ih =>
    cases rows with
    | nil => simp [extractLoop, hsync]
    | cons r rest =>
      have htake : ∀ x ∈ (r :: rest).take 3, extractIdAttr x ≠ none :=
        fun x hx => hids x (List.mem_of_mem_take hx)
      have hdrop : ∀ x ∈ (r :: rest).drop 3, extractIdAttr x ≠ none :=
        fun x hx => hids x (List.mem_of_mem_drop hx)
      have hany : ((r :: rest).take 3).any (fun x => (extractIdAttr x).isNone) = false := by
        rw [List.any_eq_false]
        intro x hx
        cases hx2 : extractIdAttr x with
        | none => exact absurd hx2 (htake x hx)
        | some v => simp
      obtain ⟨c1, c2, c3, c4, c5, c6⟩ :=
        completeChunk_with_ids respond ((r :: rest).take 3) idx job htake hsync
      have hlen : ((r :: rest).drop 3).length ≤ fuel := by
        rw [List.length_drop]
        simp only [List.length_cons] at hfuel ⊢
        omega
      obtain ⟨l1, l2, l3, l4, l5, l6, l7⟩ := ih (idx + 3) ((r :: rest).drop 3)
        (completeChunk respond idx ((r :: rest).take 3) job) hlen hdrop c6
      have hsplit : (r :: rest).enumFrom idx =
          ((r :: rest).take 3).enumFrom idx ++ ((r :: rest).drop 3).enumFrom (idx + 3) := by
        conv_lhs => rw [← List.take_append_drop 3 (r :: rest)]
        rw [List.enumFrom_append]
        by_cases h3 : 3 ≤ (r :: rest).length
        · rw [List.length_take, Nat.min_eq_left h3]
        · have hd : (r :: rest).drop 3 = [] := List.drop_eq_nil_of_le (by omega)
          rw [hd]
          simp
      have hcount : ((r :: rest).take 3).length + ((r :: rest).drop 3).length
          = (r :: rest).length := by
        rw [← List.length_append, List.take_append_drop]
      unfold extractLoop
      simp only [hany, Bool.false_eq_true, if_false]
      refine ⟨l1, ?_, ?_, ?_, ?_, ?_, l7⟩
      · rw [l2, c1]; omega
      · rw [l3, c2]
      · rw [l4, c3]
      · rw [l5, c4]
      · rw [l6, c5, hsplit, List.filterMap_append, List.append_assoc]

/-- When the cache can be read, some cached row matches the requested domain, the login
succeeds and every matching row has an identifier, the extraction job is not aborted,
whatever the detail pages give: it ends with the status `completed`,
`current = total`, `progress = 100` and no error, and its result list holds, in order, the
matching rows whose extraction produced details, each with these details. -/
theorem extract_job_completes (inp : ExtractInputs) (fs : FileSystem) (cache : CacheDocument)
    (hcache : readCache fs = some cache)
    (hrows : selectIssues cache.data inp.domain ≠ [])
    (hlogin : inp.login = .ok ())
    (hids : ∀ r ∈ selectIssues cache.data inp.domain, extractIdAttr r ≠ none) :
    (runExtractJob inp fs).status = .completed ∧
    (runExtractJob inp fs).total = (selectIssues cache.data inp.domain).length ∧
    (runExtractJob inp fs).current = (runExtractJob inp fs).total ∧
    (runExtractJob inp fs).progress = 100 ∧
    (runExtractJob inp fs).error = none ∧
    (runExtractJob inp fs).data =
      ((selectIssues cache.data inp.domain).enumFrom 0).filterMap
        (extractedAt inp.respond) := by
  have hlen : (selectIssues cache.data inp.domain).length ≠ 0 := by
    intro h
    exact hrows (List.length_eq_zero.1 h)
  have hsync : ProgressInSync (startedExtractJob inp (selectIssues cache.data inp.domain)) := by
    intro h
    exact absurd h (by simp [startedExtractJob, newExtractJob])
  obtain ⟨l1, l2, l3, l4, l5, l6, l7⟩ := extractLoop_with_ids inp.respond inp.typeError
    (selectIssues cache.data inp.domain).length 0 (selectIssues cache.data inp.domain)
    (startedExtractJob inp (selectIssues cache.data inp.domain)) (le_refl _) hids hsync
  have hrun : runExtractJob inp fs = finishExtractJob inp
      (extractLoop inp.respond inp.typeError (selectIssues cache.data inp.domain).length 0
        (selectIssues cache.data inp.domain)
        (startedExtractJob inp (selectIssues cache.data inp.domain))) := by
    unfold runExtractJob
    simp only [hcache, hlen, if_false, hlogin]
  rw [hrun]
  generalize extractLoop inp.respond inp.typeError (selectIssues cache.data inp.domain).length 0
    (selectIssues cache.data inp.domain)
    (startedExtractJob inp (selectIssues cache.data inp.domain)) = res at l1 l2 l3 l4 l5 l6 l7
  obtain ⟨job2, ok⟩ := res
  simp only at l1 l2 l3 l4 l5 l6 l7
  subst l1
  have h0 : (startedExtractJob inp (selectIssues cache.data inp.domain)).current = 0 := rfl
  have ht : (startedExtractJob inp (selectIssues cache.data inp.domain)).total
      = (selectIssues cache.data inp.domain).length := rfl
  have he : (startedExtractJob inp (selectIssues cache.data inp.domain)).error = none := rfl
  have hd : (startedExtractJob inp (selectIssues cache.data inp.domain)).data = [] := rfl
  rw [h0] at l2
  rw [ht] at l3
  rw [he] at l5
  rw [hd] at l6
  have hcur : job2.current = job2.total := by rw [l2, l3]; omega
  refine ⟨rfl, l3, hcur, ?_, l5, ?_⟩
  · have hpos : 0 < job2.current := by rw [l2]; omega
    have hp := l7 hpos
    show job2.progress = 100
    rw [hp, hcur, l3]
    have hne : ((selectIssues cache.data inp.domain).length : ℚ) ≠ 0 := by
      exact_mod_cast hlen
    field_simp
  · show job2.data = _
    rw [l6]
    rfl

theorem CoproStats.zero_add (a : CoproStats) : zeroStats.add a = a := by
  simp [CoproStats.add, CoproCount.add, zeroStats]

theorem CoproStats.add_zero (a : CoproStats) : a.add zeroStats = a := by
  simp [CoproStats.add, CoproCount.add, zeroStats]

theorem CoproStats.add_assoc (a b c : CoproStats) : (a.add b).add c = a.add (b.add c) := by
  simp [CoproStats.add, CoproCount.add, Nat.add_assoc]

theorem countSummary_nil (counted : Row → Bool) (column : Row → Option CatType)
    (isP1 isP3 encours resolues : Row → Bool) :
    countSummary counted column isP1 isP3 encours resolues [] = zeroStats := by
  simp [countSummary, countBlock, zeroStats]

theorem countSummary_cons (counted : Row → Bool) (column : Row → Option CatType)
    (isP1 isP3 encours resolues : Row → Bool) (r : Row) (rest : List Row) :
    countSummary counted column isP1 isP3 encours resolues (r :: rest) =
      (countSummary counted column isP1 isP3 encours resolues [r]).add
        (countSummary counted column isP1 isP3 encours resolues rest) := by
  simp only [countSummary, countBlock, CoproStats.add, CoproCount.add, List.countP_cons,
    List.countP_nil, Nat.zero_add]
  simp only [CoproStats.mk.injEq, CoproColumns.mk.injEq, CoproCount.mk.injEq]
  refine ⟨⟨⟨?_, ?_, ?_⟩, ⟨?_, ?_, ?_⟩⟩, ⟨⟨?_, ?_, ?_⟩, ⟨?_, ?_, ?_⟩⟩⟩ <;> omega

theorem resolu_not_encours_state (etat : JSString) (h : (etat == "résolu".toList) = true) :
    encoursStates.contains etat = false := by
  rw [eq_of_beq h]
  decide

theorem coproStep_eq_add (s : CoproStats) (r : Row) :
    coproStep s r = s.add (coproReferenceNormalized [r]) := by
  have hc := resolu_not_encours_state (coproEtat r)
  unfold coproStep coproReferenceNormalized
  simp only [countSummary, countBlock, CoproStats.add, CoproCount.add, List.countP_cons,
    List.countP_nil, Nat.zero_add, bne, bumpColumn, bumpCount]
  generalize (coproDomaine r == "sd".toList) = a
  generalize coproCatType r = ct
  generalize (coproEtat r == "résolu".toList) = e2 at hc ⊢
  generalize encoursStates.contains (coproEtat r) = e1 at hc ⊢
  generalize (coproAffecte r == "yann.deschamps".toList) = e3
  generalize (coproPriority r == "P1".toList) = q1
  generalize (coproPriority r == "P3".toList) = q3
  rcases ct with _ | ct
  · cases a <;> simp
  · cases ct <;> cases a <;> cases e2 <;> cases e1 <;> cases e3 <;> cases q1 <;> cases q3 <;>
      simp at hc ⊢

theorem foldl_coproStep (rows : List Row) (s : CoproStats) :
    rows.foldl coproStep s = s.add (coproReferenceNormalized rows) := by
  induction rows generalizing s with
  | nil =>
    simp only [List.foldl_nil, coproReferenceNormalized, countSummary_nil, CoproStats.add_zero]
  | cons r rest ih =>
    rw [List.foldl_cons, ih, coproStep_eq_add, CoproStats.add_assoc]
    unfold coproReferenceNormalized
    rw [← countSummary_cons]

theorem Row.get_set_same (r : Row) (key v : JSString) : (r.set key v).get key = some v := by
  induction r with
  | nil => simp [Row.set, Row.get]
  | cons kv rest ih =>
    unfold Row.set
    by_cases h : (kv.1 == key) = true
    · simp [h, Row.get]
    · simp only [h, if_false]
      simp only [Row.get, List.find?, h] at ih ⊢
      exact ih

theorem Row.get_set_other (r : Row) (key other v : JSString) (h : other ≠ key) :
    (r.set key v).get other = r.get other := by
  induction r with
  | nil =>
    have hne : (key == other) = false := by
      simp only [beq_eq_false_iff_ne, ne_eq]
      exact fun e => h e.symm
    simp [Row.set, Row.get, List.find?, hne]
  | cons kv rest ih =>
    unfold Row.set
    by_cases hk : (kv.1 == key) = true
    · have hkv : kv.1 = key := eq_of_beq hk
      have hne : (kv.1 == other) = false := by
        simp only [beq_eq_false_iff_ne, ne_eq, hkv]
        exact fun e => h e.symm
      have hne2 : (key == other) = false := by
        simp only [beq_eq_false_iff_ne, ne_eq]
        exact fun e => h e.symm
      simp [hk, Row.get, List.find?, hne, hne2]
    · simp only [hk, if_false]
      by_cases ho : (kv.1 == other) = true
      · simp [Row.get, List.find?, ho]
      · simp only [Row.get, List.find?, ho] at ih ⊢
        exact ih

theorem stripLeadingZeros_spec (s : JSString) :
    (∃ k, s = List.replicate k '0' ++ stripLeadingZeros s) ∧
    (stripLeadingZeros s).head? ≠ some '0' := by
  induction s with
  | nil => exact ⟨⟨0, rfl⟩, by simp [stripLeadingZeros]⟩
  | cons c rest ih =>
    by_cases hc : c = '0'
    · subst hc
      obtain ⟨⟨k, hk⟩, h2⟩ := ih
      have hstrip : stripLeadingZeros ('0' :: rest) = stripLeadingZeros rest := by
        simp [stripLeadingZeros, List.dropWhile]
      rw [hstrip]
      refine ⟨⟨k + 1, ?_⟩, h2⟩
      rw [List.replicate_succ, List.cons_append, ← hk]
    · have hb : (c == '0') = false := by simp [hc]
      have hstrip : stripLeadingZeros (c :: rest) = c :: rest := by
        simp [stripLeadingZeros, List.dropWhile, hb]
      rw [hstrip]
      exact ⟨⟨0, rfl⟩, by simp [hc]⟩

theorem rowIdentifier_eq_none (row : Row) :
    rowIdentifier row = none ↔
      truthy (row.get "Identifiant".toList) = false ∧ truthy (row.get "id".toList) = false := by
  unfold rowIdentifier
  cases h1 : truthy (row.get "Identifiant".toList) with
  | true =>
    simp only [if_true, Bool.true_eq_false, false_and, iff_false]
    intro h
    rw [h] at h1
    exact absurd h1 (by simp [truthy])
  | false =>
    cases h2 : truthy (row.get "id".toList) with
    | true =>
      simp only [Bool.false_eq_true, if_false, if_true, Bool.true_eq_false, and_false,
        iff_false]
      intro h
      rw [h] at h2
      exact absurd h2 (by simp [truthy])
    | false => simp

theorem Advanced.trans {a b c : RefreshJob} {m n : Nat} (h1 : Advanced a b m)
    (h2 : Advanced b c n) : Advanced a c (m + n) := by
  unfold Advanced at h1 h2 ⊢
  refine ⟨by omega, by omega, ?_, ?_, ?_, ?_⟩
  · rw [h2.2.2.1, h1.2.2.1]
  · rw [h2.2.2.2.1, h1.2.2.2.1]
  · rw [h2.2.2.2.2.1, h1.2.2.2.2.1]
  · rw [h2.2.2.2.2.2, h1.2.2.2.2.2]

theorem Advanced.refl (a : RefreshJob) : Advanced a a 0 := by
  simp [Advanced]

theorem lastState_processChunkStates (fetch : Nat → JSString → Except JSString JSString)
    (clock : Nat → JSString) (idx : Nat) (chunk : List Row) (job : RefreshJob) :
    lastState job (processChunkStates fetch clock idx chunk job) =
      (processChunk fetch clock idx chunk job).2 := by
  induction chunk generalizing idx job with
  | nil => rfl
  | cons row rest ih =>
    simp only [processChunkStates, processChunk, lastState]
    exact ih (idx + 1) _

theorem processChunkStates_length (fetch : Nat → JSString → Except JSString JSString)
    (clock : Nat → JSString) (idx : Nat) (chunk : List Row) (job : RefreshJob) :
    (processChunkStates fetch clock idx chunk job).length = chunk.length := by
  induction chunk generalizing idx job with
  | nil => rfl
  | cons row rest ih =>
    simp only [processChunkStates, List.length_cons]
    rw [ih (idx + 1) _]

theorem processChunkStates_advanced (fetch : Nat → JSString → Except JSString JSString)
    (clock : Nat → JSString) (idx : Nat) (chunk : List Row) (job : RefreshJob) (j : Nat)
    (st : RefreshJob) (h : (processChunkStates fetch clock idx chunk job)[j]? = some st) :
    Advanced job st (j + 1) := by
  induction chunk generalizing idx job j with
  | nil => simp [processChunkStates] at h
  | cons row rest ih =>
    simp only [processChunkStates] at h
    cases j with
    | zero =>
      simp only [List.getElem?_cons_zero, Option.some.injEq] at h
      rw [← h]
      exact processRow_advanced fetch clock idx row job
    | succ j =>
      simp only [List.getElem?_cons_succ] at h
      have h1 := processRow_advanced fetch clock idx row job
      have h2 := ih (idx + 1) _ j h
      have h3 := Advanced.trans h1 h2
      have he : 1 + (j + 1) = j + 1 + 1 := by omega
      rw [he] at h3
      exact h3

theorem enrichLoop_succ (fetch : Nat → JSString → Except JSString JSString)
    (clock : Nat → JSString) (concurrency : Option Int) (fuel : Nat) (i : Int)
    (rows : List Row) (job : RefreshJob) (hlt : i < (rows.length : Int)) :
    enrichLoop fetch clock concurrency (fuel + 1) i rows job =
      match concurrency with
      | some c =>
        enrichLoop fetch clock concurrency fuel (i + c)
          (loopIteration fetch clock concurrency i rows job).2.1
          (loopIteration fetch clock concurrency i rows job).2.2
      | none => some (loopIteration fetch clock concurrency i rows job).2 := by
  conv_lhs => rw [enrichLoop.eq_def]
  simp only [hlt, if_true]
  cases concurrency with
  | none => rfl
  | some c => rfl

theorem enrichLoopTrace_succ (fetch : Nat → JSString → Except JSString JSString)
    (clock : Nat → JSString) (concurrency : Option Int) (fuel : Nat) (i : Int)
    (rows : List Row) (job : RefreshJob) (hlt : i < (rows.length : Int)) :
    enrichLoopTrace fetch clock concurrency (fuel + 1) i rows job =
      match concurrency with
      | some c =>
        match enrichLoopTrace fetch clock concurrency fuel (i + c)
          (loopIteration fetch clock concurrency i rows job).2.1
          (loopIteration fetch clock concurrency i rows job).2.2 with
        | some (trace, out) =>
          some ((loopIteration fetch clock concurrency i rows job).1 :: trace, out)
        | none => none
      | none => some ([(loopIteration fetch clock concurrency i rows job).1],
          (loopIteration fetch clock concurrency i rows job).2) := by
  conv_lhs => rw [enrichLoopTrace.eq_def]
  simp only [hlt, if_true]

theorem enrichLoopTrace_done (fetch : Nat → JSString → Except JSString JSString)
    (clock : Nat → JSString) (concurrency : Option Int) (fuel : Nat) (i : Int)
    (rows : List Row) (job : RefreshJob) (hlt : ¬ i < (rows.length : Int)) :
    enrichLoopTrace fetch clock concurrency fuel i rows job = some ([], (rows, job)) := by
  rw [enrichLoopTrace.eq_def]
  simp only [hlt, if_false]

theorem enrichLoopTrace_zero (fetch : Nat → JSString → Except JSString JSString)
    (clock : Nat → JSString) (concurrency : Option Int) (i : Int)
    (rows : List Row) (job : RefreshJob) (hlt : i < (rows.length : Int)) :
    enrichLoopTrace fetch clock concurrency 0 i rows job = none := by
  rw [enrichLoopTrace.eq_def]
  simp only [hlt, if_true]

/-- The recorded loop ends with the rows and the job state of `enrichLoop`. -/
theorem enrichLoopTrace_snd (fetch : Nat → JSString → Except JSString JSString)
    (clock : Nat → JSString) (concurrency : Option Int) (fuel : Nat) (i : Int)
    (rows : List Row) (job : RefreshJob) :
    (enrichLoopTrace fetch clock concurrency fuel i rows job).map Prod.snd =
      enrichLoop fetch clock concurrency fuel i rows job := by
  induction fuel generalizing i rows job with
  | zero =>
    unfold enrichLoopTrace enrichLoop
    by_cases hlt : i < (rows.length : Int)
    · simp [hlt]
    · simp [hlt]
  | succ fuel ih =>
    by_cases hlt : i < (rows.length : Int)
    · rw [enrichLoopTrace_succ _ _ _ _ _ _ _ hlt, enrichLoop_succ _ _ _ _ _ _ _ hlt]
      cases concurrency with
      | none => rfl
      | some c =>
        simp only []
        rw [← ih]
        cases enrichLoopTrace fetch clock (some c) fuel (i + c)
          (loopIteration fetch clock (some c) i rows job).2.1
          (loopIteration fetch clock (some c) i rows job).2.2 with
        | none => rfl
        | some r => rfl
    · rw [enrichLoopTrace_done _ _ _ _ _ _ _ hlt]
      unfold enrichLoop
      simp [hlt]

/-- More iterations allowed do not change the result of a loop that has ended. -/
theorem enrichLoopTrace_fuel (fetch : Nat → JSString → Except JSString JSString)
    (clock : Nat → JSString) (concurrency : Option Int) (fuel : Nat) (i : Int)
    (rows : List Row) (job : RefreshJob) (r : List ChunkRun × (List Row × RefreshJob))
    (h : enrichLoopTrace fetch clock concurrency fuel i rows job = some r) (more : Nat) :
    enrichLoopTrace fetch clock concurrency (fuel + more) i rows job = some r := by
  induction fuel generalizing i rows job r with
  | zero =>
    by_cases hlt : i < (rows.length : Int)
    · rw [enrichLoopTrace_zero _ _ _ _ _ _ hlt] at h
      exact absurd h (by simp)
    · rw [enrichLoopTrace_done _ _ _ _ _ _ _ hlt] at h ⊢
      exact h
  | succ fuel ih =>
    have he : fuel + 1 + more = (fuel + more) + 1 := by omega
    rw [he]
    by_cases hlt : i < (rows.length : Int)
    · rw [enrichLoopTrace_succ _ _ _ _ _ _ _ hlt] at h ⊢
      cases concurrency with
      | none => exact h
      | some c =>
        simp only [] at h ⊢
        cases hrec : enrichLoopTrace fetch clock (some c) fuel (i + c)
          (loopIteration fetch clock (some c) i rows job).2.1
          (loopIteration fetch clock (some c) i rows job).2.2 with
        | none =>
          rw [hrec] at h
          exact absurd h (by simp)
        | some r2 =>
          rw [ih _ _ _ r2 hrec]
          rw [hrec] at h
          exact h
    · rw [enrichLoopTrace_done _ _ _ _ _ _ _ hlt] at h ⊢
      exact h

theorem relativeIndex_le (len : Nat) (k : Int) : relativeIndex len k ≤ len := by
  unfold relativeIndex
  split <;> omega

/-- An iteration leaves as many rows as it found, whatever the concurrency. -/
theorem loopIteration_length (fetch : Nat → JSString → Except JSString JSString)
    (clock : Nat → JSString) (concurrency : Option Int) (i : Int) (rows : List Row)
    (job : RefreshJob) :
    (loopIteration fetch clock concurrency i rows job).2.1.length = rows.length := by
  unfold loopIteration
  simp only []
  have hlo := relativeIndex_le rows.length i
  generalize relativeIndex rows.length i = lo at hlo
  generalize relativeIndex rows.length _ = hi
  have h1 := (processChunk_advanced fetch clock lo ((rows.drop lo).take (hi - lo)) job).1
  simp only [List.length_append, List.length_take, List.length_drop, h1]
  omega

theorem loopIteration_positive (fetch : Nat → JSString → Except JSString JSString)
    (clock : Nat → JSString) (c : Int) (hc : 0 < c) (i : Int) (hi : 0 ≤ i)
    (rows : List Row) (job : RefreshJob) (hlt : i < (rows.length : Int)) :
    (loopIteration fetch clock (some c) i rows job).1.start = i ∧
    (loopIteration fetch clock (some c) i rows job).1.rows =
      (rows.drop i.toNat).take c.toNat ∧
    (loopIteration fetch clock (some c) i rows job).1.before = job ∧
    (loopIteration fetch clock (some c) i rows job).1.states.length =
      (loopIteration fetch clock (some c) i rows job).1.rows.length ∧
    (∀ j st, (loopIteration fetch clock (some c) i rows job).1.states[j]? = some st →
      Advanced job st (j + 1)) ∧
    (loopIteration fetch clock (some c) i rows job).1.after =
      (loopIteration fetch clock (some c) i rows job).2.2 ∧
    (∀ m, i.toNat + c.toNat ≤ m →
      (loopIteration fetch clock (some c) i rows job).2.1.drop m = rows.drop m) := by
  have hlo : relativeIndex rows.length i = i.toNat := by
    unfold relativeIndex
    rw [if_neg (by omega)]
    omega
  have hhi : relativeIndex rows.length (i + c) = min (i + c).toNat rows.length := by
    unfold relativeIndex
    rw [if_neg (by omega)]
  have htake : (rows.drop i.toNat).take (min (i + c).toNat rows.length - i.toNat) =
      (rows.drop i.toNat).take c.toNat := by
    rw [List.take_eq_take]
    rw [List.length_drop]
    omega
  unfold loopIteration ChunkRun.after
  simp only [hlo, hhi, htake]
  refine ⟨trivial, trivial, trivial, processChunkStates_length _ _ _ _ _,
    fun j st h => processChunkStates_advanced _ _ _ _ _ j st h,
    lastState_processChunkStates _ _ _ _ _, ?_⟩
  intro m hm
  have h1 := (processChunk_advanced fetch clock i.toNat
    ((rows.drop i.toNat).take c.toNat) job).1
  have hlen : (rows.take i.toNat ++ (processChunk fetch clock i.toNat
      ((rows.drop i.toNat).take c.toNat) job).1).length =
      i.toNat + ((rows.drop i.toNat).take c.toNat).length := by
    rw [List.length_append, List.length_take, h1]
    omega
  have hchunk : ((rows.drop i.toNat).take c.toNat).length ≤ c.toNat := by
    rw [List.length_take]
    omega
  have hle : (rows.take i.toNat ++ (processChunk fetch clock i.toNat
      ((rows.drop i.toNat).take c.toNat) job).1).length ≤ m := by
    rw [hlen]
    omega
  rw [List.drop_append_eq_append_drop, List.drop_eq_nil_of_le hle, List.nil_append,
    List.drop_drop, hlen]
  congr 1
  omega

theorem lastState_getElem? (job : RefreshJob) (states : List RefreshJob) (n : Nat)
    (h : states.length = n + 1) : states[n]? = some (lastState job states) := by
  induction states generalizing job n with
  | nil => simp at h
  | cons st more ih =>
    cases more with
    | nil =>
      simp only [List.length_cons, List.length_nil] at h
      have hn : n = 0 := by omega
      subst hn
      rfl
    | cons st2 more2 =>
      simp only [List.length_cons] at h
      cases n with
      | zero => omega
      | succ n =>
        simp only [List.getElem?_cons_succ, lastState]
        have h2 := ih st n (by simp only [List.length_cons]; omega)
        simp only [lastState] at h2
        exact h2

/-- With a positive concurrency the recorded loop ends within as many iterations as rows
are left, and its iterations take the rows left in consecutive chunks. -/
theorem enrichLoopTrace_positive (fetch : Nat → JSString → Except JSString JSString)
    (clock : Nat → JSString) (c : Int) (hc : 0 < c) (fuel : Nat) (i : Int) (hi : 0 ≤ i)
    (rows : List Row) (job : RefreshJob) (hfuel : rows.length - i.toNat ≤ fuel) :
    ∃ trace out, enrichLoopTrace fetch clock (some c) fuel i rows job = some (trace, out) ∧
      ChunkedFrom c.toNat i.toNat job (rows.drop i.toNat) trace := by
  induction fuel generalizing i rows job with
  | zero =>
    have hnot : ¬ (i < (rows.length : Int)) := by omega
    rw [enrichLoopTrace_done _ _ _ _ _ _ _ hnot]
    refine ⟨[], (rows, job), rfl, ?_⟩
    unfold ChunkedFrom
    exact List.drop_eq_nil_of_le (by omega)
  | succ fuel ih =>
    by_cases hlt : i < (rows.length : Int)
    · rw [enrichLoopTrace_succ _ _ _ _ _ _ _ hlt]
      simp only []
      obtain ⟨p1, p2, p3, p4, p5, p6, p7⟩ :=
        loopIteration_positive fetch clock c hc i hi rows job hlt
      have hlen := loopIteration_length fetch clock (some c) i rows job
      obtain ⟨trace, out, h1, h2⟩ := ih (i + c) (by omega)
        (loopIteration fetch clock (some c) i rows job).2.1
        (loopIteration fetch clock (some c) i rows job).2.2 (by rw [hlen]; omega)
      rw [h1]
      refine ⟨_, out, rfl, ?_⟩
      have hsum : (i + c).toNat = i.toNat + c.toNat := by omega
      rw [hsum, p7 _ (Nat.le_refl _), ← p6, ← List.drop_drop] at h2
      unfold ChunkedFrom
      refine ⟨?_, ?_, p2, p3, p4, p5, h2⟩
      · intro hnil
        have h0 := congrArg List.length hnil
        rw [List.length_drop, List.length_nil] at h0
        omega
      · rw [p1]
        omega
    · rw [enrichLoopTrace_done _ _ _ _ _ _ _ hlt]
      refine ⟨[], (rows, job), rfl, ?_⟩
      unfold ChunkedFrom
      exact List.drop_eq_nil_of_le (by omega)

theorem ChunkedFrom_flatten (c i : Nat) (job : RefreshJob) (left : List Row)
    (trace : List ChunkRun) (h : ChunkedFrom c i job left trace) :
    (trace.map ChunkRun.rows).flatten = left := by
  induction trace generalizing i job left with
  | nil =>
    unfold ChunkedFrom at h
    rw [h]
    rfl
  | cons run more ih =>
    unfold ChunkedFrom at h
    obtain ⟨_, _, h3, _, _, _, h7⟩ := h
    simp only [List.map_cons, List.flatten_cons]
    rw [ih _ _ _ h7, h3, List.take_append_drop]

theorem ChunkedFrom_head_size (c i : Nat) (hc : 0 < c) (job : RefreshJob) (left : List Row)
    (run : ChunkRun) (more : List ChunkRun) (h : ChunkedFrom c i job left (run :: more)) :
    1 ≤ run.rows.length ∧ run.rows.length ≤ c ∧ run.rows.length ≤ left.length ∧
    (more ≠ [] → run.rows.length = c) ∧ Advanced job run.after run.rows.length ∧
    (left.drop c).length + run.rows.length = left.length := by
  unfold ChunkedFrom at h
  obtain ⟨h1, _, h3, h4, h5, h6, h7⟩ := h
  have hpos : 0 < left.length := List.length_pos.2 h1
  have hlen : run.rows.length = min c left.length := by rw [h3, List.length_take]
  refine ⟨by omega, by omega, by omega, ?_, ?_, ?_⟩
  · intro hmore
    cases more with
    | nil => exact absurd rfl hmore
    | cons r2 m2 =>
      unfold ChunkedFrom at h7
      have hpos2 : 0 < (left.drop c).length := List.length_pos.2 h7.1
      rw [List.length_drop] at hpos2
      omega
  · obtain ⟨n, hn⟩ : ∃ n, run.states.length = n + 1 := ⟨run.rows.length - 1, by omega⟩
    have hlast := lastState_getElem? run.before run.states n hn
    have hadv := h6 n _ hlast
    unfold ChunkRun.after
    have hn2 : run.rows.length = n + 1 := by omega
    rw [hn2]
    exact hadv
  · rw [List.length_drop]
    omega

theorem ChunkedFrom_sizes (c i : Nat) (hc : 0 < c) (job : RefreshJob) (left : List Row)
    (trace : List ChunkRun) (h : ChunkedFrom c i job left trace) :
    ∀ run ∈ trace, 1 ≤ run.rows.length ∧ run.rows.length ≤ c ∧
      run.states.length = run.rows.length := by
  induction trace generalizing i job left with
  | nil => intro run hrun; simp at hrun
  | cons run0 more ih =>
    intro run hrun
    have hs := ChunkedFrom_head_size c i hc job left run0 more h
    unfold ChunkedFrom at h
    rcases List.mem_cons.1 hrun with he | hmem
    · rw [he]
      exact ⟨hs.1, hs.2.1, h.2.2.2.2.1⟩
    · exact ih _ _ _ h.2.2.2.2.2.2 run hmem

theorem ChunkedFrom_index (c i : Nat) (hc : 0 < c) (job : RefreshJob) (left : List Row)
    (runs : List ChunkRun) (h : ChunkedFrom c i job left runs) (k : Nat) (run : ChunkRun)
    (hk : runs[k]? = some run) :
    run.start = ((i + k * c : Nat) : Int) ∧ run.rows = (left.drop (k * c)).take c ∧
    Advanced job run.before (k * c) ∧ (k + 1 < runs.length → run.rows.length = c) ∧
    (∀ next, runs[k + 1]? = some next → next.before = run.after) := by
  induction runs generalizing i job left k with
  | nil => simp at hk
  | cons run0 more ih =>
    have hs := ChunkedFrom_head_size c i hc job left run0 more h
    have h0 := h
    unfold ChunkedFrom at h
    obtain ⟨h1, h2, h3, h4, h5, h6, h7⟩ := h
    cases k with
    | zero =>
      simp only [List.getElem?_cons_zero, Option.some.injEq] at hk
      rw [← hk]
      refine ⟨by rw [h2]; simp, by simp [h3], by rw [h4]; simp [Advanced], ?_, ?_⟩
      · intro hlen
        apply hs.2.2.2.1
        intro hnil
        rw [hnil] at hlen
        simp at hlen
      · intro next hnext
        simp only [List.getElem?_cons_succ] at hnext
        cases more with
        | nil => simp at hnext
        | cons r2 m2 =>
          simp only [List.getElem?_cons_zero, Option.some.injEq] at hnext
          unfold ChunkedFrom at h7
          rw [← hnext]
          exact h7.2.2.2.1
    | succ k =>
      simp only [List.getElem?_cons_succ] at hk
      obtain ⟨q1, q2, q3, q4, q5⟩ := ih _ _ _ h7 k hk
      have hmore : more ≠ [] := by
        intro hnil
        rw [hnil] at hk
        simp at hk
      have hfull := hs.2.2.2.1 hmore
      have hmul : (k + 1) * c = c + k * c := by rw [Nat.succ_mul]; omega
      refine ⟨?_, ?_, ?_, ?_, ?_⟩
      · rw [q1, hmul]
        congr 1
        omega
      · rw [q2, List.drop_drop, hmul]
      · have hadv := hs.2.2.2.2.1
        rw [hfull] at hadv
        rw [hmul]
        exact Advanced.trans hadv q3
      · intro hlen
        apply q4
        simp only [List.length_cons] at hlen
        omega
      · intro next hnext
        simp only [List.getElem?_cons_succ] at hnext
        exact q5 next hnext

theorem ChunkedFrom_length (c i : Nat) (hc : 0 < c) (job : RefreshJob) (left : List Row)
    (trace : List ChunkRun) (h : ChunkedFrom c i job left trace) :
    trace.length = (left.length + c - 1) / c := by
  induction trace generalizing i job left with
  | nil =>
    unfold ChunkedFrom at h
    rw [h]
    simp only [List.length_nil, Nat.zero_add]
    rw [Nat.div_eq_of_lt (by omega)]
  | cons run0 more ih =>
    have hs := ChunkedFrom_head_size c i hc job left run0 more h
    unfold ChunkedFrom at h
    obtain ⟨h1, h2, h3, h4, h5, h6, h7⟩ := h
    have hrec := ih _ _ _ h7
    have hlen : run0.rows.length = min c left.length := by rw [h3, List.length_take]
    simp only [List.length_cons]
    rw [hrec, List.length_drop]
    by_cases hle : left.length ≤ c
    · have e1 : left.length - c + c - 1 = c - 1 := by omega
      rw [e1, Nat.div_eq_of_lt (by omega)]
      have e2 : left.length + c - 1 = (left.length - 1) + c := by omega
      rw [e2, Nat.add_div_right _ hc, Nat.div_eq_of_lt (by omega)]
    · have e2 : left.length + c - 1 = (left.length - c + c - 1) + c := by omega
      rw [e2, Nat.add_div_right _ hc]

theorem ChunkedFrom_states (c i : Nat) (hc : 0 < c) (job : RefreshJob) (left : List Row)
    (trace : List ChunkRun) (h : ChunkedFrom c i job left trace) :
    ∀ st ∈ (trace.map ChunkRun.states).flatten,
      ∃ n, 1 ≤ n ∧ n ≤ left.length ∧ Advanced job st n := by
  induction trace generalizing i job left with
  | nil => intro st hst; simp at hst
  | cons run0 more ih =>
    intro st hst
    have hs := ChunkedFrom_head_size c i hc job left run0 more h
    unfold ChunkedFrom at h
    obtain ⟨h1, h2, h3, h4, h5, h6, h7⟩ := h
    simp only [List.map_cons, List.flatten_cons, List.mem_append] at hst
    rcases hst with hst | hst
    · obtain ⟨j, hj, hget⟩ := List.getElem_of_mem hst
      have hget2 : run0.states[j]? = some st := by
        rw [List.getElem?_eq_getElem hj, hget]
      exact ⟨j + 1, by omega, by omega, h6 j st hget2⟩
    · obtain ⟨n, hn1, hn2, hn3⟩ := ih _ _ _ h7 st hst
      refine ⟨run0.rows.length + n, by omega, by omega, ?_⟩
      exact Advanced.trans hs.2.2.2.2.1 hn3

theorem enrichLoop_zero (fetch : Nat → JSString → Except JSString JSString)
    (clock : Nat → JSString) (concurrency : Option Int) (i : Int)
    (rows : List Row) (job : RefreshJob) (hlt : i < (rows.length : Int)) :
    enrichLoop fetch clock concurrency 0 i rows job = none := by
  rw [enrichLoop.eq_def]
  simp only [hlt, if_true]

/-- With a concurrency of zero or less the loop never ends on a non-empty row list: the
index never grows. -/
theorem enrichLoop_nonpositive (fetch : Nat → JSString → Except JSString JSString)
    (clock : Nat → JSString) (c : Int) (hc : c ≤ 0) (fuel : Nat) (i : Int) (hi : i ≤ 0)
    (rows : List Row) (job : RefreshJob) (hrows : 0 < rows.length) :
    enrichLoop fetch clock (some c) fuel i rows job = none := by
  induction fuel generalizing i rows job with
  | zero => exact enrichLoop_zero _ _ _ _ _ _ (by omega)
  | succ fuel ih =>
    rw [enrichLoop_succ _ _ _ _ _ _ _ (by omega)]
    simp only []
    exact ih (i + c) (by omega) _ _ (by rw [loopIteration_length]; exact hrows)

/-- With the concurrency `NaN` the loop runs one iteration on a non-empty row list: the
chunk is empty, no row completes, and the loop is over. -/
theorem enrichLoopTrace_nan (fetch : Nat → JSString → Except JSString JSString)
    (clock : Nat → JSString) (fuel : Nat) (rows : List Row) (job : RefreshJob)
    (hrows : rows ≠ []) :
    enrichLoopTrace fetch clock none (fuel + 1) 0 rows job =
      some ([{ start := 0, rows := [], before := job, states := [] }], (rows, job)) := by
  have hlt : (0 : Int) < (rows.length : Int) := by
    have := List.length_pos.2 hrows
    omega
  rw [enrichLoopTrace_succ _ _ _ _ _ _ _ hlt]
  simp [loopIteration, relativeIndex, processChunk, processChunkStates]

/-- A recorded loop with positive concurrency that has ended has taken the rows in
consecutive chunks and has completed every row once. -/
theorem enrichLoopTrace_chunked (fetch : Nat → JSString → Except JSString JSString)
    (clock : Nat → JSString) (c : Int) (hc : 0 < c) (fuel : Nat) (rows : List Row)
    (job : RefreshJob) (runs : List ChunkRun) (out : List Row × RefreshJob)
    (h : enrichLoopTrace fetch clock (some c) fuel 0 rows job = some (runs, out)) :
    ChunkedFrom c.toNat 0 job rows runs ∧
    enrichLoop fetch clock (some c) fuel 0 rows job = some out ∧
    out.1.length = rows.length ∧ Advanced job out.2 rows.length := by
  have hbig := enrichLoopTrace_fuel _ _ _ _ _ _ _ _ h rows.length
  obtain ⟨runs2, out2, h1, h2⟩ := enrichLoopTrace_positive fetch clock c hc
    (fuel + rows.length) 0 (le_refl 0) rows job (by simp)
  rw [hbig] at h1
  simp only [Option.some.injEq, Prod.mk.injEq] at h1
  rw [← h1.1] at h2
  simp only [Int.toNat_zero, List.drop_zero] at h2
  have hloop : enrichLoop fetch clock (some c) fuel 0 rows job = some out := by
    rw [← enrichLoopTrace_snd, h]
    rfl
  have hloop2 : enrichLoop fetch clock (some c) (fuel + rows.length) 0 rows job =
      some out := by
    rw [← enrichLoopTrace_snd, hbig]
    rfl
  obtain ⟨rows3, job3, h3, h4, h5⟩ := enrichLoop_positive fetch clock c hc
    (fuel + rows.length) 0 (le_refl 0) rows job (by simp)
  rw [hloop2] at h3
  simp only [Option.some.injEq] at h3
  subst h3
  simp only [Int.toNat_zero, Nat.sub_zero] at h5
  exact ⟨h2, hloop, h4, h5⟩

theorem JobInvariant_of (job : RefreshJob) (h1 : job.success + job.failed = job.current)
    (h2 : job.current ≤ job.total) (h3 : job.isRunning = true → job.error = none) :
    JobInvariant job := by
  unfold JobInvariant statusProgress
  refine ⟨h1, h2, ?_, ?_, fun h => h.2 (h3 h.1)⟩
  · split
    · positivity
    · exact le_refl 0
  · split
    · rename_i hpos
      have hq : (0 : ℚ) < (job.total : ℚ) := by exact_mod_cast hpos
      have hle : (job.current : ℚ) ≤ (job.total : ℚ) := by exact_mod_cast h2
      have hdiv : (job.current : ℚ) / (job.total : ℚ) ≤ 1 := (div_le_one hq).2 hle
      linarith
    · norm_num

theorem JobInvariant_advanced (base st : RefreshJob) (n : Nat)
    (hb : base.success + base.failed = base.current) (hn : base.current + n ≤ base.total)
    (hr : base.error = none) (hadv : Advanced base st n) : JobInvariant st := by
  unfold Advanced at hadv
  apply JobInvariant_of
  · omega
  · omega
  · intro _
    rw [hadv.2.2.2.2.1, hr]

theorem JobInvariant_endJob (job : RefreshJob) (outcome : Except JSString Unit)
    (h1 : job.success + job.failed = job.current) (h2 : job.current ≤ job.total) :
    JobInvariant (endJob job outcome) := by
  cases outcome with
  | ok u => exact JobInvariant_of _ h1 h2 (fun h => by simp [endJob] at h)
  | error m => exact JobInvariant_of _ h1 h2 (fun h => by simp [endJob] at h)

theorem ChunkedFrom_run_states (c i : Nat) (hc : 0 < c) (job : RefreshJob) (left : List Row)
    (runs : List ChunkRun) (h : ChunkedFrom c i job left runs) :
    ∀ run ∈ runs, (∀ j st, run.states[j]? = some st → Advanced run.before st (j + 1)) ∧
      Advanced run.before run.after run.rows.length := by
  induction runs generalizing i job left with
  | nil => intro run hrun; simp at hrun
  | cons run0 more ih =>
    intro run hrun
    have hs := ChunkedFrom_head_size c i hc job left run0 more h
    unfold ChunkedFrom at h
    obtain ⟨h1, h2, h3, h4, h5, h6, h7⟩ := h
    rcases List.mem_cons.1 hrun with he | hmem
    · rw [he, h4]
      exact ⟨h6, hs.2.2.2.2.1⟩
    · exact ih _ _ _ h7 run hmem

theorem matchPrefixToken_token (s tok : JSString) (h : matchPrefixToken s = some tok) :
    ∃ d, TokenText tok d := by
  obtain ⟨d, _, _, h2, h3⟩ := (matchPrefixToken_eq_some _ _).1 h
  exact ⟨d, h3, (isDigit19_iff d).1 h2⟩

theorem strategy1_token (doc : Document) (tok : JSString) (h : strategy1 doc = some tok) :
    ∃ d, TokenText tok d := by
  obtain ⟨row, _, hrow⟩ := List.exists_of_findSome?_eq_some h
  unfold rowToken at hrow
  split at hrow
  · split at hrow
    · exact matchPrefixToken_token _ _ hrow
    · exact absurd hrow (by simp)
  · exact absurd hrow (by simp)

theorem strategy2_token (doc : Document) (tok : JSString) (h : strategy2 doc = some tok) :
    ∃ d, TokenText tok d := by
  obtain ⟨e, _, he⟩ := List.exists_of_findSome?_eq_some h
  unfold labelToken at he
  split at he
  · exact matchPrefixToken_token _ _ he
  · exact absurd he (by simp)

theorem strategy3_token (doc : Document) (tok : JSString) (h : strategy3 doc = some tok) :
    ∃ d, TokenText tok d := by
  obtain ⟨el, _, hel⟩ := List.exists_of_findSome?_eq_some h
  obtain ⟨d, h1, h2⟩ := (matchExactToken_eq_some _ _).1 hel
  exact ⟨d, h2, h1.2⟩

theorem strategy4_token (doc : Document) (tok : JSString) (h : strategy4 doc = some tok) :
    ∃ d, TokenText tok d := by
  obtain ⟨d, h1, h2⟩ := scanGlobalToken_shape false _ tok h
  obtain ⟨_, _, _, h3, h4, _⟩ := h2
  exact ⟨d, h1, h3, h4⟩

/-- What the cascade gives is an empty value with the reason `not_found`, or a token with
another reason. -/
theorem extractPriority_valid (doc : Document) (stamp : Int) :
    ValidEntry { value := (extractPriority doc).1, timestamp := stamp,
                 reason := (extractPriority doc).2 } := by
  have hne : ∀ (v : JSString), (∃ d, TokenText v d) → v ≠ [] := by
    rintro v ⟨d, h, _⟩ hnil
    rw [h] at hnil
    exact absurd hnil (by simp)
  unfold ValidEntry extractPriority
  cases h1 : strategy1 doc with
  | some p =>
    have ht := strategy1_token doc p h1
    exact ⟨Or.inr ht, by simp [hne p ht]⟩
  | none =>
    cases h2 : strategy2 doc with
    | some p =>
      have ht := strategy2_token doc p h2
      exact ⟨Or.inr ht, by simp [hne p ht]⟩
    | none =>
      cases h3 : strategy3 doc with
      | some p =>
        have ht := strategy3_token doc p h3
        exact ⟨Or.inr ht, by simp [hne p ht]⟩
      | none =>
        cases h4 : strategy4 doc with
        | some p =>
          have ht := strategy4_token doc p h4
          exact ⟨Or.inr ht, by simp [hne p ht]⟩
        | none => exact ⟨Or.inl rfl, by simp⟩

theorem PriorityCache.set_valid (c : PriorityCache) (id : JSString) (e : CacheEntry)
    (hc : ∀ kv ∈ c, ValidEntry kv.2) (he : ValidEntry e) :
    ∀ kv ∈ PriorityCache.set c id e, ValidEntry kv.2 := by
  induction c with
  | nil =>
    intro kv hkv
    simp only [PriorityCache.set, List.mem_singleton] at hkv
    rw [hkv]
    exact he
  | cons a rest ih =>
    intro kv hkv
    unfold PriorityCache.set at hkv
    split at hkv
    · rcases List.mem_cons.1 hkv with h | h
      · rw [h]
        exact he
      · exact hc kv (List.mem_cons_of_mem _ h)
    · rcases List.mem_cons.1 hkv with h | h
      · rw [h]
        exact hc a (List.mem_cons_self _ _)
      · exact ih (fun kv2 hkv2 => hc kv2 (List.mem_cons_of_mem _ hkv2)) kv h

theorem PriorityCache.get_mem (c : PriorityCache) (id : JSString) (e : CacheEntry)
    (h : c.get id = some e) : ∃ kv ∈ c, kv.2 = e := by
  unfold PriorityCache.get at h
  cases hf : c.find? (fun kv => kv.1 == id) with
  | none => rw [hf] at h; exact absurd h (by simp)
  | some kv =>
    rw [hf] at h
    simp only [Option.map_some', Option.some.injEq] at h
    exact ⟨kv, List.mem_of_find?_eq_some hf, h⟩

/-- A call of `fetchPriority` on a cache of valid entries leaves a cache of valid entries
and returns the empty string, `ERR` or a token. -/
theorem fetchPriority_valid (c : PriorityCache) (hc : ∀ kv ∈ c, ValidEntry kv.2)
    (id : JSString) (now : Int) (response : Except JSString Document) (stamp : Int) :
    (∀ kv ∈ (fetchPriority c id now response stamp).cache, ValidEntry kv.2) ∧
    ((fetchPriority c id now response stamp).value = [] ∨
      (fetchPriority c id now response stamp).value = "ERR".toList ∨
      ∃ d, TokenText (fetchPriority c id now response stamp).value d) := by
  have hmiss : ∀ doc : Document,
      (∀ kv ∈ PriorityCache.set c id
          ⟨(extractPriority doc).1, stamp, (extractPriority doc).2⟩, ValidEntry kv.2) ∧
      ((extractPriority doc).1 = [] ∨ (extractPriority doc).1 = "ERR".toList ∨
        ∃ d, TokenText (extractPriority doc).1 d) := by
    intro doc
    have hv := extractPriority_valid doc stamp
    refine ⟨PriorityCache.set_valid c id _ hc hv, ?_⟩
    rcases hv.1 with h | h
    · exact Or.inl h
    · exact Or.inr (Or.inr h)
  unfold fetchPriority
  cases hget : c.get id with
  | none =>
    cases response with
    | ok doc => exact hmiss doc
    | error m => exact ⟨hc, Or.inr (Or.inl rfl)⟩
  | some e =>
    by_cases hf : isFresh (some e) now = true
    · simp only [hf, if_true]
      obtain ⟨kv, hkv, hke⟩ := PriorityCache.get_mem c id e hget
      have hv := hc kv hkv
      rw [hke] at hv
      refine ⟨hc, ?_⟩
      rcases hv.1 with h | h
      · exact Or.inl h
      · exact Or.inr (Or.inr h)
    · simp only [hf, Bool.false_eq_true, if_false]
      cases response with
      | ok doc => exact hmiss doc
      | error m => exact ⟨hc, Or.inr (Or.inl rfl)⟩

theorem CacheReachable.valid (c : PriorityCache) (h : CacheReachable c) :
    ∀ kv ∈ c, ValidEntry kv.2 := by
  induction h with
  | start => intro kv hkv; simp at hkv
  | fetch c id now response stamp _ ih =>
    exact (fetchPriority_valid c ih id now response stamp).1
  | delete c id _ ih =>
    intro kv hkv
    unfold PriorityCache.delete at hkv
    exact ih kv (List.mem_of_mem_filter hkv)

/-! ## Theorems -/

/-- C1: on a cache miss, for every page that contains a row with at least two cells whose
first cell's text, trimmed and lower-cased, is `priorité` or `priorite` and whose second
cell's trimmed text starts with `P` and a digit 1-9, `fetchPriority` returns the
two-character token of the first such row (rows in document order, the cells of a row
being the `th`/`td` elements inside it) and stores it with the reason
`match_custom_field_exact_label`. -/
theorem fetchPriority_exact_label (cache : PriorityCache) (id : JSString) (now stamp : Int)
    (doc : Document) (hmiss : isFresh (cache.get id) now = false)
    (hrow : ∃ row ∈ select isTr doc, ∃ d, LabelRow row d) :
    ∃ pre row0 post d0, select isTr doc = pre ++ row0 :: post ∧
      (∀ r ∈ pre, ∀ d, ¬ LabelRow r d) ∧ LabelRow row0 d0 ∧
      (fetchPriority cache id now (.ok doc) stamp).value = ['P', d0] ∧
      (fetchPriority cache id now (.ok doc) stamp).requested = true ∧
      (fetchPriority cache id now (.ok doc) stamp).cache.get id =
        some { value := ['P', d0], timestamp := stamp,
               reason := .match_custom_field_exact_label } := by
  have hex : ∃ x ∈ select isTr doc, (rowToken x).isSome = true := by
    obtain ⟨row, hin, d, hl⟩ := hrow
    exact ⟨row, hin, by rw [(rowToken_eq_some row d).2 hl]; rfl⟩
  obtain ⟨pre, row0, post, v, hsplit, hpre, hv, hfind⟩ := findSome?_first rowToken _ hex
  obtain ⟨d0, rfl⟩ := rowToken_shape row0 v hv
  have hext : extractPriority doc = (['P', d0], .match_custom_field_exact_label) := by
    unfold extractPriority strategy1
    rw [hfind]
  refine ⟨pre, row0, post, d0, hsplit, ?_, (rowToken_eq_some row0 d0).1 hv, ?_, ?_, ?_⟩
  · intro r hr d hl
    have := hpre r hr
    rw [(rowToken_eq_some r d).2 hl] at this
    exact absurd this (by simp)
  · rw [fetchPriority_miss_ok cache id now stamp doc hmiss, hext]
  · rw [fetchPriority_miss_ok cache id now stamp doc hmiss]
  · rw [fetchPriority_miss_ok cache id now stamp doc hmiss, hext]
    exact PriorityCache.get_set _ _ _

/-- Instance of C1 on the fixture page: the row
`<tr><td>Priorité</td><td>P2 - Majeure</td></tr>` yields `P2`. -/
theorem fetchPriority_exact_label_witness :
    isFresh (PriorityCache.get [] "1234".toList) 0 = false ∧
    (∃ row ∈ select isTr fixturePage, ∃ d, LabelRow row d) ∧
    (∃ pre row0 post d0, select isTr fixturePage = pre ++ row0 :: post ∧
      (∀ r ∈ pre, ∀ d, ¬ LabelRow r d) ∧ LabelRow row0 d0 ∧
      (fetchPriority [] "1234".toList 0 (.ok fixturePage) 7).value = ['P', d0] ∧
      (fetchPriority [] "1234".toList 0 (.ok fixturePage) 7).requested = true ∧
      (fetchPriority [] "1234".toList 0 (.ok fixturePage) 7).cache.get "1234".toList =
        some { value := ['P', d0], timestamp := 7,
               reason := .match_custom_field_exact_label }) ∧
    (fetchPriority [] "1234".toList 0 (.ok fixturePage) 7).value = "P2".toList ∧
    (fetchPriority [] "1234".toList 0 (.ok fixturePage) 7).cache =
      [("1234".toList, { value := "P2".toList, timestamp := 7,
                         reason := .match_custom_field_exact_label })] :=
  have hrow : ∃ row ∈ select isTr fixturePage, ∃ d, LabelRow row d :=
    ⟨fixtureRow, List.mem_singleton.2 rfl, '2',
      plainElement "td" [.text "Priorité".toList],
      plainElement "td" [.text "P2 - Majeure".toList], [], " - Majeure".toList,
      rfl, Or.inl (by decide), by decide, by decide, by decide⟩
  ⟨by decide, hrow,
    fetchPriority_exact_label [] "1234".toList 0 7 fixturePage (by decide) hrow,
    by decide, by decide⟩

/-- C2, as stated, fails.  On a page whose only cell is `<th>P3</th>` strategies 1 and 2 find
nothing and the first cell whose trimmed text is a token is that header cell, yet the stored
reason is `fallback_global_pattern`: strategy 3 does not look at `th` cells.  On a page
with `<div class="bug-custom-field">P1</div>` in front of the only cell `<td>P2</td>` the
value returned is `P1`, not the text `P2` of the first such cell. -/
theorem direct_cell_claim_counterexample :
    (strategy1 headerCellPage = none ∧ strategy2 headerCellPage = none ∧
      select isThOrTd headerCellPage = [headerCell] ∧
      TokenText (trim headerCell.textContent) '3' ∧
      (fetchPriority [] "1234".toList 0 (.ok headerCellPage) 7).cache.get "1234".toList =
        some { value := "P3".toList, timestamp := 7, reason := .fallback_global_pattern }) ∧
    (strategy1 customFieldPage = none ∧ strategy2 customFieldPage = none ∧
      select isThOrTd customFieldPage = [plainCell] ∧
      TokenText (trim plainCell.textContent) '2' ∧
      trim plainCell.textContent = "P2".toList ∧
      (fetchPriority [] "1234".toList 0 (.ok customFieldPage) 7).value = "P1".toList) :=
  ⟨⟨by decide, by decide, rfl, ⟨by decide, by decide, by decide⟩, by decide⟩,
    ⟨by decide, by decide, rfl, ⟨by decide, by decide, by decide⟩, by decide, by decide⟩⟩

/-- C2, amended: on a cache miss, for every page on which strategies 1 and 2 find no match
and on which some element selected by `.bug-custom-field, td` has a trimmed text that is
exactly `P` followed by a digit 1-9, `fetchPriority` returns the trimmed text of the first
such element in document order and stores it with the reason `match_direct_cell_pattern`
(so with none of the three other reasons). -/
theorem fetchPriority_direct_cell (cache : PriorityCache) (id : JSString) (now stamp : Int)
    (doc : Document) (hmiss : isFresh (cache.get id) now = false)
    (h1 : strategy1 doc = none) (h2 : strategy2 doc = none)
    (h3 : ∃ el ∈ select isCustomFieldOrTd doc, ∃ d, TokenText (trim el.textContent) d) :
    ∃ pre el0 post d0, select isCustomFieldOrTd doc = pre ++ el0 :: post ∧
      (∀ y ∈ pre, ∀ d, ¬ TokenText (trim y.textContent) d) ∧
      TokenText (trim el0.textContent) d0 ∧
      (fetchPriority cache id now (.ok doc) stamp).value = trim el0.textContent ∧
      (fetchPriority cache id now (.ok doc) stamp).requested = true ∧
      (fetchPriority cache id now (.ok doc) stamp).cache.get id =
        some { value := trim el0.textContent, timestamp := stamp,
               reason := .match_direct_cell_pattern } := by
  have hex : ∃ x ∈ select isCustomFieldOrTd doc, (directToken x).isSome = true := by
    obtain ⟨el, hin, d, hl⟩ := h3
    exact ⟨el, hin, by rw [(directToken_eq_some el d).2 hl]; rfl⟩
  obtain ⟨pre, el0, post, v, hsplit, hpre, hv, hfind⟩ := findSome?_first directToken _ hex
  obtain ⟨d0, rfl⟩ := directToken_shape el0 v hv
  have ht : TokenText (trim el0.textContent) d0 := (directToken_eq_some el0 d0).1 hv
  have hext : extractPriority doc = (trim el0.textContent, .match_direct_cell_pattern) := by
    unfold extractPriority
    rw [h1, h2]
    unfold strategy3
    rw [hfind, ht.1]
  refine ⟨pre, el0, post, d0, hsplit, ?_, ht, ?_, ?_, ?_⟩
  · intro r hr d hl
    have := hpre r hr
    rw [(directToken_eq_some r d).2 hl] at this
    exact absurd this (by simp)
  · rw [fetchPriority_miss_ok cache id now stamp doc hmiss, hext]
  · rw [fetchPriority_miss_ok cache id now stamp doc hmiss]
  · rw [fetchPriority_miss_ok cache id now stamp doc hmiss, hext]
    exact PriorityCache.get_set _ _ _

/-- Instance of the amended C2 on the page with a `bug-custom-field` element in front of a
`td` cell. -/
theorem fetchPriority_direct_cell_witness :
    isFresh (PriorityCache.get [] "1234".toList) 0 = false ∧
    strategy1 customFieldPage = none ∧ strategy2 customFieldPage = none ∧
    (∃ el ∈ select isCustomFieldOrTd customFieldPage, ∃ d,
      TokenText (trim el.textContent) d) ∧
    (∃ pre el0 post d0, select isCustomFieldOrTd customFieldPage = pre ++ el0 :: post ∧
      (∀ y ∈ pre, ∀ d, ¬ TokenText (trim y.textContent) d) ∧
      TokenText (trim el0.textContent) d0 ∧
      (fetchPriority [] "1234".toList 0 (.ok customFieldPage) 7).value =
        trim el0.textContent ∧
      (fetchPriority [] "1234".toList 0 (.ok customFieldPage) 7).requested = true ∧
      (fetchPriority [] "1234".toList 0 (.ok customFieldPage) 7).cache.get "1234".toList =
        some { value := trim el0.textContent, timestamp := 7,
               reason := .match_direct_cell_pattern }) :=
  have h3 : ∃ el ∈ select isCustomFieldOrTd customFieldPage, ∃ d,
      TokenText (trim el.textContent) d :=
    ⟨customFieldDiv, List.mem_cons_self _ _, '1', by decide, by decide, by decide⟩
  ⟨by decide, by decide, by decide, h3,
    fetchPriority_direct_cell [] "1234".toList 0 7 customFieldPage (by decide) (by decide)
      (by decide) h3⟩

/-- C3: on a cache miss, for every fetched page on which none of the four strategies
matches (no label row, no label cell with a token next to it, no selected element equal to
a token, no standalone token in the body text), `fetchPriority` returns the empty string,
not `ERR`, and stores an entry with an empty value and the reason `not_found`; the time to
live that applies to this entry is 5 minutes. -/
theorem fetchPriority_not_found (cache : PriorityCache) (id : JSString) (now stamp : Int)
    (doc : Document) (hmiss : isFresh (cache.get id) now = false)
    (h1 : ∀ row ∈ select isTr doc, ∀ d, ¬ LabelRow row d)
    (h2 : ∀ e ∈ selectWithSiblings isCategoryTdOrTh doc, ∀ d, ¬ LabelCell e d)
    (h3 : ∀ el ∈ select isCustomFieldOrTd doc, ∀ d, ¬ TokenText (trim el.textContent) d)
    (h4 : ∀ d, ¬ StandaloneToken (bodyText doc) d) :
    (fetchPriority cache id now (.ok doc) stamp).value = [] ∧
    (fetchPriority cache id now (.ok doc) stamp).value ≠ "ERR".toList ∧
    (fetchPriority cache id now (.ok doc) stamp).requested = true ∧
    (fetchPriority cache id now (.ok doc) stamp).cache.get id =
      some { value := [], timestamp := stamp, reason := .not_found } ∧
    ttlOf ((fetchPriority cache id now (.ok doc) stamp).cache.get id) = 5 * 60 * 1000 ∧
    (∀ later : Int, isFresh ((fetchPriority cache id now (.ok doc) stamp).cache.get id) later
      = true ↔ later - stamp < 5 * 60 * 1000) := by
  have hext : extractPriority doc = ([], .not_found) := by
    unfold extractPriority
    rw [(strategy1_eq_none doc).2 h1, (strategy2_eq_none doc).2 h2,
      (strategy3_eq_none doc).2 h3, (strategy4_eq_none doc).2 h4]
  rw [fetchPriority_miss_ok cache id now stamp doc hmiss, hext]
  rw [PriorityCache.get_set]
  have hne : ([] : JSString) ≠ "ERR".toList := by decide
  refine ⟨rfl, hne, rfl, rfl, by simp [ttlOf, FAIL_CACHE_TTL], ?_⟩
  intro later
  simp [isFresh, ttlOf, FAIL_CACHE_TTL]

/-- Instance of C3 on a page without any recognizable priority. -/
theorem fetchPriority_not_found_witness :
    isFresh (PriorityCache.get [] "1234".toList) 0 = false ∧
    (fetchPriority [] "1234".toList 0 (.ok notFoundPage) 7).value = [] ∧
    (fetchPriority [] "1234".toList 0 (.ok notFoundPage) 7).value ≠ "ERR".toList ∧
    (fetchPriority [] "1234".toList 0 (.ok notFoundPage) 7).requested = true ∧
    (fetchPriority [] "1234".toList 0 (.ok notFoundPage) 7).cache.get "1234".toList =
      some { value := [], timestamp := 7, reason := .not_found } ∧
    ttlOf ((fetchPriority [] "1234".toList 0 (.ok notFoundPage) 7).cache.get "1234".toList)
      = 5 * 60 * 1000 ∧
    (∀ later : Int,
      isFresh ((fetchPriority [] "1234".toList 0 (.ok notFoundPage) 7).cache.get
        "1234".toList) later = true ↔ later - 7 < 5 * 60 * 1000) :=
  ⟨by decide,
    fetchPriority_not_found [] "1234".toList 0 7 notFoundPage (by decide)
      ((strategy1_eq_none notFoundPage).1 (by decide))
      ((strategy2_eq_none notFoundPage).1 (by decide))
      ((strategy3_eq_none notFoundPage).1 (by decide))
      ((strategy4_eq_none notFoundPage).1 (by decide))⟩

/-- C4: for every ticket id and every state of the priority cache, when the cache does not
answer and the detail-page request throws, `fetchPriority` returns `ERR` and leaves the
cache exactly as it was; a later call for the same id on that cache (at the same or a later
clock reading) issues the request again. -/
theorem fetchPriority_request_throws (cache : PriorityCache) (id : JSString)
    (now stamp : Int) (msg : JSString) (hmiss : isFresh (cache.get id) now = false) :
    (fetchPriority cache id now (.error msg) stamp).value = "ERR".toList ∧
    (fetchPriority cache id now (.error msg) stamp).requested = true ∧
    (fetchPriority cache id now (.error msg) stamp).cache = cache ∧
    (∀ (later stamp2 : Int) (response : Except JSString Document), now ≤ later →
      (fetchPriority (fetchPriority cache id now (.error msg) stamp).cache id later
        response stamp2).requested = true) := by
  rw [fetchPriority_miss_error cache id now stamp msg hmiss]
  refine ⟨rfl, rfl, rfl, ?_⟩
  intro later stamp2 response hle
  exact (fetchPriority_requested_iff cache id later stamp2 response).2
    (isFresh_mono _ now later hle hmiss)

/-- Instance of C4: a cache holding an expired entry for the ticket, and a request that
times out. -/
theorem fetchPriority_request_throws_witness :
    isFresh (PriorityCache.get
      [("1234".toList, { value := "P2".toList, timestamp := 0,
                         reason := .match_custom_field_exact_label })]
      "1234".toList) 1800000 = false ∧
    (fetchPriority
      [("1234".toList, { value := "P2".toList, timestamp := 0,
                         reason := .match_custom_field_exact_label })]
      "1234".toList 1800000 (.error "timeout of 15000ms exceeded".toList) 1800100).value
      = "ERR".toList ∧
    (fetchPriority
      [("1234".toList, { value := "P2".toList, timestamp := 0,
                         reason := .match_custom_field_exact_label })]
      "1234".toList 1800000 (.error "timeout of 15000ms exceeded".toList) 1800100).cache
      = [("1234".toList, { value := "P2".toList, timestamp := 0,
                           reason := .match_custom_field_exact_label })] :=
  have h := fetchPriority_request_throws
    [("1234".toList, { value := "P2".toList, timestamp := 0,
                       reason := .match_custom_field_exact_label })]
    "1234".toList 1800000 1800100 "timeout of 15000ms exceeded".toList (by decide)
  ⟨by decide, h.1, h.2.2.1⟩

/-- C5, as stated, fails.  With an empty cache, a first call at time 0 on a page without
priority returns the empty string; a second call 10 minutes later (less than 30 minutes)
issues a request again and, the page now showing `P2`, returns another value.  And after a
first call whose request throws, a second call one second later issues a request again. -/
theorem repeated_call_claim_counterexample :
    ((600000 : Int) - 0 < 30 * 60 * 1000 ∧
      (fetchPriority [] "1234".toList 0 (.ok notFoundPage) 0).value = [] ∧
      (fetchPriority (fetchPriority [] "1234".toList 0 (.ok notFoundPage) 0).cache
        "1234".toList 600000 (.ok fixturePage) 600000).requested = true ∧
      (fetchPriority (fetchPriority [] "1234".toList 0 (.ok notFoundPage) 0).cache
        "1234".toList 600000 (.ok fixturePage) 600000).value = "P2".toList) ∧
    ((1000 : Int) - 0 < 30 * 60 * 1000 ∧
      (fetchPriority [] "1234".toList 0 (.error "Network Error".toList) 0).value
        = "ERR".toList ∧
      (fetchPriority (fetchPriority [] "1234".toList 0 (.error "Network Error".toList) 0).cache
        "1234".toList 1000 (.ok fixturePage) 1000).requested = true ∧
      (fetchPriority (fetchPriority [] "1234".toList 0 (.error "Network Error".toList) 0).cache
        "1234".toList 1000 (.ok fixturePage) 1000).value = "P2".toList) :=
  ⟨⟨by decide, by decide, by decide, by decide⟩, ⟨by decide, by decide, by decide, by decide⟩⟩

/-- C5, amended: when `fetchPriority` is called twice for the same id with no change of the
cache in between, and the first call did not end in a failed request, then after the first
call the cache holds an entry for the id whose value is the value returned; and when the
second call comes less than 30 minutes (non-empty value) or less than 5 minutes (empty
value) after that entry's timestamp, it returns the identical value, issues no request and
leaves the cache as it is. -/
theorem fetchPriority_twice (cache : PriorityCache) (id : JSString)
    (now1 stamp1 now2 stamp2 : Int) (resp1 resp2 : Except JSString Document)
    (hok : (fetchPriority cache id now1 resp1 stamp1).requested = false ∨
      ∃ doc, resp1 = .ok doc) :
    ∃ e, (fetchPriority cache id now1 resp1 stamp1).cache.get id = some e ∧
      e.value = (fetchPriority cache id now1 resp1 stamp1).value ∧
      (now2 - e.timestamp < (if e.value = [] then 5 * 60 * 1000 else 30 * 60 * 1000) →
        (fetchPriority (fetchPriority cache id now1 resp1 stamp1).cache id now2 resp2
          stamp2).value = (fetchPriority cache id now1 resp1 stamp1).value ∧
        (fetchPriority (fetchPriority cache id now1 resp1 stamp1).cache id now2 resp2
          stamp2).requested = false ∧
        (fetchPriority (fetchPriority cache id now1 resp1 stamp1).cache id now2 resp2
          stamp2).cache = (fetchPriority cache id now1 resp1 stamp1).cache) := by
  have key : ∃ e, (fetchPriority cache id now1 resp1 stamp1).cache.get id = some e ∧
      e.value = (fetchPriority cache id now1 resp1 stamp1).value := by
    by_cases hf : isFresh (cache.get id) now1 = true
    · cases hget : cache.get id with
      | none => rw [hget] at hf; exact absurd hf (by simp [isFresh])
      | some e =>
        rw [hget] at hf
        rw [fetchPriority_hit cache id now1 stamp1 resp1 e hget hf]
        exact ⟨e, hget, rfl⟩
    · have hmiss : isFresh (cache.get id) now1 = false := by simpa using hf
      rcases hok with hreq | ⟨doc, rfl⟩
      · have := (fetchPriority_requested_iff cache id now1 stamp1 resp1).2 hmiss
        rw [hreq] at this
        exact absurd this (by simp)
      · rw [fetchPriority_miss_ok cache id now1 stamp1 doc hmiss]
        exact ⟨_, PriorityCache.get_set _ _ _, rfl⟩
  obtain ⟨e, hget, hval⟩ := key
  refine ⟨e, hget, hval, ?_⟩
  intro hage
  have hfresh : isFresh (some e) now2 = true := (isFresh_some_iff e now2).2 hage
  rw [fetchPriority_hit _ id now2 stamp2 resp2 e hget hfresh]
  exact ⟨hval, rfl, rfl⟩

/-- Instance of the amended C5: a first call that fetches `P2` at time 5, and the entry it
leaves in the cache. -/
theorem fetchPriority_twice_witness :
    ((fetchPriority [] "1234".toList 0 (.ok fixturePage) 5).requested = false ∨
      ∃ doc, (Except.ok fixturePage : Except JSString Document) = .ok doc) ∧
    ∃ e, (fetchPriority [] "1234".toList 0 (.ok fixturePage) 5).cache.get "1234".toList
        = some e ∧
      e.value = (fetchPriority [] "1234".toList 0 (.ok fixturePage) 5).value ∧
      (1000000 - e.timestamp < (if e.value = [] then 5 * 60 * 1000 else 30 * 60 * 1000) →
        (fetchPriority (fetchPriority [] "1234".toList 0 (.ok fixturePage) 5).cache
          "1234".toList 1000000 (.error "Network Error".toList) 1000001).value
          = (fetchPriority [] "1234".toList 0 (.ok fixturePage) 5).value ∧
        (fetchPriority (fetchPriority [] "1234".toList 0 (.ok fixturePage) 5).cache
          "1234".toList 1000000 (.error "Network Error".toList) 1000001).requested
          = false ∧
        (fetchPriority (fetchPriority [] "1234".toList 0 (.ok fixturePage) 5).cache
          "1234".toList 1000000 (.error "Network Error".toList) 1000001).cache
          = (fetchPriority [] "1234".toList 0 (.ok fixturePage) 5).cache) :=
  ⟨Or.inr ⟨fixturePage, rfl⟩,
    fetchPriority_twice [] "1234".toList 0 5 1000000 1000001 (.ok fixturePage)
      (.error "Network Error".toList) (Or.inr ⟨fixturePage, rfl⟩)⟩

/-- C6: for every cache entry, `fetchPriority` answers from the cache (the cached value,
no request, cache untouched) if and only if the age of the entry, `now - timestamp`, is
strictly less than 30 minutes when the cached value is non-empty and strictly less than
5 minutes when it is empty; otherwise it issues a request.  So for an empty cached value a
call at an age of at least 5 and less than 30 minutes issues a request, and a call at an
age below 5 minutes does not. -/
theorem fetchPriority_asymmetric_ttl (cache : PriorityCache) (id : JSString)
    (now stamp : Int) (response : Except JSString Document) (e : CacheEntry)
    (hget : cache.get id = some e) :
    (e.value ≠ [] → ((fetchPriority cache id now response stamp).requested = false ↔
      now - e.timestamp < 30 * 60 * 1000)) ∧
    (e.value = [] → ((fetchPriority cache id now response stamp).requested = false ↔
      now - e.timestamp < 5 * 60 * 1000)) ∧
    ((fetchPriority cache id now response stamp).requested = false →
      (fetchPriority cache id now response stamp).value = e.value ∧
      (fetchPriority cache id now response stamp).cache = cache) ∧
    (e.value = [] → 5 * 60 * 1000 ≤ now - e.timestamp → now - e.timestamp < 30 * 60 * 1000 →
      (fetchPriority cache id now response stamp).requested = true) := by
  have hreq : (fetchPriority cache id now response stamp).requested = false ↔
      isFresh (some e) now = true := by
    have := fetchPriority_requested_iff cache id now stamp response
    rw [hget] at this
    cases hr : (fetchPriority cache id now response stamp).requested <;>
      cases hf : isFresh (some e) now <;> simp_all
  refine ⟨?_, ?_, ?_, ?_⟩
  · intro hne
    rw [hreq, isFresh_some_iff, if_neg hne]
  · intro he
    rw [hreq, isFresh_some_iff, if_pos he]
  · intro h
    rw [fetchPriority_hit cache id now stamp response e hget (hreq.1 h)]
    exact ⟨rfl, rfl⟩
  · intro he h5 _
    cases hr : (fetchPriority cache id now response stamp).requested with
    | true => rfl
    | false =>
      have := (isFresh_some_iff e now).1 (hreq.1 hr)
      rw [if_pos he] at this
      omega

/-- Instance of C6: an empty entry stamped at time 0, asked for 10 minutes later. -/
theorem fetchPriority_asymmetric_ttl_witness :
    PriorityCache.get [("1234".toList, { value := [], timestamp := 0, reason := .not_found })]
      "1234".toList = some { value := [], timestamp := 0, reason := .not_found } ∧
    (fetchPriority [("1234".toList, { value := [], timestamp := 0, reason := .not_found })]
      "1234".toList 600000 (.ok fixturePage) 600000).requested = true ∧
    (fetchPriority [("1234".toList, { value := [], timestamp := 0, reason := .not_found })]
      "1234".toList 299999 (.ok fixturePage) 299999).requested = false :=
  ⟨by decide,
    (fetchPriority_asymmetric_ttl
      [("1234".toList, { value := [], timestamp := 0, reason := .not_found })]
      "1234".toList 600000 600000 (.ok fixturePage)
      { value := [], timestamp := 0, reason := .not_found } (by decide)).2.2.2
      rfl (by decide) (by decide),
    ((fetchPriority_asymmetric_ttl
      [("1234".toList, { value := [], timestamp := 0, reason := .not_found })]
      "1234".toList 299999 299999 (.ok fixturePage)
      { value := [], timestamp := 0, reason := .not_found } (by decide)).2.1 rfl).2
      (by decide)⟩

/-- C7: for every job state with `isRunning = true`, a new trigger of the bulk refresh is
answered with status 409 and the error `Refresh already in progress`; the job state stays
the same in all its fields and no job is started. -/
theorem postRefresh_single_flight (job : RefreshJob) (env : Env) (rid startIso : JSString)
    (hrun : job.isRunning = true) :
    postRefresh job env rid startIso =
      ({ status := 409, error := some "Refresh already in progress".toList,
         message := none, jobId := none }, job, false) := by
  unfold postRefresh
  rw [if_pos hrun]

/-- Instance of C7: a trigger while a job has completed 7 of 12 rows. -/
theorem postRefresh_single_flight_witness :
    runningJob.isRunning = true ∧
    postRefresh runningJob sampleEnv "job-1714550410000".toList
        "2024-05-01T08:00:10.000Z".toList =
      ({ status := 409, error := some "Refresh already in progress".toList,
         message := none, jobId := none }, runningJob, false) :=
  ⟨rfl, postRefresh_single_flight runningJob sampleEnv _ _ rfl⟩

/-- C8: for every export that parses to `N` rows and every positive concurrency, the
enrichment loop ends (within `N` iterations) in a job state with `total = N`,
`current = total` and `success + failed = N`, whatever the priority look-ups give; the job
then ends with these counters. -/
theorem refresh_counters (fuel : Nat) (inp : JobInputs) (fs : FileSystem) (rows : List Row)
    (c : Int)
    (hrows : prepareRows inp.login inp.loadFilter inp.csvExport inp.parse = .ok rows)
    (hconc : inp.concurrency = some c) (hpos : 0 < c) (hfuel : rows.length ≤ fuel) :
    (∃ rows2 job2,
      enrichLoop inp.fetch inp.clock inp.concurrency fuel 0 rows
        { startJob inp.startIso with total := rows.length } = some (rows2, job2) ∧
      rows2.length = rows.length ∧ job2.total = rows.length ∧ job2.current = job2.total ∧
      job2.success + job2.failed = rows.length) ∧
    (∃ job fs2, runRefreshJob fuel inp fs = some (job, fs2) ∧ job.total = rows.length ∧
      job.current = job.total ∧ job.success + job.failed = rows.length ∧
      job.isRunning = false) := by
  obtain ⟨rows2, job2, h1, h2, h3⟩ := enrichLoop_positive inp.fetch inp.clock c hpos fuel 0
    (le_refl 0) rows { startJob inp.startIso with total := rows.length } (by simpa using hfuel)
  rw [← hconc] at h1
  unfold Advanced at h3
  simp only [startJob, Int.toNat_zero, Nat.sub_zero, Nat.zero_add] at h3
  have ht : job2.total = rows.length := h3.2.2.1
  have hcur : job2.current = job2.total := by rw [ht]; exact h3.1
  have hsf : job2.success + job2.failed = rows.length := h3.2.1
  refine ⟨⟨rows2, job2, h1, h2, ht, hcur, hsf⟩, ?_⟩
  unfold runRefreshJob refreshTry
  rw [hrows]
  simp only [h1]
  cases hw : (writeCacheAtomic fs rows2
      { totalRows := job2.total, enrichedTotal := job2.current,
        enrichedSuccess := job2.success, enrichedFailed := job2.failed }
      inp.writeStamp inp.writeFault).2 with
  | ok u => exact ⟨_, _, rfl, ht, hcur, hsf, rfl⟩
  | error m => exact ⟨_, _, rfl, ht, hcur, hsf, rfl⟩

/-- Instance of C8: 12 rows with concurrency 5 give `total = 12` and
`success + failed = 12`. -/
theorem refresh_counters_witness :
    prepareRows twelveRowInputs.login twelveRowInputs.loadFilter twelveRowInputs.csvExport
      twelveRowInputs.parse = .ok twelveRows ∧
    twelveRowInputs.concurrency = some 5 ∧ (0 : Int) < 5 ∧ twelveRows.length ≤ 12 ∧
    (∃ job fs2, runRefreshJob 12 twelveRowInputs earlierFiles = some (job, fs2) ∧
      job.total = 12 ∧ job.current = job.total ∧ job.success + job.failed = 12 ∧
      job.isRunning = false) :=
  ⟨rfl, rfl, by decide, by decide,
    (refresh_counters 12 twelveRowInputs earlierFiles twelveRows 5 rfl rfl (by decide)
      (by decide)).2⟩

/-- C9: when authentication, export or parsing throws an error with message `msg`, the job
is over (whatever the fuel) with `error = msg` and `isRunning = false`, its counters as set
at the start, and the file system is the one the job found: the cache file is not written.
And every job that is over, with or without an error, has `isRunning = false`. -/
theorem refresh_aborts_on_exception (fuel : Nat) (inp : JobInputs) (fs : FileSystem)
    (msg : JSString)
    (hfail : prepareRows inp.login inp.loadFilter inp.csvExport inp.parse = .error msg) :
    runRefreshJob fuel inp fs =
      some ({ startJob inp.startIso with error := some msg, isRunning := false }, fs) ∧
    (∀ (fuel2 : Nat) (inp2 : JobInputs) (fs2 fs3 : FileSystem) (job : RefreshJob),
      runRefreshJob fuel2 inp2 fs2 = some (job, fs3) → job.isRunning = false) := by
  constructor
  · unfold runRefreshJob refreshTry
    rw [hfail]
  · intro fuel2 inp2 fs2 fs3 job h
    unfold runRefreshJob at h
    split at h
    · exact absurd h (by simp)
    · simp only [Option.some.injEq, Prod.mk.injEq] at h
      rw [← h.1]
    · simp only [Option.some.injEq, Prod.mk.injEq] at h
      rw [← h.1]

/-- Instance of C9: a job whose login is redirected back to the login page. -/
theorem refresh_aborts_on_exception_witness :
    prepareRows failedLoginInputs.login failedLoginInputs.loadFilter
      failedLoginInputs.csvExport failedLoginInputs.parse =
        .error "Auth failed - redirected back to login".toList ∧
    runRefreshJob 0 failedLoginInputs earlierFiles =
      some ({ startJob failedLoginInputs.startIso with
                error := some "Auth failed - redirected back to login".toList,
                isRunning := false }, earlierFiles) :=
  ⟨rfl, (refresh_aborts_on_exception 0 failedLoginInputs earlierFiles
    "Auth failed - redirected back to login".toList rfl).1⟩

/-- C10 fails on the code: the test for the HTML marker is the case-sensitive
`res.data.includes('<html')`.  The page `<!DOCTYPE HTML><HTML>...`, which the helper
`logger.isHtml` of the same file recognises as HTML (it lower-cases the payload first), has
no `<html` in it and is returned unchanged by `performMantisExport`; the refresh job then
fails with the message of its own test, not with `Export returned HTML`, and an HTML page
in capitals without document type passes both tests and reaches the CSV parser.  What
holds: a payload containing `<html` in small letters gives the error
`Export returned HTML`, and any other text payload is returned unchanged. -/
theorem performMantisExport_uppercase_html :
    isHtml (.data (.text upperHtmlPage)) = true ∧
    includes (toLowerCase upperHtmlPage) "<html".toList = true ∧
    includes upperHtmlPage "<html".toList = false ∧
    performMantisExport (.ok ()) (.ok ()) (.ok (.text upperHtmlPage)) false =
      .ok (.data (.text upperHtmlPage)) ∧
    (∀ parse, prepareRows (.ok ()) (.ok ()) (.ok (.text upperHtmlPage)) parse =
      .error "Mantis session expired or login required (HTML detected)".toList) ∧
    includes (toLowerCase bareUpperHtmlPage) "<html".toList = true ∧
    (∀ parse, prepareRows (.ok ()) (.ok ()) (.ok (.text bareUpperHtmlPage)) parse =
      parse (.data (.text bareUpperHtmlPage))) ∧
    (∀ payload : JSString, includes payload "<html".toList = true →
      performMantisExport (.ok ()) (.ok ()) (.ok (.text payload)) false =
        .error "Export returned HTML".toList) ∧
    (∀ payload : JSString, includes payload "<html".toList = false →
      performMantisExport (.ok ()) (.ok ()) (.ok (.text payload)) false =
        .ok (.data (.text payload))) := by
  refine ⟨by decide, by decide, by decide, rfl, fun _ => rfl, by decide, fun _ => rfl,
    ?_, ?_⟩
  · intro payload h
    simp only [performMantisExport, containsHtmlMarker, h, if_true]
  · intro payload h
    simp only [performMantisExport, containsHtmlMarker, h, Bool.false_eq_true, if_false]

/-- What `performMantisExport` does with a text payload (login and filter request having
succeeded): it fails with the error `Export returned HTML` when the payload contains
`<html`, and otherwise returns the payload unchanged.  It fails with that message only in
this case, unless one of its three steps itself throws an error with that very message:
errors of the steps are passed on with their own message. -/
theorem performMantisExport_html_marker :
    (∀ payload : JSString,
      performMantisExport (.ok ()) (.ok ()) (.ok (.text payload)) false =
        if includes payload "<html".toList then .error "Export returned HTML".toList
        else .ok (.data (.text payload))) ∧
    (∀ (login loadFilter : Except JSString Unit) (csvExport : Except JSString ResponseData)
        (isDebug : Bool),
      performMantisExport login loadFilter csvExport isDebug
          = .error "Export returned HTML".toList ↔
        (login = .ok () ∧ loadFilter = .ok () ∧
          ∃ payload, csvExport = .ok (.text payload) ∧
            includes payload "<html".toList = true) ∨
        login = .error "Export returned HTML".toList ∨
        (login = .ok () ∧ loadFilter = .error "Export returned HTML".toList) ∨
        (login = .ok () ∧ loadFilter = .ok () ∧
          csvExport = .error "Export returned HTML".toList)) ∧
    (∀ (m : JSString) (loadFilter : Except JSString Unit)
        (csvExport : Except JSString ResponseData) (isDebug : Bool),
      performMantisExport (.error m) loadFilter csvExport isDebug = .error m ∧
      performMantisExport (.ok ()) (.error m) csvExport isDebug = .error m ∧
      performMantisExport (.ok ()) (.ok ()) (.error m) isDebug = .error m) := by
  refine ⟨?_, ?_, ?_⟩
  · intro payload
    simp only [performMantisExport, containsHtmlMarker]
    split <;> simp
  · intro login loadFilter csvExport isDebug
    rcases login with m1 | ⟨⟨⟩⟩
    · simp [performMantisExport]
    · rcases loadFilter with m2 | ⟨⟨⟩⟩
      · simp [performMantisExport]
      · rcases csvExport with m3 | d
        · simp [performMantisExport]
        · cases d with
          | other => cases isDebug <;> simp [performMantisExport, containsHtmlMarker]
          | text s =>
            by_cases hs : includes s "<html".toList = true
            · have hres : performMantisExport (.ok ()) (.ok ()) (.ok (.text s)) isDebug
                  = .error "Export returned HTML".toList := by
                simp only [performMantisExport, containsHtmlMarker, hs, if_true]
              rw [hres]
              exact ⟨fun _ => Or.inl ⟨rfl, rfl, s, rfl, hs⟩, fun _ => rfl⟩
            · have hres : performMantisExport (.ok ()) (.ok ()) (.ok (.text s)) isDebug
                  ≠ .error "Export returned HTML".toList := by
                cases isDebug <;>
                  simp only [performMantisExport, containsHtmlMarker, hs, if_false,
                    Bool.false_eq_true, if_true, ne_eq, reduceCtorEq, not_false_eq_true]
              constructor
              · intro h
                exact absurd h hres
              · rintro (⟨-, -, p, hp, hp2⟩ | h | ⟨-, h⟩ | ⟨-, -, h⟩)
                · simp only [Except.ok.injEq, ResponseData.text.injEq] at hp
                  rw [hp] at hs
                  exact absurd hp2 hs
                · cases h
                · cases h
                · cases h
  · intro m loadFilter csvExport isDebug
    exact ⟨rfl, rfl, rfl⟩

/-- An HTML login page in small letters and a CSV payload. -/
theorem performMantisExport_html_marker_witness :
    performMantisExport (.ok ()) (.ok ())
        (.ok (.text "<!DOCTYPE html><html><body>Login</body></html>".toList)) false
      = .error "Export returned HTML".toList ∧
    performMantisExport (.ok ()) (.ok ())
        (.ok (.text "Identifiant,Résumé\n0004217,x".toList)) false
      = .ok (.data (.text "Identifiant,Résumé\n0004217,x".toList)) :=
  ⟨(performMantisExport_html_marker.1 _).trans rfl,
    (performMantisExport_html_marker.1 _).trans rfl⟩

/-- C12: whatever the errors thrown by the attempts, `MantisClient.request` makes between
1 and 3 attempts; it returns the response of the first attempt that succeeds, making no
attempt after it, and when all 3 attempts fail it throws the error of the third. -/
theorem request_at_most_three {ε ρ : Type} (send : Nat → Except ε ρ) :
    1 ≤ (request send).attempts ∧ (request send).attempts ≤ 3 ∧
    (∀ k r, 1 ≤ k → k ≤ 3 → (∀ j, 1 ≤ j → j < k → ∃ e, send j = .error e) →
      send k = .ok r →
      (request send).result = .ok r ∧ (request send).attempts = k) ∧
    (∀ e1 e2 e3, send 1 = .error e1 → send 2 = .error e2 → send 3 = .error e3 →
      (request send).result = .error (some e3) ∧ (request send).attempts = 3) := by
  refine ⟨?_, ?_, ?_, ?_⟩
  · unfold request requestLoop
    cases h1 : send 1 with
    | ok r => simp only []; exact le_refl 1
    | error e1 =>
      simp only [requestLoop]
      cases h2 : send 2 with
      | ok r => simp only []; omega
      | error e2 =>
        simp only []
        cases h3 : send 3 with
        | ok r => simp only []; omega
        | error e3 => simp only []; omega
  · unfold request requestLoop
    cases h1 : send 1 with
    | ok r => simp only []; omega
    | error e1 =>
      simp only [requestLoop]
      cases h2 : send 2 with
      | ok r => simp only []; omega
      | error e2 =>
        simp only []
        cases h3 : send 3 with
        | ok r => simp only []; omega
        | error e3 => simp only []; omega
  · intro k r hk1 hk3 hfail hok
    have hcases : k = 1 ∨ k = 2 ∨ k = 3 := by omega
    rcases hcases with rfl | rfl | rfl
    · simp only [request, requestLoop, hok, and_self]
    · obtain ⟨e1, h1⟩ := hfail 1 (le_refl 1) (by omega)
      simp only [request, requestLoop, h1, hok, Nat.reduceAdd, and_self]
    · obtain ⟨e1, h1⟩ := hfail 1 (le_refl 1) (by omega)
      obtain ⟨e2, h2⟩ := hfail 2 (by omega) (by omega)
      simp only [request, requestLoop, h1, h2, hok, Nat.reduceAdd, and_self]
  · intro e1 e2 e3 h1 h2 h3
    simp only [request, requestLoop, h1, h2, h3, Nat.reduceAdd, Nat.add_one_sub_one, and_self]

/-- Instances of C12: a second attempt that succeeds after a timeout, and three attempts
that fail. -/
theorem request_at_most_three_witness :
    ((request (fun k => if k = 2 then (Except.ok "page".toList : Except JSString JSString)
        else .error "timeout of 15000ms exceeded".toList)).result = .ok "page".toList ∧
      (request (fun k => if k = 2 then (Except.ok "page".toList : Except JSString JSString)
        else .error "timeout of 15000ms exceeded".toList)).attempts = 2) ∧
    ((request (fun k => (Except.error (k, "Network Error".toList) :
        Except (Nat × JSString) JSString))).result = .error (some (3, "Network Error".toList)) ∧
      (request (fun k => (Except.error (k, "Network Error".toList) :
        Except (Nat × JSString) JSString))).attempts = 3) :=
  ⟨(request_at_most_three _).2.2.1 2 "page".toList (by decide) (by decide)
      (fun j h1 h2 => ⟨"timeout of 15000ms exceeded".toList, by
        have hj : j = 1 := by omega
        subst hj
        rfl⟩) rfl,
    (request_at_most_three _).2.2.2 _ _ _ rfl rfl rfl⟩

/-- C13, as stated, fails: for a call whose three attempts all fail, the delays waited are
500 ms and 1500 ms; the entry 3000 of the table is never waited, since no delay follows
the third attempt. -/
theorem request_delays_claim_counterexample :
    (request (fun _ => (Except.error "timeout of 15000ms exceeded".toList :
        Except JSString JSString))).delays = [500, 1500] ∧
    (request (fun _ => (Except.error "timeout of 15000ms exceeded".toList :
        Except JSString JSString))).delays ≠ [500, 1500, 3000] ∧
    (request (fun _ => (Except.error "timeout of 15000ms exceeded".toList :
        Except JSString JSString))).attempts = 3 :=
  ⟨rfl, by decide, rfl⟩

/-- C13, amended: on failure `MantisClient.request` waits 500 ms before the second attempt
and 1500 ms before the third; for a call whose every attempt fails the sequence of delays
waited is 500 ms, then 1500 ms, and the final error is thrown without a further delay.  In
every call the delays waited are the first `attempts - 1` entries of the table. -/
theorem request_delays {ε ρ : Type} (send : Nat → Except ε ρ) :
    (request send).delays = retryDelays.take ((request send).attempts - 1) ∧
    retryDelays = [500, 1500, 3000] ∧
    ((∀ k, 1 ≤ k → k ≤ 3 → ∃ e, send k = .error e) →
      (request send).delays = [500, 1500]) := by
  refine ⟨?_, rfl, ?_⟩
  · unfold request requestLoop
    cases h1 : send 1 with
    | ok r => rfl
    | error e1 =>
      simp only [requestLoop]
      cases h2 : send 2 with
      | ok r => rfl
      | error e2 =>
        simp only []
        cases h3 : send 3 with
        | ok r => rfl
        | error e3 => rfl
  · intro hall
    obtain ⟨e1, h1⟩ := hall 1 (by omega) (by omega)
    obtain ⟨e2, h2⟩ := hall 2 (by omega) (by omega)
    obtain ⟨e3, h3⟩ := hall 3 (by omega) (by omega)
    simp only [request, requestLoop, h1, h2, h3]
    rfl

/-- Instance of the amended C13: three attempts that time out. -/
theorem request_delays_witness :
    (request (fun _ => (Except.error "timeout of 15000ms exceeded".toList :
        Except JSString JSString))).delays = [500, 1500] :=
  (request_delays _).2.2 (fun _ _ _ => ⟨_, rfl⟩)

/-- C11, as stated, fails: when the first request of the login throws (here a timeout), the
login fails with that error, whose message is not `Auth failed`, although no final
response has a path containing `login_page.php`. -/
theorem login_claim_counterexample :
    (login (some "user".toList) (some "secret".toList)
      (fun _ _ => .error "timeout of 15000ms exceeded".toList)).result
      = .error "timeout of 15000ms exceeded".toList ∧
    includes "timeout of 15000ms exceeded".toList "Auth failed".toList = false :=
  ⟨rfl, by decide⟩

/-- C11, amended: when the three requests of the login succeed, `login` returns `true` if
and only if the path of the final response does not contain `login_page.php`, and throws
`Auth failed - redirected back to login` otherwise; when one of its requests throws, it
throws that error with its own message and makes no further request.  In every case it
makes at most three requests, the steps of the sequence in order, each once. -/
theorem login_outcome (username password : Option JSString)
    (send : Nat → HttpRequest → Except JSString PageResponse) :
    (∀ res1 res2 res3, send 1 loginRequest1 = .ok res1 →
      send 2 (loginRequest2 username res1) = .ok res2 →
      send 3 (loginRequest3 password res2) = .ok res3 →
      ((login username password send).result = .ok true ↔
        includes res3.requestPath "login_page.php".toList = false) ∧
      (includes res3.requestPath "login_page.php".toList = true →
        (login username password send).result =
          .error "Auth failed - redirected back to login".toList) ∧
      (login username password send).requests =
        [loginRequest1, loginRequest2 username res1, loginRequest3 password res2]) ∧
    (∀ m, send 1 loginRequest1 = .error m →
      (login username password send).result = .error m ∧
      (login username password send).requests = [loginRequest1]) ∧
    (∀ res1 m, send 1 loginRequest1 = .ok res1 →
      send 2 (loginRequest2 username res1) = .error m →
      (login username password send).result = .error m ∧
      (login username password send).requests =
        [loginRequest1, loginRequest2 username res1]) ∧
    (∀ res1 res2 m, send 1 loginRequest1 = .ok res1 →
      send 2 (loginRequest2 username res1) = .ok res2 →
      send 3 (loginRequest3 password res2) = .error m →
      (login username password send).result = .error m ∧
      (login username password send).requests =
        [loginRequest1, loginRequest2 username res1, loginRequest3 password res2]) ∧
    (login username password send).requests.length ≤ 3 := by
  refine ⟨?_, ?_, ?_, ?_, ?_⟩
  · intro res1 res2 res3 h1 h2 h3
    simp only [login, h1, h2, h3]
    cases hp : includes res3.requestPath "login_page.php".toList with
    | true => simp
    | false => simp
  · intro m h1
    simp only [login, h1, and_self]
  · intro res1 m h1 h2
    simp only [login, h1, h2, and_self]
  · intro res1 res2 m h1 h2 h3
    simp only [login, h1, h2, h3, and_self]
  · unfold login
    cases h1 : send 1 loginRequest1 with
    | error m => simp
    | ok res1 =>
      simp only []
      cases h2 : send 2 (loginRequest2 username res1) with
      | error m => simp
      | ok res2 =>
        simp only []
        cases h3 : send 3 (loginRequest3 password res2) with
        | error m => simp
        | ok res3 => simp

/-- Instances of the amended C11: a login that ends on `/my_view_page.php`, and one that is
sent back to the login page. -/
theorem login_outcome_witness :
    (login (some "user".toList) (some "secret".toList)
      (loginNetwork "/my_view_page.php".toList)).result = .ok true ∧
    (login (some "user".toList) (some "secret".toList)
      (loginNetwork "/login_page.php?error=1".toList)).result
      = .error "Auth failed - redirected back to login".toList :=
  ⟨((login_outcome (some "user".toList) (some "secret".toList)
      (loginNetwork "/my_view_page.php".toList)).1 _ _ _ rfl rfl rfl).1.2 (by decide),
    ((login_outcome (some "user".toList) (some "secret".toList)
      (loginNetwork "/login_page.php?error=1".toList)).1 _ _ _ rfl rfl rfl).2.1 (by decide)⟩

/-- C14: at every point of a run of `writeCacheAtomic` (before the temporary write, during
it, after it, after the rename) the content at the cache file path is either what it was
before the run or the new complete document `{data, lastUpdated, summary}`; the last point
is the file system the function leaves.  When the run stops during the temporary write or
before the rename has happened, the cache file path has its previous content at every
point; when the run succeeds it ends with the new complete document. -/
theorem writeCacheAtomic_atomic (fs : FileSystem) (data : List Row) (summary : Summary)
    (stamp : JSString) (fault : WriteFault) :
    (∀ st ∈ writeCacheAtomicStates fs data summary stamp fault,
      st.cacheFile = fs.cacheFile ∨
      st.cacheFile = some (.complete
        { data := data, lastUpdated := stamp, summary := summary })) ∧
    (writeCacheAtomicStates fs data summary stamp fault).head? = some fs ∧
    (writeCacheAtomicStates fs data summary stamp fault).getLast? =
      some (writeCacheAtomic fs data summary stamp fault).1 ∧
    (fault ≠ .none → ∀ st ∈ writeCacheAtomicStates fs data summary stamp fault,
      st.cacheFile = fs.cacheFile) ∧
    (fault = .none →
      (writeCacheAtomic fs data summary stamp fault).1.cacheFile =
        some (.complete { data := data, lastUpdated := stamp, summary := summary })) := by
  cases fault with
  | none =>
    refine ⟨?_, rfl, rfl, fun h => absurd rfl h, fun _ => rfl⟩
    intro st hst
    simp only [writeCacheAtomicStates, List.mem_cons, List.mem_singleton,
      List.not_mem_nil, or_false] at hst
    rcases hst with rfl | rfl | rfl | rfl
    · exact Or.inl rfl
    · exact Or.inl rfl
    · exact Or.inl rfl
    · exact Or.inr rfl
  | duringTempWrite msg =>
    have hall : ∀ st ∈ writeCacheAtomicStates fs data summary stamp (.duringTempWrite msg),
        st.cacheFile = fs.cacheFile := by
      intro st hst
      simp only [writeCacheAtomicStates, List.mem_cons, List.mem_singleton,
        List.not_mem_nil, or_false] at hst
      rcases hst with rfl | rfl <;> rfl
    exact ⟨fun st hst => Or.inl (hall st hst), rfl, rfl, fun _ => hall,
      fun h => absurd h (by simp)⟩
  | atRename msg =>
    have hall : ∀ st ∈ writeCacheAtomicStates fs data summary stamp (.atRename msg),
        st.cacheFile = fs.cacheFile := by
      intro st hst
      simp only [writeCacheAtomicStates, List.mem_cons, List.mem_singleton,
        List.not_mem_nil, or_false] at hst
      rcases hst with rfl | rfl | rfl <;> rfl
    exact ⟨fun st hst => Or.inl (hall st hst), rfl, rfl, fun _ => hall,
      fun h => absurd h (by simp)⟩

/-- Instance of C14: a writer stopped while writing the temporary file leaves the earlier
cache document in place. -/
theorem writeCacheAtomic_atomic_witness :
    (writeCacheAtomic earlierFiles twelveRows
      { totalRows := 12, enrichedTotal := 12, enrichedSuccess := 7, enrichedFailed := 5 }
      "2024-05-01T08:00:02.000Z".toList (.duringTempWrite "ENOSPC".toList)).1.cacheFile
      = earlierFiles.cacheFile :=
  (writeCacheAtomic_atomic earlierFiles twelveRows
    { totalRows := 12, enrichedTotal := 12, enrichedSuccess := 7, enrichedFailed := 5 }
    "2024-05-01T08:00:02.000Z".toList (.duringTempWrite "ENOSPC".toList)).2.2.2.1
    (by simp) _ (List.mem_of_mem_getLast? rfl)

/-- C15 fails on the code: the two status endpoints disagree where the lifecycle has the
states `idle` and `completed`.  Before any job has been triggered `GET
/api/mantis/refresh-status` reports `completed` (it never reports `idle`), while `GET
/api/mantis/status/:id` reports `idle`; and after a job that ended without error on an
export of zero rows `GET /api/mantis/status/:id` reports `idle`, while `GET
/api/mantis/refresh-status` reports `completed`. -/
theorem status_endpoints_disagree :
    refreshStatus idleJob = .completed ∧ ticketStatus idleJob = .idle ∧
    (∀ job, refreshStatus job ≠ .idle) ∧
    (∃ job fs2, runRefreshJob 0 zeroRowInputs earlierFiles = some (job, fs2) ∧
      job.error = none ∧ job.isRunning = false ∧ job.total = 0 ∧
      ticketStatus job = .idle ∧ refreshStatus job = .completed) := by
  refine ⟨rfl, rfl, ?_, ⟨_, _, rfl, rfl, rfl, rfl, rfl, rfl⟩⟩
  intro job
  unfold refreshStatus
  split
  · simp
  · split <;> simp

/-- What the status endpoints do: both report `running` exactly while a job is in progress
(`isRunning`), and `failed` exactly when no job is in progress and a non-empty error
message is recorded; `GET /api/mantis/status/:id` reports `idle` exactly when no job is in
progress, no error is recorded and `total = 0`, and `completed` exactly when no job is in
progress, no error is recorded and `total > 0`.  Along the lifecycle: a started job is
reported `running`; a job that has ended is reported `failed` by both endpoints when it
recorded a non-empty message, and `completed` by `refresh-status` when it recorded none,
and by `status/:id` too when it had rows. -/
theorem status_lifecycle (job : RefreshJob) :
    (refreshStatus job = .running ↔ job.isRunning = true) ∧
    (ticketStatus job = .running ↔ job.isRunning = true) ∧
    (refreshStatus job = .failed ↔ job.isRunning = false ∧ truthy job.error = true) ∧
    (ticketStatus job = .failed ↔ job.isRunning = false ∧ truthy job.error = true) ∧
    (ticketStatus job = .idle ↔
      job.isRunning = false ∧ truthy job.error = false ∧ job.total = 0) ∧
    (ticketStatus job = .completed ↔
      job.isRunning = false ∧ truthy job.error = false ∧ 0 < job.total) ∧
    ticketStatus idleJob = .idle ∧
    (∀ startIso, refreshStatus (startJob startIso) = .running ∧
      ticketStatus (startJob startIso) = .running) ∧
    (∀ fuel inp fs fs2, runRefreshJob fuel inp fs = some (job, fs2) →
      (truthy job.error = true → refreshStatus job = .failed ∧ ticketStatus job = .failed) ∧
      (job.error = none → refreshStatus job = .completed ∧
        (0 < job.total → ticketStatus job = .completed))) := by
  have hcases : ∀ (r e : Bool) (t : Nat), job.isRunning = r → truthy job.error = e →
      job.total = t →
      (refreshStatus job = .running ↔ r = true) ∧ (ticketStatus job = .running ↔ r = true) ∧
      (refreshStatus job = .failed ↔ r = false ∧ e = true) ∧
      (ticketStatus job = .failed ↔ r = false ∧ e = true) ∧
      (ticketStatus job = .idle ↔ r = false ∧ e = false ∧ t = 0) ∧
      (ticketStatus job = .completed ↔ r = false ∧ e = false ∧ 0 < t) := by
    intro r e t hr he ht
    unfold refreshStatus ticketStatus
    rw [hr, he, ht]
    cases r <;> cases e <;> rcases Nat.eq_zero_or_pos t with h0 | h0 <;>
      simp [h0, Nat.pos_iff_ne_zero.1]
  obtain ⟨a1, a2, a3, a4, a5, a6⟩ := hcases _ _ _ rfl rfl rfl
  refine ⟨a1, a2, a3, a4, a5, a6, rfl, fun _ => ⟨rfl, rfl⟩, ?_⟩
  intro fuel inp fs fs2 hrun
  have hnr := runRefreshJob_not_running fuel inp fs fs2 job hrun
  refine ⟨fun he => ⟨a3.2 ⟨hnr, he⟩, a4.2 ⟨hnr, he⟩⟩, fun he => ?_⟩
  have het : truthy job.error = false := by rw [he]; rfl
  refine ⟨?_, fun ht => a6.2 ⟨hnr, het, ht⟩⟩
  unfold refreshStatus
  simp [hnr, het]

/-- Once the job of twelve rows has ended, both endpoints report `completed`, and the
initial state is reported `idle` by `status/:id`. -/
theorem status_lifecycle_witness :
    (∃ job fs2, runRefreshJob 12 twelveRowInputs earlierFiles = some (job, fs2) ∧
      refreshStatus job = .completed ∧ ticketStatus job = .completed) ∧
    ticketStatus idleJob = .idle :=
  ⟨⟨_, _, rfl,
    ((status_lifecycle _).2.2.2.2.2.2.2.2 12 twelveRowInputs earlierFiles _ rfl).2 rfl |>.1,
    ((status_lifecycle _).2.2.2.2.2.2.2.2 12 twelveRowInputs earlierFiles _ rfl).2 rfl |>.2
      (by decide)⟩,
    (status_lifecycle idleJob).2.2.2.2.2.2.1⟩

/-- C20, as stated, fails.  On the page with the row
`<tr><td>P5</td><td>Priorité</td><td>P2 - Majeure</td></tr>` strategy 1 finds nothing, the
second cell carries the label and its next sibling starts with `P2`, yet `fetchPriority`
returns `P5` with the reason `match_direct_cell_pattern`: strategy 2 looks only at `th`
cells and at `td` cells of class `category`. -/
theorem flexible_label_claim_counterexample :
    strategy1 plainLabelPage = none ∧
    (plainLabelCell, [valueCell]) ∈ selectWithSiblings isThOrTd plainLabelPage ∧
    LabelCell (plainLabelCell, [valueCell]) '2' ∧
    strategy2 plainLabelPage = none ∧
    (fetchPriority [] "1234".toList 0 (.ok plainLabelPage) 7).value = "P5".toList ∧
    (fetchPriority [] "1234".toList 0 (.ok plainLabelPage) 7).cache.get "1234".toList =
      some { value := "P5".toList, timestamp := 7, reason := .match_direct_cell_pattern } :=
  ⟨by decide,
    List.mem_cons_of_mem _ (List.mem_cons_self _ _),
    ⟨Or.inl (by decide), " - Majeure".toList, by decide, by decide, by decide⟩,
    by decide, by decide, by decide⟩

/-- C20, amended: on a cache miss, for every page on which strategy 1 finds no match and on
which some cell selected by `td.category, th` has a trimmed, lower-cased text equal to
`priorité` or `priorite` and a next sibling element whose trimmed text starts with `P`
followed by a digit 1-9, `fetchPriority` returns that two-character token, taken from the
first such cell in document order, and stores it with the reason
`match_flexible_label`. -/
theorem fetchPriority_flexible_label (cache : PriorityCache) (id : JSString)
    (now stamp : Int) (doc : Document) (hmiss : isFresh (cache.get id) now = false)
    (h1 : strategy1 doc = none)
    (h2 : ∃ e ∈ selectWithSiblings isCategoryTdOrTh doc, ∃ d, LabelCell e d) :
    ∃ pre e0 post d0, selectWithSiblings isCategoryTdOrTh doc = pre ++ e0 :: post ∧
      (∀ y ∈ pre, ∀ d, ¬ LabelCell y d) ∧ LabelCell e0 d0 ∧
      (fetchPriority cache id now (.ok doc) stamp).value = ['P', d0] ∧
      (fetchPriority cache id now (.ok doc) stamp).requested = true ∧
      (fetchPriority cache id now (.ok doc) stamp).cache.get id =
        some { value := ['P', d0], timestamp := stamp, reason := .match_flexible_label } := by
  have hex : ∃ x ∈ selectWithSiblings isCategoryTdOrTh doc, (labelToken x).isSome = true := by
    obtain ⟨e, hin, d, hl⟩ := h2
    exact ⟨e, hin, by rw [(labelToken_eq_some e d).2 hl]; rfl⟩
  obtain ⟨pre, e0, post, v, hsplit, hpre, hv, hfind⟩ := findSome?_first labelToken _ hex
  obtain ⟨d0, rfl⟩ := labelToken_shape e0 v hv
  have hext : extractPriority doc = (['P', d0], .match_flexible_label) := by
    unfold extractPriority
    rw [h1]
    unfold strategy2
    rw [hfind]
  refine ⟨pre, e0, post, d0, hsplit, ?_, (labelToken_eq_some e0 d0).1 hv, ?_, ?_, ?_⟩
  · intro r hr d hl
    have := hpre r hr
    rw [(labelToken_eq_some r d).2 hl] at this
    exact absurd this (by simp)
  · rw [fetchPriority_miss_ok cache id now stamp doc hmiss, hext]
  · rw [fetchPriority_miss_ok cache id now stamp doc hmiss]
  · rw [fetchPriority_miss_ok cache id now stamp doc hmiss, hext]
    exact PriorityCache.get_set _ _ _

/-- Instance of the amended C20: the label in a `td` cell of class `category`, second in
its row, gives `P2`. -/
theorem fetchPriority_flexible_label_witness :
    isFresh (PriorityCache.get [] "1234".toList) 0 = false ∧
    strategy1 categoryLabelPage = none ∧
    (∃ e ∈ selectWithSiblings isCategoryTdOrTh categoryLabelPage, ∃ d, LabelCell e d) ∧
    (∃ pre e0 post d0,
      selectWithSiblings isCategoryTdOrTh categoryLabelPage = pre ++ e0 :: post ∧
      (∀ y ∈ pre, ∀ d, ¬ LabelCell y d) ∧ LabelCell e0 d0 ∧
      (fetchPriority [] "1234".toList 0 (.ok categoryLabelPage) 7).value = ['P', d0] ∧
      (fetchPriority [] "1234".toList 0 (.ok categoryLabelPage) 7).requested = true ∧
      (fetchPriority [] "1234".toList 0 (.ok categoryLabelPage) 7).cache.get "1234".toList =
        some { value := ['P', d0], timestamp := 7, reason := .match_flexible_label }) ∧
    (fetchPriority [] "1234".toList 0 (.ok categoryLabelPage) 7).value = "P2".toList :=
  have h2 : ∃ e ∈ selectWithSiblings isCategoryTdOrTh categoryLabelPage, ∃ d,
      LabelCell e d :=
    ⟨(categoryLabelCell, [valueCell]), List.mem_singleton.2 rfl, '2', Or.inl (by decide),
      " - Majeure".toList, by decide, by decide, by decide⟩
  ⟨by decide, by decide, h2,
    fetchPriority_flexible_label [] "1234".toList 0 7 categoryLabelPage (by decide)
      (by decide) h2,
    by decide⟩

/-- C16: for every ticket id, when fetching or parsing the detail page fails (with whatever
message) `fetchFullIssueDetails` returns `null`, and when it does not fail the function
returns a detail record carrying the id, with its three text fields, its notes and its
attachments read from the page; being a total function of the response, it never throws to
its caller. -/
theorem fetchFullIssueDetails_null_iff_failure (issueId : JSString) :
    (∀ msg, fetchFullIssueDetails (.error msg) issueId = none) ∧
    (∀ doc, ∃ d, fetchFullIssueDetails (.ok doc) issueId = some d ∧ d.id = issueId ∧
      d.notes = extractNotes doc ∧ d.attachments = extractAttachments doc) ∧
    (∀ response, fetchFullIssueDetails response issueId = none ↔
      ∃ msg, response = .error msg) := by
  refine ⟨fun _ => rfl, fun doc => ⟨_, rfl, ?_, rfl, rfl⟩, ?_⟩
  · unfold extractDetails
    simp only []
    generalize selectWithSiblings isCategoryTd doc = cells
    suffices h : ∀ (start : IssueDetails), start.id = issueId →
        (cells.foldl detailFieldStep start).id = issueId from h _ rfl
    induction cells with
    | nil => intro start hs; exact hs
    | cons e rest ih =>
      intro start hs
      simp only [List.foldl_cons]
      apply ih
      unfold detailFieldStep
      simp only []
      split
      · exact hs
      · split
        · exact hs
        · split
          · exact hs
          · exact hs
  · intro response
    cases response with
    | error msg => exact ⟨fun _ => ⟨msg, rfl⟩, fun _ => rfl⟩
    | ok doc =>
      constructor
      · intro h
        exact absurd h (by simp [fetchFullIssueDetails])
      · rintro ⟨msg, h⟩
        cases h

/-- Instances of C16: a request that times out, and a page with a description, a note and
an attachment. -/
theorem fetchFullIssueDetails_null_iff_failure_witness :
    fetchFullIssueDetails (.error "timeout of 15000ms exceeded".toList) "42".toList = none ∧
    fetchFullIssueDetails (.ok detailPage) "42".toList =
      some { id := "42".toList, description := "Le bouton ne répond pas.".toList,
             steps_to_reproduce := [], additional_info := [],
             notes := [{ author := "alice dupont".toList,
                         date := some "2024-05-01 10:00".toList,
                         text := "Reproduit.".toList }],
             attachments := [{ name := "capture.png".toList,
                               url := "file_download.php?file_id=7".toList }] } :=
  ⟨(fetchFullIssueDetails_null_iff_failure "42".toList).1 _, by decide⟩

/-- C17, as stated, fails.  A row whose domain field is ` sd ` is selected for the requested
domain `SD`, although the two are not equal up to letter case (the field is trimmed first);
and a row whose domain field is ` sd`, equal up to letter case to the requested domain
` SD`, is not selected (the requested domain is not trimmed). -/
theorem domain_filter_claim_counterexample :
    (selectIssues [sdRow] "SD".toList = [sdRow] ∧
      toUpperCase (domainField sdRow) ≠ toUpperCase "SD".toList) ∧
    (toUpperCase (domainField [("Domaine (Toray)".toList, " sd".toList)])
        = toUpperCase " SD".toList ∧
      selectIssues [[("Domaine (Toray)".toList, " sd".toList)]] " SD".toList = []) :=
  ⟨⟨by decide, by decide⟩, ⟨by decide, by decide⟩⟩

/-- C17, amended: for every cached row and every requested domain, the row is selected for
processing if and only if its domain field (`Domaine (Toray)`, or `domaine` when that is
empty or missing), trimmed and upper-cased, equals the upper-cased requested domain; the
selected rows keep their order in the cache. -/
theorem selectIssues_spec (rows : List Row) (domain : JSString) :
    (∀ row, row ∈ selectIssues rows domain ↔
      row ∈ rows ∧ toUpperCase (trim (domainField row)) = toUpperCase domain) ∧
    (selectIssues rows domain).Sublist rows := by
  refine ⟨?_, List.filter_sublist _⟩
  intro row
  simp [selectIssues, matchesDomain]

/-- Instance of the amended C17: of three cached rows the two of domain `SD` are selected,
in their order; and a row of domain `Main d'œuvre` is selected for the request
`MAIN D'ŒUVRE`, the upper-casing being that of every cased letter. -/
theorem selectIssues_spec_witness :
    selectIssues [sdRow, financeRow, sdRowWithoutId] "sd".toList = [sdRow, sdRowWithoutId] ∧
    selectIssues [financeRow, oeuvreRow] "MAIN D\x27ŒUVRE".toList = [oeuvreRow] ∧
    toUpperCase "Main d\x27œuvre, Straße, ſ".toList = "MAIN D\x27ŒUVRE, STRASSE, S".toList ∧
    (sdRow ∈ selectIssues [sdRow, financeRow, sdRowWithoutId] "sd".toList ↔
      sdRow ∈ [sdRow, financeRow, sdRowWithoutId] ∧
        toUpperCase (trim (domainField sdRow)) = toUpperCase "sd".toList) :=
  ⟨by decide, by decide, by decide,
    (selectIssues_spec [sdRow, financeRow, sdRowWithoutId] "sd".toList).1 sdRow⟩

/-- C18 fails on the code: with a cache whose only row of the domain `SD` has neither
`Identifiant` nor `id`, the extraction job for `SD` is aborted.  The callback of the row
throws at `idAttr.replace`, and the job ends with the status `failed`, the message of that
error, `current = 0` of `total = 1` and `progress = 0`. -/
theorem extract_job_missing_identifier :
    selectIssues [financeRow, sdRowWithoutId] "SD".toList = [sdRowWithoutId] ∧
    extractIdAttr sdRowWithoutId = none ∧
    (runExtractJob sdExtractInputs (cacheFileOf [financeRow, sdRowWithoutId])).status
      = .failed ∧
    (runExtractJob sdExtractInputs (cacheFileOf [financeRow, sdRowWithoutId])).error
      = some "Cannot read properties of undefined (reading \x27replace\x27)".toList ∧
    (runExtractJob sdExtractInputs (cacheFileOf [financeRow, sdRowWithoutId])).current = 0 ∧
    (runExtractJob sdExtractInputs (cacheFileOf [financeRow, sdRowWithoutId])).total = 1 ∧
    (runExtractJob sdExtractInputs (cacheFileOf [financeRow, sdRowWithoutId])).progress = 0 ∧
    (runExtractJob sdExtractInputs (cacheFileOf [financeRow, sdRowWithoutId])).data = [] :=
  ⟨by decide, by decide, by decide, by decide, by decide, by decide, rfl, by decide⟩

/-- C19, as stated, fails: the code compares normalized values and reads other column
names, the rules name one column and one value.  A row resolved and assigned to
`Yann.Deschamps` counts as resolved for the code and as in progress for the rules (the
name differs from `yann.deschamps`); a row carrying its values under `domaine`, `category`
and `status` is counted by the code and not by the rules, for it has no `Domaine (Toray)`
column. -/
theorem copro_claim_counterexample :
    (computeCoproSummary (some [resolvedRow])).resolues.projet.total = 1 ∧
    (coproReference [resolvedRow]).resolues.projet.total = 0 ∧
    (coproReference [resolvedRow]).encours.projet.total = 1 ∧
    (computeCoproSummary (some [aliasRow])).encours.evolution.total = 1 ∧
    (coproReference [aliasRow]).encours.evolution.total = 0 ∧
    computeCoproSummary (some [resolvedRow]) ≠ coproReference [resolvedRow] ∧
    computeCoproSummary (some [aliasRow]) ≠ coproReference [aliasRow] :=
  ⟨by decide, by decide, by decide, by decide, by decide, by decide, by decide⟩

/-- C19, amended: `computeCoproSummary` equals the reference definition given by
`COPRO_RULES` once every column is read from its French header or, when that is empty or
missing, from its other names (`domaine`, `category`, `Etat` or `status`, `handler`), and
the values are compared after trimming and lower-casing (the enriched priority after
trimming and upper-casing): for every list of rows each counter is the number of rows
the rules count for it; an empty or missing row list gives all zeros. -/
theorem computeCoproSummary_eq_reference :
    (∀ rows : List Row, computeCoproSummary (some rows) = coproReferenceNormalized rows) ∧
    computeCoproSummary none = zeroStats ∧ computeCoproSummary (some []) = zeroStats := by
  refine ⟨?_, rfl, rfl⟩
  intro rows
  show (if rows.length = 0 then zeroStats else rows.foldl coproStep zeroStats) = _
  by_cases h : rows.length = 0
  · rw [if_pos h, List.length_eq_zero.1 h]
    simp only [coproReferenceNormalized, countSummary_nil]
  · rw [if_neg h, foldl_coproStep, CoproStats.zero_add]

/-- Instance of the amended C19 on three rows. -/
theorem computeCoproSummary_eq_reference_witness :
    computeCoproSummary (some [resolvedRow, aliasRow, newProjectRow]) =
      coproReferenceNormalized [resolvedRow, aliasRow, newProjectRow] ∧
    computeCoproSummary (some [resolvedRow, aliasRow, newProjectRow]) =
      { encours := { projet := ⟨1, 0, 1⟩, evolution := ⟨1, 0, 0⟩ },
        resolues := { projet := ⟨1, 1, 0⟩, evolution := ⟨0, 0, 0⟩ } } :=
  ⟨computeCoproSummary_eq_reference.1 _, by decide⟩

/-- C22: every row of a bulk refresh adds 1 to `current` and 1 to exactly one of `success`
and `failed`.  A row without identifier (neither `Identifiant` nor `id` is non-empty) adds
to `success` and is left as it is, whatever the priority look-ups would give (none is
made).  A row with an identifier adds to `success` exactly when the look-up returns a
non-empty value other than `ERR`, and to `failed` when it returns the empty string or
`ERR`, or throws. -/
theorem processRow_counts (fetch : Nat → JSString → Except JSString JSString)
    (clock : Nat → JSString) (idx : Nat) (row : Row) (job : RefreshJob) :
    (processRow fetch clock idx row job).2.current = job.current + 1 ∧
    (((processRow fetch clock idx row job).2.success = job.success + 1 ∧
        (processRow fetch clock idx row job).2.failed = job.failed) ∨
      ((processRow fetch clock idx row job).2.success = job.success ∧
        (processRow fetch clock idx row job).2.failed = job.failed + 1)) ∧
    (truthy (row.get "Identifiant".toList) = false → truthy (row.get "id".toList) = false →
      (processRow fetch clock idx row job).1 = row ∧
      (processRow fetch clock idx row job).2.success = job.success + 1 ∧
      (processRow fetch clock idx row job).2.failed = job.failed ∧
      ∀ fetch2, processRow fetch2 clock idx row job = processRow fetch clock idx row job) ∧
    (∀ idAttr, rowIdentifier row = some idAttr →
      (∀ val, fetch idx (stripLeadingZeros idAttr) = .ok val →
        ((processRow fetch clock idx row job).2.success = job.success + 1 ↔
          val ≠ [] ∧ val ≠ "ERR".toList) ∧
        ((processRow fetch clock idx row job).2.failed = job.failed + 1 ↔
          val = [] ∨ val = "ERR".toList)) ∧
      (∀ m, fetch idx (stripLeadingZeros idAttr) = .error m →
        (processRow fetch clock idx row job).2.success = job.success ∧
        (processRow fetch clock idx row job).2.failed = job.failed + 1)) := by
  refine ⟨?_, ?_, ?_, ?_⟩
  · exact (processRow_advanced fetch clock idx row job).1
  · unfold processRow
    cases h1 : rowIdentifier row with
    | none => exact Or.inl ⟨rfl, rfl⟩
    | some idAttr =>
      cases h2 : fetch idx (stripLeadingZeros idAttr) with
      | error m =>
        right
        simp only [h2, and_self]
      | ok val =>
        by_cases hv : (!val.isEmpty && val != "ERR".toList) = true
        · left
          simp only [h2, hv, if_true, and_self]
        · right
          simp only [h2, hv, Bool.false_eq_true, if_false, and_self]
  · intro hi1 hi2
    have hnone : rowIdentifier row = none := (rowIdentifier_eq_none row).2 ⟨hi1, hi2⟩
    have hfree : ∀ f, processRow f clock idx row job =
        (row, { job with success := job.success + 1, current := job.current + 1,
                         lastUpdate := some (clock idx) }) := by
      intro f
      unfold processRow
      simp only [hnone]
    rw [hfree fetch]
    exact ⟨rfl, rfl, rfl, fun f => hfree f⟩
  · intro idAttr hid
    constructor
    · intro val hval
      by_cases hv : (!val.isEmpty && val != "ERR".toList) = true
      · have hres : (processRow fetch clock idx row job).2 =
            { job with success := job.success + 1, current := job.current + 1,
                       lastUpdate := some (clock idx) } := by
          unfold processRow
          simp only [hid, hval, hv, if_true]
        rw [hres]
        simp only [Bool.and_eq_true, Bool.not_eq_true', bne_iff_ne, ne_eq,
          List.isEmpty_eq_true] at hv
        have h1 : val ≠ [] := by
          intro h
          rw [h] at hv
          exact absurd hv.1 (by simp)
        constructor
        · exact ⟨fun _ => ⟨h1, hv.2⟩, fun _ => rfl⟩
        · constructor
          · intro h
            exact absurd h (by simp)
          · rintro (h | h)
            · exact absurd h h1
            · exact absurd h hv.2
      · have hres : (processRow fetch clock idx row job).2 =
            { job with failed := job.failed + 1, current := job.current + 1,
                       lastUpdate := some (clock idx) } := by
          unfold processRow
          simp only [hid, hval, hv, Bool.false_eq_true, if_false]
        rw [hres]
        have hor : val = [] ∨ val = "ERR".toList := by
          by_cases h1 : val = []
          · exact Or.inl h1
          · right
            by_contra h2
            apply hv
            have hne : (val != "ERR".toList) = true := by
              simp only [bne_iff_ne, ne_eq]
              exact h2
            have hemp : val.isEmpty = false := by
              cases val with
              | nil => exact absurd rfl h1
              | cons c cs => rfl
            rw [hemp, hne]
            rfl
        constructor
        · constructor
          · intro h
            exact absurd h (by simp)
          · rintro ⟨h1, h2⟩
            rcases hor with h | h
            · exact absurd h h1
            · exact absurd h h2
        · exact ⟨fun _ => hor, fun _ => rfl⟩
    · intro m hm
      unfold processRow
      simp only [hid, hm, and_self]

/-- Instances of C22: a row with an empty identifier counts as a success and is left
alone; a row whose look-up returns `ERR` counts as a failure. -/
theorem processRow_counts_witness :
    (processRow (fun _ _ => .ok "ERR".toList) (fun _ => "2024-05-01T08:00:01.000Z".toList) 0
        rowWithEmptyId idleJob).1 = rowWithEmptyId ∧
    (processRow (fun _ _ => .ok "ERR".toList) (fun _ => "2024-05-01T08:00:01.000Z".toList) 0
        rowWithEmptyId idleJob).2.success = 1 ∧
    (processRow (fun _ _ => .ok "ERR".toList) (fun _ => "2024-05-01T08:00:01.000Z".toList) 0
        paddedRow idleJob).2.failed = 1 :=
  have h := (processRow_counts (fun _ _ => .ok "ERR".toList)
    (fun _ => "2024-05-01T08:00:01.000Z".toList) 0 rowWithEmptyId idleJob).2.2.1
    (by decide) (by decide)
  ⟨h.1, h.2.1,
    (((processRow_counts (fun _ _ => .ok "ERR".toList)
      (fun _ => "2024-05-01T08:00:01.000Z".toList) 0 paddedRow idleJob).2.2.2
      "0004217".toList (by decide)).1 "ERR".toList rfl).2.2 (Or.inr rfl)⟩

/-- C23: for every exported row with an identifier, the priority is looked up under the
identifier deprived of all its leading zeros, and the row keeps its fields: after the
enrichment every field other than `priorite_p` (so `Identifiant`) has the value it had,
and `priorite_p` is the value the look-up returned for the stripped identifier (in
particular the value returned by `fetchPriority` when the look-up is that call). -/
theorem processRow_keeps_fields (fetch : Nat → JSString → Except JSString JSString)
    (clock : Nat → JSString) (idx : Nat) (row : Row) (job : RefreshJob) (idAttr : JSString)
    (hid : rowIdentifier row = some idAttr) :
    (∀ key, key ≠ "priorite_p".toList →
      (processRow fetch clock idx row job).1.get key = row.get key) ∧
    (processRow fetch clock idx row job).1.get "Identifiant".toList
      = row.get "Identifiant".toList ∧
    (∀ val, fetch idx (stripLeadingZeros idAttr) = .ok val →
      (processRow fetch clock idx row job).1.get "priorite_p".toList = some val) ∧
    (∃ k, idAttr = List.replicate k '0' ++ stripLeadingZeros idAttr) ∧
    (stripLeadingZeros idAttr).head? ≠ some '0' ∧
    (∀ (cache : PriorityCache) (now stamp : Int) (response : Except JSString Document),
      (processRow
        (fun _ id => .ok (fetchPriority cache id now response stamp).value)
        clock idx row job).1.get "priorite_p".toList =
      some (fetchPriority cache (stripLeadingZeros idAttr) now response stamp).value) := by
  have hother : ∀ (f : Nat → JSString → Except JSString JSString) key,
      key ≠ "priorite_p".toList → (processRow f clock idx row job).1.get key = row.get key := by
    intro f key hkey
    unfold processRow
    simp only [hid]
    cases h2 : f idx (stripLeadingZeros idAttr) with
    | error m => exact Row.get_set_other _ _ _ _ hkey
    | ok val => exact Row.get_set_other _ _ _ _ hkey
  have hprio : ∀ (f : Nat → JSString → Except JSString JSString) val,
      f idx (stripLeadingZeros idAttr) = .ok val →
      (processRow f clock idx row job).1.get "priorite_p".toList = some val := by
    intro f val hval
    unfold processRow
    simp only [hid, hval]
    exact Row.get_set_same _ _ _
  exact ⟨hother fetch, hother fetch _ (by decide), hprio fetch,
    (stripLeadingZeros_spec idAttr).1, (stripLeadingZeros_spec idAttr).2,
    fun cache now stamp response => hprio _ _ rfl⟩

/-- Instance of C23: the row of identifier `0004217` is looked up under `4217` and keeps
its identifier. -/
theorem processRow_keeps_fields_witness :
    rowIdentifier paddedRow = some "0004217".toList ∧
    stripLeadingZeros "0004217".toList = "4217".toList ∧
    (processRow (fun _ id => if id = "4217".toList then .ok "P2".toList else .ok [])
      (fun _ => "2024-05-01T08:00:01.000Z".toList) 0 paddedRow idleJob).1.get
        "Identifiant".toList = some "0004217".toList ∧
    (processRow (fun _ id => if id = "4217".toList then .ok "P2".toList else .ok [])
      (fun _ => "2024-05-01T08:00:01.000Z".toList) 0 paddedRow idleJob).1.get
        "priorite_p".toList = some "P2".toList :=
  have h := processRow_keeps_fields
    (fun _ id => if id = "4217".toList then .ok "P2".toList else .ok [])
    (fun _ => "2024-05-01T08:00:01.000Z".toList) 0 paddedRow idleJob "0004217".toList
    (by decide)
  ⟨by decide, by decide, h.2.1.trans (by decide), h.2.2.1 "P2".toList rfl⟩

/-- C21: for every row list and every positive concurrency `c`, the enrichment loop ends
(within as many iterations as there are rows) and its iterations take the rows in
consecutive chunks in input order: iteration `k` starts at index `k * c` and reads the rows
`rows[k*c .. (k+1)*c)`; every chunk has between 1 and `c` rows and only the last may have
fewer than `c`; the concatenation of the chunks is the row list; every row of a chunk
completes in its iteration, and an iteration starts from the job state reached when the
last row of the previous chunk has completed, all rows of the earlier chunks being counted
in `current`: the rows in flight are rows of one chunk, at most `c`. -/
theorem refresh_chunking (fetch : Nat → JSString → Except JSString JSString)
    (clock : Nat → JSString) (c : Int) (hc : 0 < c) (rows : List Row) (job : RefreshJob)
    (fuel : Nat) (hfuel : rows.length ≤ fuel) :
    ∃ runs out, enrichLoopTrace fetch clock (some c) fuel 0 rows job = some (runs, out) ∧
      enrichLoop fetch clock (some c) fuel 0 rows job = some out ∧
      (∀ (k : Nat) (run : ChunkRun), runs[k]? = some run →
        run.start = (k : Int) * c ∧
        run.rows = (rows.drop (k * c.toNat)).take c.toNat ∧
        run.before.current = job.current + k * c.toNat ∧
        (k + 1 < runs.length → run.rows.length = c.toNat) ∧
        (∀ next, runs[k + 1]? = some next → next.before = run.after)) ∧
      (∀ run ∈ runs, 1 ≤ run.rows.length ∧ run.rows.length ≤ c.toNat ∧
        run.states.length = run.rows.length ∧
        (∀ j st, run.states[j]? = some st → st.current = run.before.current + (j + 1)) ∧
        run.after.current = run.before.current + run.rows.length) ∧
      (runs.map ChunkRun.rows).flatten = rows ∧
      out.1.length = rows.length ∧ out.2.current = job.current + rows.length := by
  obtain ⟨runs, out, h1, _⟩ := enrichLoopTrace_positive fetch clock c hc fuel 0 (le_refl 0)
    rows job (by simpa using hfuel)
  obtain ⟨h2, h3, h4, h5⟩ := enrichLoopTrace_chunked fetch clock c hc fuel rows job runs out h1
  have hcn : 0 < c.toNat := by omega
  refine ⟨runs, out, h1, h3, ?_, ?_, ChunkedFrom_flatten _ _ _ _ _ h2, h4, h5.1⟩
  · intro k run hk
    obtain ⟨q1, q2, q3, q4, q5⟩ := ChunkedFrom_index c.toNat 0 hcn job rows runs h2 k run hk
    refine ⟨?_, q2, q3.1, q4, q5⟩
    rw [q1]
    push_cast
    rw [Int.toNat_of_nonneg (le_of_lt hc)]
    omega
  · intro run hrun
    obtain ⟨s1, s2, s3⟩ := ChunkedFrom_sizes c.toNat 0 hcn job rows runs h2 run hrun
    obtain ⟨s4, s5⟩ := ChunkedFrom_run_states c.toNat 0 hcn job rows runs h2 run hrun
    exact ⟨s1, s2, s3, fun j st hj => (s4 j st hj).1, s5.1⟩

/-- Instance of C21: twelve rows with concurrency 5 are taken in three chunks, of 5, 5 and
2 rows, whose concatenation is the row list. -/
theorem refresh_chunking_witness :
    (0 : Int) < 5 ∧ twelveRows.length ≤ 12 ∧
    ∃ runs out, enrichLoopTrace twelveRowInputs.fetch twelveRowInputs.clock (some 5) 12 0
        twelveRows idleJob = some (runs, out) ∧
      (runs.map ChunkRun.rows).flatten = twelveRows ∧
      runs.map (fun run => run.rows.length) = [5, 5, 2] :=
  ⟨by decide, by decide,
    let ⟨runs, out, h1, _, _, _, h5, _⟩ :=
      refresh_chunking twelveRowInputs.fetch twelveRowInputs.clock 5 (by decide) twelveRows
        idleJob 12 (by decide)
    ⟨runs, out, h1, h5, by
      have h : enrichLoopTrace twelveRowInputs.fetch twelveRowInputs.clock (some 5) 12 0
          twelveRows idleJob = some (runs, out) := h1
      have hev : (enrichLoopTrace twelveRowInputs.fetch twelveRowInputs.clock (some 5) 12 0
          twelveRows idleJob).map (fun r => r.1.map (fun run => run.rows.length)) =
          some [5, 5, 2] := by decide
      rw [h] at hev
      simpa using hev⟩⟩

/-- C30: on a non-empty row list, the enrichment loop run with the concurrency read by
`parseInt` from the configuration (default `5`) ends having taken every row in exactly one
chunk, each row of a chunk completing, if and only if that concurrency is an integer
`c ≥ 1`; it then ends within as many iterations as there are rows, and whenever it has
ended it has run `⌈N / c⌉` iterations and completed `N` rows.  With an integer `c ≤ 0`
(so for `0`) it has not ended after any number of iterations; with `NaN` it ends after one
iteration whose chunk is empty, rows and job state unchanged. -/
theorem enrichLoop_terminates_iff (fetch : Nat → JSString → Except JSString JSString)
    (clock : Nat → JSString) (env : Env) (rows : List Row) (hrows : rows ≠ [])
    (job : RefreshJob) :
    ((∃ fuel runs out,
        enrichLoopTrace fetch clock (refreshConcurrency env) fuel 0 rows job =
          some (runs, out) ∧
        (runs.map ChunkRun.rows).flatten = rows ∧
        ∀ run ∈ runs, run.states.length = run.rows.length) ↔
      ∃ c, refreshConcurrency env = some c ∧ 1 ≤ c) ∧
    (∀ c, refreshConcurrency env = some c → 1 ≤ c →
      (∃ runs out,
        enrichLoopTrace fetch clock (refreshConcurrency env) rows.length 0 rows job =
          some (runs, out) ∧
        enrichLoop fetch clock (refreshConcurrency env) rows.length 0 rows job = some out) ∧
      ∀ fuel runs out,
        enrichLoopTrace fetch clock (refreshConcurrency env) fuel 0 rows job =
          some (runs, out) →
        runs.length = (rows.length + c.toNat - 1) / c.toNat ∧
        (runs.map ChunkRun.rows).flatten = rows ∧
        out.2.current = job.current + rows.length) ∧
    (∀ c, refreshConcurrency env = some c → c ≤ 0 → ∀ fuel,
      enrichLoop fetch clock (refreshConcurrency env) fuel 0 rows job = none ∧
      enrichLoopTrace fetch clock (refreshConcurrency env) fuel 0 rows job = none) ∧
    (refreshConcurrency env = none → ∀ fuel,
      enrichLoopTrace fetch clock (refreshConcurrency env) (fuel + 1) 0 rows job =
        some ([{ start := 0, rows := [], before := job, states := [] }], (rows, job)) ∧
      enrichLoop fetch clock (refreshConcurrency env) (fuel + 1) 0 rows job =
        some (rows, job)) ∧
    (env.MANTIS_ENRICH_CONCURRENCY = none ∨ env.MANTIS_ENRICH_CONCURRENCY = some [] →
      refreshConcurrency env = some 5) ∧
    (env.MANTIS_ENRICH_CONCURRENCY = some "0".toList → refreshConcurrency env = some 0) ∧
    (env.MANTIS_ENRICH_CONCURRENCY = some "abc".toList → refreshConcurrency env = none) := by
  have hpos : 0 < rows.length := List.length_pos.2 hrows
  have hnone : ∀ (c : Int), c ≤ 0 → ∀ fuel,
      enrichLoop fetch clock (some c) fuel 0 rows job = none ∧
      enrichLoopTrace fetch clock (some c) fuel 0 rows job = none := by
    intro c hc fuel
    have h1 := enrichLoop_nonpositive fetch clock c hc fuel 0 (le_refl 0) rows job hpos
    refine ⟨h1, ?_⟩
    have h2 := enrichLoopTrace_snd fetch clock (some c) fuel 0 rows job
    rw [h1] at h2
    cases hr : enrichLoopTrace fetch clock (some c) fuel 0 rows job with
    | none => rfl
    | some r => rw [hr] at h2; exact absurd h2 (by simp)
  have main : ∀ C : Option Int,
      ((∃ fuel runs out, enrichLoopTrace fetch clock C fuel 0 rows job = some (runs, out) ∧
          (runs.map ChunkRun.rows).flatten = rows ∧
          ∀ run ∈ runs, run.states.length = run.rows.length) ↔
        ∃ c, C = some c ∧ 1 ≤ c) ∧
      (∀ c, C = some c → 1 ≤ c →
        (∃ runs out, enrichLoopTrace fetch clock C rows.length 0 rows job = some (runs, out) ∧
          enrichLoop fetch clock C rows.length 0 rows job = some out) ∧
        ∀ fuel runs out, enrichLoopTrace fetch clock C fuel 0 rows job = some (runs, out) →
          runs.length = (rows.length + c.toNat - 1) / c.toNat ∧
          (runs.map ChunkRun.rows).flatten = rows ∧
          out.2.current = job.current + rows.length) ∧
      (∀ c, C = some c → c ≤ 0 → ∀ fuel,
        enrichLoop fetch clock C fuel 0 rows job = none ∧
        enrichLoopTrace fetch clock C fuel 0 rows job = none) ∧
      (C = none → ∀ fuel,
        enrichLoopTrace fetch clock C (fuel + 1) 0 rows job =
          some ([{ start := 0, rows := [], before := job, states := [] }], (rows, job)) ∧
        enrichLoop fetch clock C (fuel + 1) 0 rows job = some (rows, job)) := by
    intro C
    refine ⟨⟨?_, ?_⟩, ?_, ?_, ?_⟩
    · rintro ⟨fuel, runs, out, h1, h2, _⟩
      cases C with
      | none =>
        cases fuel with
        | zero =>
          rw [enrichLoopTrace_zero _ _ _ _ _ _ (by omega)] at h1
          exact absurd h1 (by simp)
        | succ fuel =>
          rw [enrichLoopTrace_nan fetch clock fuel rows job hrows] at h1
          simp only [Option.some.injEq, Prod.mk.injEq] at h1
          rw [← h1.1] at h2
          exact absurd h2.symm hrows
      | some c =>
        by_cases hc : 1 ≤ c
        · exact ⟨c, rfl, hc⟩
        · rw [(hnone c (by omega) fuel).2] at h1
          exact absurd h1 (by simp)
    · rintro ⟨c, hC, hc⟩
      subst hC
      obtain ⟨runs, out, h1, _⟩ := enrichLoopTrace_positive fetch clock c (by omega)
        rows.length 0 (le_refl 0) rows job (by simp)
      obtain ⟨h2, _, _, _⟩ := enrichLoopTrace_chunked fetch clock c (by omega) _ rows job
        runs out h1
      refine ⟨rows.length, runs, out, h1, ChunkedFrom_flatten _ _ _ _ _ h2, ?_⟩
      intro run hrun
      exact (ChunkedFrom_sizes c.toNat 0 (by omega) job rows runs h2 run hrun).2.2
    · intro c hC hc
      subst hC
      constructor
      · obtain ⟨runs, out, h1, _⟩ := enrichLoopTrace_positive fetch clock c (by omega)
          rows.length 0 (le_refl 0) rows job (by simp)
        exact ⟨runs, out, h1,
          (enrichLoopTrace_chunked fetch clock c (by omega) _ rows job runs out h1).2.1⟩
      · intro fuel runs out h1
        obtain ⟨h2, _, _, h5⟩ := enrichLoopTrace_chunked fetch clock c (by omega) fuel rows
          job runs out h1
        exact ⟨ChunkedFrom_length c.toNat 0 (by omega) job rows runs h2,
          ChunkedFrom_flatten _ _ _ _ _ h2, h5.1⟩
    · intro c hC hc fuel
      subst hC
      exact hnone c hc fuel
    · intro hC fuel
      subst hC
      have h1 := enrichLoopTrace_nan fetch clock fuel rows job hrows
      refine ⟨h1, ?_⟩
      rw [← enrichLoopTrace_snd, h1]
      rfl
  obtain ⟨m1, m2, m3, m4⟩ := main (refreshConcurrency env)
  refine ⟨m1, m2, m3, m4, ?_, ?_, ?_⟩
  · intro h
    unfold refreshConcurrency
    rcases h with h | h
    · rw [h]
      decide
    · rw [h]
      decide
  · intro h
    unfold refreshConcurrency
    rw [h]
    decide
  · intro h
    unfold refreshConcurrency
    rw [h]
    decide

/-- Instance of C30: twelve rows and no concurrency configured: the loop runs with the
default 5 and ends after 3 iterations. -/
theorem enrichLoop_terminates_iff_witness :
    twelveRows ≠ [] ∧ refreshConcurrency { sampleEnv with MANTIS_ENRICH_CONCURRENCY := none } =
      some 5 ∧
    ∀ fuel runs out,
      enrichLoopTrace twelveRowInputs.fetch twelveRowInputs.clock
        (refreshConcurrency { sampleEnv with MANTIS_ENRICH_CONCURRENCY := none }) fuel 0
        twelveRows idleJob = some (runs, out) →
      runs.length = 3 ∧ (runs.map ChunkRun.rows).flatten = twelveRows ∧
      out.2.current = 12 :=
  ⟨by decide, by decide,
    ((enrichLoop_terminates_iff twelveRowInputs.fetch twelveRowInputs.clock
      { sampleEnv with MANTIS_ENRICH_CONCURRENCY := none } twelveRows (by decide)
      idleJob).2.1 5 (by decide) (by decide)).2⟩

/-- C28: with a positive concurrency, every value of `refreshJob` in the course of a bulk
refresh (the value set when the job is triggered, the value once `total` is set, the value
after each row completion, and the value left at the end of the job, with or without an
error) satisfies `success + failed = current`, `current ≤ total`,
`0 ≤ progress ≤ 100` for the progress of the status endpoints, and never has
`isRunning = true` together with an error; so do the initial value and the value left by
the route `POST /api/mantis/refresh`.  A job whose export parses to `N` rows ends within
`N` iterations and goes through `N + 3` values, the last being the final state of the
job; a job whose preparation throws goes through two values. -/
theorem refresh_job_invariant (inp : JobInputs) (fs : FileSystem) (c : Int) (hc : 0 < c)
    (hconc : inp.concurrency = some c) :
    JobInvariant idleJob ∧
    (∀ job env rid startIso, JobInvariant job →
      JobInvariant (postRefresh job env rid startIso).2.1) ∧
    (∀ fuel states, refreshJobStates fuel inp fs = some states →
      ∀ st ∈ states, JobInvariant st) ∧
    (∀ fuel rows,
      prepareRows inp.login inp.loadFilter inp.csvExport inp.parse = .ok rows →
      rows.length ≤ fuel →
      ∃ states final fs2, refreshJobStates fuel inp fs = some states ∧
        runRefreshJob fuel inp fs = some (final, fs2) ∧
        states.getLast? = some final ∧ states.length = rows.length + 3) ∧
    (∀ fuel msg,
      prepareRows inp.login inp.loadFilter inp.csvExport inp.parse = .error msg →
      refreshJobStates fuel inp fs =
        some [startJob inp.startIso,
          { startJob inp.startIso with error := some msg, isRunning := false }]) := by
  have hstart : ∀ iso, JobInvariant (startJob iso) := fun iso =>
    JobInvariant_of _ rfl (le_refl _) (fun _ => rfl)
  refine ⟨JobInvariant_of _ rfl (le_refl _) (fun _ => rfl), ?_, ?_, ?_, ?_⟩
  · intro job env rid startIso hjob
    unfold postRefresh
    split
    · exact hjob
    · split
      · exact hjob
      · exact hstart startIso
  · intro fuel states h
    unfold refreshJobStates at h
    cases hp : prepareRows inp.login inp.loadFilter inp.csvExport inp.parse with
    | error m =>
      simp only [hp, Option.some.injEq] at h
      rw [← h]
      intro st hst
      simp only [List.mem_cons, List.mem_singleton, List.not_mem_nil, or_false] at hst
      rcases hst with hst | hst
      · rw [hst]
        exact hstart _
      · rw [hst]
        exact JobInvariant_endJob _ _ rfl (le_refl _)
    | ok rows =>
      simp only [hp, hconc] at h
      cases ht : enrichLoopTrace inp.fetch inp.clock (some c) fuel 0 rows
          { startJob inp.startIso with total := rows.length } with
      | none =>
        simp only [ht] at h
        exact absurd h (by simp)
      | some r =>
        obtain ⟨runs, rows2, job2⟩ := r
        simp only [ht, Option.some.injEq] at h
        obtain ⟨h2, _, _, h5⟩ := enrichLoopTrace_chunked inp.fetch inp.clock c hc fuel rows
          _ runs (rows2, job2) ht
        have hcn : 0 < c.toNat := by omega
        have hst := ChunkedFrom_states c.toNat 0 hcn _ rows runs h2
        rw [← h]
        intro st hmem
        simp only [List.mem_cons, List.mem_append, List.mem_singleton, List.not_mem_nil,
          or_false] at hmem
        rcases hmem with hm | hm | hm | hm
        · rw [hm]
          exact hstart _
        · rw [hm]
          exact JobInvariant_of _ rfl (Nat.zero_le _) (fun _ => rfl)
        · obtain ⟨n, hn1, hn2, hn3⟩ := hst st hm
          exact JobInvariant_advanced _ st n rfl
            (by simp only [startJob]; omega) rfl hn3
        · rw [hm]
          unfold Advanced at h5
          simp only [startJob] at h5
          exact JobInvariant_endJob _ _ (by omega) (by omega)
  · intro fuel rows hp hfuel
    obtain ⟨runs, out, h1, _⟩ := enrichLoopTrace_positive inp.fetch inp.clock c hc fuel 0
      (le_refl 0) rows { startJob inp.startIso with total := rows.length }
      (by simpa using hfuel)
    obtain ⟨rows2, job2⟩ := out
    obtain ⟨h2, h3, _, _⟩ := enrichLoopTrace_chunked inp.fetch inp.clock c hc fuel rows
      _ runs (rows2, job2) h1
    have hcn : 0 < c.toNat := by omega
    have hflat := ChunkedFrom_flatten _ _ _ _ _ h2
    have hlen : ((runs.map ChunkRun.states).flatten).length = rows.length := by
      have hsz := ChunkedFrom_sizes c.toNat 0 hcn _ rows runs h2
      have e1 : ∀ (l : List ChunkRun), (∀ run ∈ l, run.states.length = run.rows.length) →
          ((l.map ChunkRun.states).flatten).length =
            ((l.map ChunkRun.rows).flatten).length := by
        intro l
        induction l with
        | nil => intro _; rfl
        | cons r l ih =>
          intro hl
          simp only [List.map_cons, List.flatten_cons, List.length_append]
          rw [hl r (List.mem_cons_self _ _),
            ih (fun run hrun => hl run (List.mem_cons_of_mem _ hrun))]
      rw [e1 runs (fun run hrun => (hsz run hrun).2.2), hflat]
    unfold refreshJobStates runRefreshJob refreshTry
    simp only [hp, hconc, h1, h3]
    cases hw : (writeCacheAtomic fs rows2
        { totalRows := job2.total, enrichedTotal := job2.current,
          enrichedSuccess := job2.success, enrichedFailed := job2.failed }
        inp.writeStamp inp.writeFault).2 with
    | ok u =>
      refine ⟨_, _, _, rfl, rfl, ?_, ?_⟩
      · exact List.getLast?_concat (_ :: _ :: _)
      · simp [hlen]
    | error m =>
      refine ⟨_, _, _, rfl, rfl, ?_, ?_⟩
      · exact List.getLast?_concat (_ :: _ :: _)
      · simp [hlen]
  · intro fuel msg hp
    unfold refreshJobStates
    simp only [hp]
    rfl

/-- Instance of C28: the 15 job states of a refresh of twelve rows with concurrency 5. -/
theorem refresh_job_invariant_witness :
    (0 : Int) < 5 ∧ twelveRowInputs.concurrency = some 5 ∧
    ∃ states final fs2, refreshJobStates 12 twelveRowInputs earlierFiles = some states ∧
      runRefreshJob 12 twelveRowInputs earlierFiles = some (final, fs2) ∧
      states.getLast? = some final ∧ states.length = 15 ∧
      ∀ st ∈ states, JobInvariant st :=
  ⟨by decide, rfl,
    let ⟨states, final, fs2, h1, h2, h3, h4⟩ :=
      (refresh_job_invariant twelveRowInputs earlierFiles 5 (by decide) rfl).2.2.2.1 12
        twelveRows rfl (by decide)
    ⟨states, final, fs2, h1, h2, h3, h4,
      (refresh_job_invariant twelveRowInputs earlierFiles 5 (by decide) rfl).2.2.1 12
        states h1⟩⟩

/-- C27: in every reachable state of the priority cache (empty at the start, then changed
by calls of `fetchPriority` and by the `delete` of the route `GET /api/mantis/priority-p`,
with any arguments and any answers), every stored value is the empty string or `P`
followed by one digit 1-9, never `ERR`; the reason of an entry is `not_found` exactly when
its value is empty; every value returned by `fetchPriority` from such a state is the empty
string, `ERR` or such a token; and the route leaves a reachable state and sends back such
a value. -/
theorem priority_cache_invariant (c : PriorityCache) (h : CacheReachable c) :
    (∀ kv ∈ c, (kv.2.value = [] ∨ ∃ d, TokenText kv.2.value d) ∧
      kv.2.value ≠ "ERR".toList ∧ (kv.2.reason = .not_found ↔ kv.2.value = [])) ∧
    (∀ id now response stamp,
      (fetchPriority c id now response stamp).value = [] ∨
      (fetchPriority c id now response stamp).value = "ERR".toList ∨
      ∃ d, TokenText (fetchPriority c id now response stamp).value d) ∧
    (∀ id loginResult now response stamp,
      CacheReachable (lazyPriority c id loginResult now response stamp).2 ∧
      ∀ v, (lazyPriority c id loginResult now response stamp).1 = .ok v →
        v = [] ∨ v = "ERR".toList ∨ ∃ d, TokenText v d) := by
  have hv := CacheReachable.valid c h
  refine ⟨?_, ?_, ?_⟩
  · intro kv hkv
    obtain ⟨h1, h2⟩ := hv kv hkv
    refine ⟨h1, ?_, h2⟩
    rcases h1 with h1 | ⟨d, h1, _⟩
    · rw [h1]
      decide
    · rw [h1]
      intro hbad
      have hlen := congrArg List.length hbad
      simp at hlen
  · intro id now response stamp
    exact (fetchPriority_valid c hv id now response stamp).2
  · intro id loginResult now response stamp
    unfold lazyPriority
    cases loginResult with
    | error m =>
      refine ⟨h, ?_⟩
      intro v hbad
      exact absurd hbad (by simp)
    | ok u =>
      have hdel := CacheReachable.delete c (stripLeadingZeros id) h
      refine ⟨CacheReachable.fetch _ _ now response stamp hdel, ?_⟩
      intro v hval
      simp only [Except.ok.injEq] at hval
      rw [← hval]
      exact (fetchPriority_valid _ (CacheReachable.valid _ hdel) _ now response stamp).2

/-- Instance of C27: the cache left by a first look-up of ticket 101 on the fixture
page. -/
theorem priority_cache_invariant_witness :
    CacheReachable (fetchPriority [] "101".toList 0 (.ok fixturePage) 0).cache ∧
    (∀ kv ∈ (fetchPriority [] "101".toList 0 (.ok fixturePage) 0).cache,
      (kv.2.value = [] ∨ ∃ d, TokenText kv.2.value d) ∧
      kv.2.value ≠ "ERR".toList ∧ (kv.2.reason = .not_found ↔ kv.2.value = [])) :=
  ⟨CacheReachable.fetch [] "101".toList 0 (.ok fixturePage) 0 CacheReachable.start,
    (priority_cache_invariant _
      (CacheReachable.fetch [] "101".toList 0 (.ok fixturePage) 0 CacheReachable.start)).1⟩

/-- C24, fails for the fallback strategy: on a page of the older layout (no `bugnote`
element, a `table.width100` row whose first of two cells has the class `bugnote-public`,
followed by a row with the text) `fetchFullIssueDetails` returns a note with an author and
a text and no date.  What holds: the notes are those of the primary strategy whenever it
finds one, each with a date, in document order of the `bugnote` elements; the fallback
runs only when the primary strategy found none, and none of its notes has a date. -/
theorem fallback_note_without_date :
    primaryNotes legacyNotesPage = [] ∧
    extractNotes legacyNotesPage =
      [{ author := "alice 2020-01-02".toList, date := none, text := "First note".toList }] ∧
    (fetchFullIssueDetails (.ok legacyNotesPage) "101".toList).map IssueDetails.notes =
      some [{ author := "alice 2020-01-02".toList, date := none,
              text := "First note".toList }] ∧
    (∀ doc, primaryNotes doc ≠ [] → extractNotes doc = primaryNotes doc) ∧
    (∀ doc, primaryNotes doc = [] → extractNotes doc = fallbackNotes doc) ∧
    (∀ doc, ∀ n ∈ primaryNotes doc, n.date ≠ none ∧ n.text ≠ []) ∧
    (∀ doc, ∀ n ∈ fallbackNotes doc, n.date = none ∧ n.text ≠ []) := by
  refine ⟨by decide, by decide, by decide, ?_, ?_, ?_, ?_⟩
  · intro doc h
    unfold extractNotes
    have hlen : ¬ ((select isBugnote doc).filterMap bugnoteNote).length = 0 := by
      intro h0
      exact h (List.length_eq_zero.1 h0)
    simp only [hlen, if_false]
    rfl
  · intro doc h
    unfold extractNotes
    have hlen : ((select isBugnote doc).filterMap bugnoteNote).length = 0 := by
      unfold primaryNotes at h
      rw [h]
      rfl
    simp only [hlen, if_true]
    rfl
  · intro doc n hn
    unfold primaryNotes at hn
    obtain ⟨el, _, hel⟩ := List.mem_filterMap.1 hn
    unfold bugnoteNote at hel
    simp only [] at hel
    split at hel
    · exact absurd hel (by simp)
    · rename_i htext
      simp only [Option.some.injEq] at hel
      rw [← hel]
      refine ⟨by simp, ?_⟩
      intro hnil
      apply htext
      simp only [] at hnil
      rw [hnil]
      rfl
  · intro doc n hn
    unfold fallbackNotes at hn
    obtain ⟨row, _, hrow⟩ := List.mem_filterMap.1 hn
    unfold fallbackNote at hrow
    split at hrow
    · split at hrow
      · simp only [] at hrow
        split at hrow
        · exact absurd hrow (by simp)
        · rename_i htext
          simp only [Option.some.injEq] at hrow
          rw [← hrow]
          refine ⟨rfl, ?_⟩
          intro hnil
          apply htext
          simp only [] at hnil
          rw [hnil]
          rfl
      · exact absurd hrow (by simp)
    · exact absurd hrow (by simp)

/-- C25 as stated fails: the icon link of `iconLinkPage` stands in a row of the attachment
table, its `href` contains `file_download.php` and its text (empty) is none of the action
captions, yet no attachment is kept for it. -/
theorem attachment_claim_counterexample :
    (attachmentRows iconLinkPage).length = 1 ∧
    (∀ row ∈ attachmentRows iconLinkPage, rowLinks row = [iconLink]) ∧
    iconLink.attr "href".toList = some "file_download.php?file_id=7&type=bug".toList ∧
    includes "file_download.php?file_id=7&type=bug".toList "file_download.php".toList = true ∧
    trim iconLink.textContent ∉ actionCaptions ∧
    extractAttachments iconLinkPage = [] ∧
    (fetchFullIssueDetails (.ok iconLinkPage) "101".toList).map IssueDetails.attachments =
      some [] := by
  refine ⟨by decide, ?_, rfl, by decide, by decide, by decide, by decide⟩
  intro row hrow
  have hrows : attachmentRows iconLinkPage =
      [plainElement "tr" [plainElement "td" [iconLink]]] := rfl
  rw [hrows] at hrow
  rw [List.mem_singleton.1 hrow]
  rfl

/-- C25, amended: the rows below the attachment containers are taken in document order,
and the links inside each row in document order; a link gives an attachment exactly when
its `href` holds `file_download.php`, `download` or `plugin.php` and its trimmed text is
not empty and is none of the four captions `[Détacher]`, `[Supprimer]`, `Détacher`,
`Supprimer`; the attachment has the trimmed text as name and the `href` as url.  So the
attachments of a page are those of the kept links of its rows, row by row, and on a page
with one such row they are those of the kept links of the row in document order. -/
theorem extractAttachments_spec (doc : Document) :
    (∀ link a, linkAttachment link = some a ↔
      KeptLink link ∧ a.name = trim link.textContent ∧ some a.url = link.attr "href".toList) ∧
    (∀ a, a ∈ extractAttachments doc ↔
      ∃ row ∈ attachmentRows doc, ∃ link ∈ rowLinks row, linkAttachment link = some a) ∧
    extractAttachments doc =
      ((attachmentRows doc).map (fun row => (rowLinks row).filterMap linkAttachment)).flatten ∧
    (∀ row, attachmentRows doc = [row] →
      extractAttachments doc = (rowLinks row).filterMap linkAttachment) ∧
    extractAttachments detailPage =
      [{ name := "capture.png".toList, url := "file_download.php?file_id=7".toList }] := by
  have hdef : extractAttachments doc =
      ((attachmentRows doc).map
        (fun row => (rowLinks row).filterMap linkAttachment)).flatten := by
    unfold extractAttachments attachmentRows rowLinks
    rw [List.map_map]
    rfl
  refine ⟨?_, ?_, hdef, ?_, by decide⟩
  · intro link a
    unfold linkAttachment KeptLink
    cases hhref : link.attr "href".toList with
    | none => simp
    | some href =>
      simp only []
      constructor
      · intro h
        split at h
        · rename_i hcond
          simp only [Option.some.injEq] at h
          simp only [Bool.and_eq_true, Bool.or_eq_true, Bool.not_eq_true',
            List.isEmpty_eq_false, List.isEmpty_iff, ne_eq] at hcond
          obtain ⟨⟨⟨h1, h2⟩, h3⟩, h4⟩ := hcond
          rw [← h]
          refine ⟨⟨href, rfl, ?_, ?_, ?_, ?_⟩, rfl, rfl⟩
          · intro hnil
            rw [hnil] at h1
            simp at h1
          · rcases h2 with (h2 | h2) | h2
            · exact Or.inl h2
            · exact Or.inr (Or.inl h2)
            · exact Or.inr (Or.inr h2)
          · intro hnil
            rw [hnil] at h3
            simp at h3
          · intro hmem
            have : actionCaptions.contains (trim link.textContent) = true :=
              List.elem_eq_true_of_mem hmem
            rw [this] at h4
            exact absurd h4 (by simp)
        · exact absurd h (by simp)
      · rintro ⟨⟨href2, he, h1, h2, h3, h4⟩, hn, hu⟩
        simp only [Option.some.injEq] at he hu
        subst he
        have c1 : href.isEmpty = false := by
          cases href with
          | nil => exact absurd rfl h1
          | cons x xs => rfl
        have c3 : (trim link.textContent).isEmpty = false := by
          cases ht : trim link.textContent with
          | nil => exact absurd ht h3
          | cons x xs => rfl
        have c4 : actionCaptions.contains (trim link.textContent) = false := by
          cases hc : actionCaptions.contains (trim link.textContent) with
          | false => rfl
          | true => exact absurd (List.mem_of_elem_eq_true hc) h4
        have c2 : (includes href "file_download.php".toList ||
            includes href "download".toList || includes href "plugin.php".toList) = true := by
          rw [Bool.or_eq_true, Bool.or_eq_true]
          rcases h2 with h2 | h2 | h2
          · exact Or.inl (Or.inl h2)
          · exact Or.inl (Or.inr h2)
          · exact Or.inr h2
        simp only [c1, c2, c3, c4, Bool.not_false, Bool.and_self, if_true, Option.some.injEq]
        cases a with
        | mk name url =>
          simp only [] at hn hu
          rw [hn, hu]
  · intro a
    rw [hdef]
    simp only [List.mem_flatten, List.mem_map, List.mem_filterMap]
    constructor
    · rintro ⟨l, ⟨row, hrow, hl⟩, ha⟩
      rw [← hl] at ha
      obtain ⟨link, hlink, hk⟩ := List.mem_filterMap.1 ha
      exact ⟨row, hrow, link, hlink, hk⟩
    · rintro ⟨row, hrow, link, hlink, hk⟩
      exact ⟨_, ⟨row, hrow, rfl⟩, List.mem_filterMap.2 ⟨link, hlink, hk⟩⟩
  · intro row hrow
    rw [hdef, hrow]
    simp

/-- C26 as stated fails: a row whose `Catégorie` is `Projet` is accepted by the filter of
the tab `sd-en-cours`, because its `Domaine (Toray)` is `SD`. -/
theorem sd_en_cours_claim_counterexample :
    domainSdRow.get "Catégorie".toList = some "Projet".toList ∧
    domainSdRow.get "Domaine (Toray)".toList = some "SD".toList ∧
    sdEnCoursFilterFn domainSdRow = true := by
  decide

/-- C26, amended: the filter of the tab `sd-en-cours` accepts a row exactly when its
`Catégorie` or its `Domaine (Toray)`, trimmed, is `SD`, its state (`État`, or `Etat` when
`État` is missing or empty), trimmed and lower-cased, is one of `nouveau`, `accepté`,
`chiffrage`, `validation chiffrage`, `réalisation`, `résolu`, and its `Affecté à`, trimmed
and lower-cased, is not `yann.deschamps`; a missing column counts as the empty string.  In
particular every row that meets the displayed rule with `Catégorie = SD` is accepted. -/
theorem sdEnCoursFilterFn_spec (row : Row) :
    (sdEnCoursFilterFn row = true ↔
      (trim (orDefault (row.get "Catégorie".toList) []) = "SD".toList ∨
        trim (orDefault (row.get "Domaine (Toray)".toList) []) = "SD".toList) ∧
      toLowerCase (trim (orDefault (row.get "État".toList)
          (orDefault (row.get "Etat".toList) []))) ∈
        ["nouveau".toList, "accepté".toList, "chiffrage".toList,
          "validation chiffrage".toList, "réalisation".toList, "résolu".toList] ∧
      toLowerCase (trim (orDefault (row.get "Affecté à".toList) [])) ≠
        "yann.deschamps".toList) ∧
    (∀ cat state, row.get "Catégorie".toList = some cat → trim cat = "SD".toList →
      row.get "État".toList = some state →
      toLowerCase (trim state) ∈
        ["nouveau".toList, "accepté".toList, "chiffrage".toList,
          "validation chiffrage".toList, "réalisation".toList, "résolu".toList] →
      toLowerCase (trim (orDefault (row.get "Affecté à".toList) [])) ≠
        "yann.deschamps".toList →
      sdEnCoursFilterFn row = true) := by
  have hiff : sdEnCoursFilterFn row = true ↔
      (trim (orDefault (row.get "Catégorie".toList) []) = "SD".toList ∨
        trim (orDefault (row.get "Domaine (Toray)".toList) []) = "SD".toList) ∧
      toLowerCase (trim (orDefault (row.get "État".toList)
          (orDefault (row.get "Etat".toList) []))) ∈
        ["nouveau".toList, "accepté".toList, "chiffrage".toList,
          "validation chiffrage".toList, "réalisation".toList, "résolu".toList] ∧
      toLowerCase (trim (orDefault (row.get "Affecté à".toList) [])) ≠
        "yann.deschamps".toList := by
    unfold sdEnCoursFilterFn
    simp only [Bool.and_eq_true, Bool.or_eq_true, beq_iff_eq, bne_iff_ne, ne_eq,
      List.contains_eq_any_beq, List.any_eq_true, and_assoc]
    constructor
    · rintro ⟨h1, ⟨x, hx, hbeq⟩, h3⟩
      refine ⟨h1, ?_, h3⟩
      rw [hbeq]
      exact hx
    · rintro ⟨h1, h2, h3⟩
      exact ⟨h1, ⟨_, h2, rfl⟩, h3⟩
  refine ⟨hiff, ?_⟩
  intro cat state hcat hsd hstate hmem hass
  have hcne : cat ≠ [] := by
    intro hnil
    rw [hnil] at hsd
    exact absurd hsd (by decide)
  have hsne : state ≠ [] := by
    intro hnil
    rw [hnil] at hmem
    exact absurd hmem (by decide)
  have e1 : orDefault (row.get "Catégorie".toList) [] = cat := by
    rw [hcat]
    unfold orDefault
    cases cat with
    | nil => exact absurd rfl hcne
    | cons x xs => rfl
  have e2 : orDefault (row.get "État".toList) (orDefault (row.get "Etat".toList) []) =
      state := by
    rw [hstate]
    unfold orDefault
    cases state with
    | nil => exact absurd rfl hsne
    | cons x xs => rfl
  rw [hiff, e1, e2]
  exact ⟨Or.inl hsd, hmem, hass⟩

/-- C29: for every row the predicate that selects `sd_en_cours_items` in the KPI route
gives the same answer as the filter of the tab `sd-en-cours`, and the predicate that
selects `sd_testable_items` the same answer as the filter of the tab `sd-testable`; no row
satisfies both predicates, so no row of the data is in both selections; and for every data
list the total of each KPI is the number of rows shown in the corresponding tab. -/
theorem kpi_predicates_match_tabs :
    (∀ row, isSdEnCoursItem row = sdEnCoursFilterFn row) ∧
    (∀ row, isSdTestableItem row = sdTestableFilterFn row) ∧
    (∀ row, ¬ (isSdEnCoursItem row = true ∧ isSdTestableItem row = true)) ∧
    (∀ row, ¬ (sdEnCoursFilterFn row = true ∧ sdTestableFilterFn row = true)) ∧
    (∀ data row, ¬ (row ∈ sd_en_cours_items data ∧ row ∈ sd_testable_items data)) ∧
    (∀ data, (computeBreakdown (sd_en_cours_items data)).total =
      (filteredData sdEnCoursFilterFn data).length) ∧
    (∀ data, (computeBreakdown (sd_testable_items data)).total =
      (filteredData sdTestableFilterFn data).length) ∧
    isSdEnCoursItem domainSdRow = true ∧ isSdTestableItem testableRow = true := by
  have h1 : ∀ row, isSdEnCoursItem row = sdEnCoursFilterFn row := fun _ => rfl
  have h2 : ∀ row, isSdTestableItem row = sdTestableFilterFn row := fun _ => rfl
  have h3 : ∀ row, ¬ (isSdEnCoursItem row = true ∧ isSdTestableItem row = true) := by
    intro row
    unfold isSdEnCoursItem isSdTestableItem
    simp only [Bool.and_eq_true, bne_iff_ne, ne_eq, beq_iff_eq]
    rintro ⟨⟨_, hne⟩, ⟨_, heq⟩⟩
    exact hne heq
  have hfd : ∀ (f : Row → Bool) (data : List Row), filteredData f data = data.filter f := by
    intro f data
    unfold filteredData
    split
    · rename_i h0
      rw [List.length_eq_zero.1 h0]
      rfl
    · rfl
  refine ⟨h1, h2, h3, ?_, ?_, ?_, ?_, by decide, by decide⟩
  · intro row
    rw [← h1, ← h2]
    exact h3 row
  · rintro data row ⟨ha, hb⟩
    unfold sd_en_cours_items at ha
    unfold sd_testable_items at hb
    exact h3 row ⟨(List.mem_filter.1 ha).2, (List.mem_filter.1 hb).2⟩
  · intro data
    rw [hfd]
    unfold computeBreakdown sd_en_cours_items
    simp only []
    rw [funext h1]
  · intro data
    rw [hfd]
    unfold computeBreakdown sd_testable_items
    simp only []
    rw [funext h2]

end Mantis
